import Mathlib

/-!
Dance.cpp : decoders and pose evaluator.

A shallow embedding of `src/Dance.cpp` (the functions `getQuat` and
`align_to`, the nodes `ReadDanceAnm` and `ReadDanceCamera` with their decode
and sampling, the bone loop and the section passes of `ReadDanceMesh`, and
the node `EvalDance`), followed by the properties proved about it.

Conventions.
* `float` values are modelled by an ordered field (`ℚ` when a definition is
  run, `ℝ` when a square root is needed): every statement is about exact
  arithmetic.
* Unsigned machine integers are natural numbers, reduced modulo `2 ^ w`
  where the source can wrap.
* A `uint32_t` value assigned to an `int` is converted (`toInt32`), and
  `int` arithmetic that overflows is an error value of the model.
* A read outside a container, which is undefined behaviour in the source, is
  an error value of the model (`none`, or an `Except` error).
-/

namespace Dance

/-! ## Vectors -/

/-- The source type `vec3f` (also `glm::vec3`), components indexed `0..2`. -/
abbrev Vec3 (α : Type) := Fin 3 → α

/-- The source type `vec4f` (also `glm::vec4`, `vec4i`), components indexed `0..3`. -/
abbrev Vec4 (α : Type) := Fin 4 → α

/-- The sum of the squares of the four components. -/
def normSq {α : Type} [Mul α] [Add α] (q : Vec4 α) : α :=
  q 0 * q 0 + q 1 * q 1 + q 2 * q 2 + q 3 * q 3

/-! ## `getQuat` (Dance.cpp 218-251) -/

section GetQuat

variable {α : Type} [LinearOrderedField α]

/-- The loop `for (i = 5; i >= 0; i--) { num <<= 8; num += data[i]; }` on a
`uint64_t` accumulator that starts at `0`. -/
def packNum (data : Fin 6 → Fin 256) : Nat :=
  ([5, 4, 3, 2, 1, 0] : List (Fin 6)).foldl
    (fun num i => ((num <<< 8) % 2 ^ 64 + (data i).val) % 2 ^ 64) 0

/-- The map `(float(raw) - 16383.5f) / 23169.767578125f`. -/
def dequant (raw : Nat) : α :=
  ((raw : α) - 16383.5) / 23169.767578125

/-- The selector `_type = num & 3`. -/
def quatType (data : Fin 6 → Fin 256) : Nat :=
  packNum data &&& 3

/-- The field `_8`, extracted first (after `num >>= 2`). -/
def field8 (data : Fin 6 → Fin 256) : α :=
  dequant ((packNum data >>> 2) &&& 0x7FFF)

/-- The field `_6`, extracted second (after a further `num >>= 15`). -/
def field6 (data : Fin 6 → Fin 256) : α :=
  dequant (((packNum data >>> 2) >>> 15) &&& 0x7FFF)

/-- The field `_7`, extracted third (after a further `num >>= 15`). -/
def field7 (data : Fin 6 → Fin 256) : α :=
  dequant ((((packNum data >>> 2) >>> 15) >>> 15) &&& 0x7FFF)

/-- The argument of `std::sqrt` in `getQuat`: `1 - (_8*_8 + _6*_6 + _7*_7)`. -/
def radicand (data : Fin 6 → Fin 256) : α :=
  1 - ((field8 data : α) * field8 data + field6 data * field6 data + field7 data * field7 data)

/-- The vector `quat` of `getQuat` after the `if`/`else` chain on `_type` and
before the snapping loop. The square root is a parameter: `Real.sqrt` over
`ℝ`. -/
def getQuatRaw (sqrt : α → α) (data : Fin 6 → Fin 256) : Vec4 α :=
  let _8 : α := field8 data
  let _6 : α := field6 data
  let _7 : α := field7 data
  let _5 : α := sqrt (radicand data)
  if quatType data = 0 then ![_5, _7, _6, _8]
  else if quatType data = 1 then ![_7, _5, _6, _8]
  else if quatType data = 2 then ![_7, _6, _5, _8]
  else ![_7, _6, _8, _5]

/-- The loop `for (i = 0; i < 3; i++) if (abs(quat[i]) < 0.0001f) quat[i] = 0;`. -/
def snapQuat (quat : Vec4 α) : Vec4 α :=
  ([0, 1, 2] : List (Fin 4)).foldl
    (fun q i => if |q i| < 0.0001 then Function.update q i 0 else q) quat

/-- The function `getQuat`: unpack, reconstruct, permute, snap. -/
def getQuat (sqrt : α → α) (data : Fin 6 → Fin 256) : Vec4 α :=
  snapQuat (getQuatRaw sqrt data)

/-- In the words of the specification: the six bytes as a little-endian
integer, `num = sum of d[i] * 256^i`. -/
def specNum (data : Fin 6 → Fin 256) : Nat :=
  ∑ i : Fin 6, (data i).val * 256 ^ i.val

/-- In the words of the specification: the 15-bit field of `num` that starts
at bit `shift` (2 for `a`, 17 for `b`, 32 for `c`), mapped by
`(raw - 16383.5) / 23169.767578125`. -/
def specField (data : Fin 6 → Fin 256) (shift : Nat) : α :=
  (((specNum data / 2 ^ shift % 2 ^ 15 : Nat) : α) - 16383.5) / 23169.767578125

/-- In the words of the specification: `recon = sqrt (1 - (a^2 + b^2 + c^2))`. -/
def specRecon (sqrt : α → α) (data : Fin 6 → Fin 256) : α :=
  sqrt (1 - ((specField data 2 : α) ^ 2 + (specField data 17 : α) ^ 2
    + (specField data 32 : α) ^ 2))

end GetQuat

/-! ## Sparse tracks of `ReadDanceAnm` (Dance.cpp 306-335, 351-394) -/

section Sparse
variable {V : Type}

/-- The call `xs.resize(n, d)` of `std::vector`: the first `n` elements are
kept and the vector is padded with copies of `d` up to length `n`. -/
def vecResize (xs : List V) (n : Nat) (d : V) : List V :=
  xs.take n ++ List.replicate (n - xs.length) d

/-- The loop `for (j = 0; j < index.size(); j++) mapping[index[j]] = vals[j];`
on an empty `std::map<int, V>`. The map is an association list whose newest
binding comes first, so that `List.lookup` returns the value assigned last. -/
def buildMapping (index : List Nat) (vals : List V) : List (Nat × V) :=
  (index.zip vals).foldl (fun m p => (p.1, p.2) :: m) []

/-- One iteration of the fill loop at frame `f`:
`if (mapping.count(f)) arr[f] = mapping[f]; else if (f > 0) arr[f] = arr[f-1];`. -/
def fillStep (mapping : List (Nat × V)) (arr : List V) (f : Nat) : Option (List V) :=
  match mapping.lookup f with
  | some v => if f < arr.length then some (arr.set f v) else none
  | none =>
    if 0 < f then
      match arr[f - 1]? with
      | some v => if f < arr.length then some (arr.set f v) else none
      | none => none
    else some arr

/-- The loop `for (f = 0; f < arr.size(); f++) ...` of the sparse branches. -/
def forwardFill (mapping : List (Nat × V)) (arr : List V) : Option (List V) :=
  (List.range arr.length).foldlM (fillStep mapping) arr

/-- The conversion of a `uint32_t` value to `int`, as in
`max_frame = reader.read_LE<uint32_t>()`: the values from `2 ^ 31` on become
negative (`0xFFFFFFFF` becomes `-1`). -/
def toInt32 (u : Nat) : Int :=
  if u % 2 ^ 32 < 2 ^ 31 then ((u % 2 ^ 32 : Nat) : Int)
  else ((u % 2 ^ 32 : Nat) : Int) - 2 ^ 32

/-- The size argument of `resize(max_frame + 1)` for the `int` variable
`max_frame`. The sum is formed in `int`: for `max_frame = 2 ^ 31 - 1` it
overflows, which is undefined; a negative sum converts to a `size_t` above
`max_size()`, for which `resize` throws `std::length_error`. In both cases
there is no size (`none`) and the decode produces no curve. -/
def resizeCount (max_frame : Int) : Option Nat :=
  if 0 ≤ max_frame + 1 ∧ max_frame + 1 < 2 ^ 31 then some (max_frame + 1).toNat else none

/-- The sparse (`_interpolation == 0`) branch of `ReadDanceAnm` once the
`_count` indices and `_count` values have been read: build the map, resize
the bone's curve `prev` to `max_frame + 1` entries padded with `dflt`, fill.
Here `max_frame` is the value of the `int` member variable. -/
def sparseCurve (dflt : V) (prev : List V) (index : List Nat) (vals : List V)
    (max_frame : Int) : Option (List V) :=
  (resizeCount max_frame).bind
    (fun n => forwardFill (buildMapping index vals) (vecResize prev n dflt))

/-- The value the fill loop leaves at frame `f`, by recursion on `f`. -/
def fillValue (mapping : List (Nat × V)) (first : V) : Nat → V
  | 0 => (mapping.lookup 0).getD first
  | f + 1 => (mapping.lookup (f + 1)).getD (fillValue mapping first f)

end Sparse

/-- The rotation sparse branch (Dance.cpp 306-335): the curve is padded with
the identity `{0, 0, 0, 1}`. -/
def rotSparse {α : Type} [Zero α] [One α] (prev : List (Vec4 α)) (index : List Nat)
    (rots : List (Vec4 α)) (max_frame : Int) : Option (List (Vec4 α)) :=
  sparseCurve ![0, 0, 0, 1] prev index rots max_frame

/-- The translation sparse branch (Dance.cpp 351-394): `resize(max_frame + 1)`
pads the curve with value-initialised, that is zero, vectors. -/
def posSparse {α : Type} [Zero α] (prev : List (Vec3 α)) (index : List Nat)
    (poss : List (Vec3 α)) (max_frame : Int) : Option (List (Vec3 α)) :=
  sparseCurve ![0, 0, 0] prev index poss max_frame

/-- The forward fill in the words of the specification: `curve` has
`maxFrame + 1` entries and at each frame `f` holds the value paired with the
greatest listed index `≤ f` (the pair listed last when that index is listed
more than once), or `dflt` when no listed index is `≤ f`. -/
def IsForwardFill {V : Type} (dflt : V) (index : List Nat) (vals : List V) (maxFrame : Nat)
    (curve : List V) : Prop :=
  curve.length = maxFrame + 1 ∧
    ∀ f, f ≤ maxFrame →
      ((∀ j (hj : j < index.length), f < index[j]) → curve[f]? = some dflt) ∧
      (∀ j (hj : j < index.length) (hv : j < vals.length), index[j] ≤ f →
        (∀ j' (hj' : j' < index.length), index[j'] ≤ f → index[j'] ≤ index[j]) →
        (∀ j' (hj' : j' < index.length), j < j' → index[j'] ≠ index[j]) →
        curve[f]? = some vals[j])

/-! ## Sampling loop of `ReadDanceAnm` (Dance.cpp 431-448) -/

/-- Modelled from the spec: `zeno::clamp` belongs to the host library and is
not part of the source file; the specification says that sampling "clamps
`frame` into `[0, trackLength-1]`", that is `min (max x lo) hi`. -/
def clamp (x lo hi : Int) : Int :=
  min (max x lo) hi

/-- The subscript `xs[i]` of a `std::vector` with an `int` index: an index
that is negative or not below the size is an out-of-bounds read. -/
def readAt {V : Type} (xs : List V) (i : Int) : Option V :=
  if i < 0 then none else xs[i.toNat]?

/-- The translation of one bone: the output vertex is value-initialised to
zero and overwritten only `if (arc_pos[b].size())`, with
`_frame = clamp(frame, 0, arc_pos[b].size() - 1)`. -/
def samplePos {α : Type} [Zero α] (frame : Int) (pos : List (Vec3 α)) : Option (Vec3 α) :=
  if pos.length ≠ 0 then readAt pos (clamp frame 0 ((pos.length : Int) - 1))
  else some ![0, 0, 0]

/-- The rotation of one bone: `arc_rot[b][_frame]` with its own clamp
`if (arc_rot[b].size())`, otherwise `{0, 0, 0, 1}`. -/
def sampleRot {α : Type} [Zero α] [One α] (frame : Int) (rot : List (Vec4 α)) :
    Option (Vec4 α) :=
  if rot.length ≠ 0 then readAt rot (clamp frame 0 ((rot.length : Int) - 1))
  else some ![0, 0, 0, 1]

/-- The body of the loop `for (b = 0; b < bone_count; b++)` for bone `b`
(the diagnostic attributes `count`, `interpolation`, `type`, `unknown` and
`addr` are copies of stored values and are left out). -/
def sampleBone {α : Type} [Zero α] [One α] (frame : Int) (arc_pos : List (List (Vec3 α)))
    (arc_rot : List (List (Vec4 α))) (b : Nat) : Option (Vec3 α × Vec4 α) := do
  let pos ← arc_pos[b]?
  let p ← samplePos frame pos
  let rot ← arc_rot[b]?
  let r ← sampleRot frame rot
  pure (p, r)

/-- The sampling loop over `bone_count = arc_pos.size()` bones. -/
def sampleAll {α : Type} [Zero α] [One α] (frame : Int) (arc_pos : List (List (Vec3 α)))
    (arc_rot : List (List (Vec4 α))) : Option (List (Vec3 α × Vec4 α)) :=
  (List.range arc_pos.length).mapM (sampleBone frame arc_pos arc_rot)

/-! ## `ReadDanceMesh`: sections, batches and the remap table (Dance.cpp 76-203) -/

/-- The ways in which the section passes of `ReadDanceMesh` stop without an
output: the assertion on the vertex stride, and the reads that are undefined
behaviour in the source. -/
inductive DecodeError where
  /-- The check `assert(fvf_size == 68)` fails. -/
  | strideAssert
  /-- The call `*std::max_element` on an empty `bone_index`. -/
  | emptyIndexSet
  /-- The call `bone_mapping_section.back()` on an empty vector. -/
  | noBatch
  /-- The reader runs past the end of the remap table region. -/
  | tableRead
  /-- A subscript of `bone_mapping_section`, `bone_mapping_table` or `bi` out of range. -/
  | indexRead
  deriving DecidableEq, Repr

/-- One 68-byte vertex record as the vertex loop reads it: position, four
bone-index bytes, three weights, normal and the two decoded half-float texture
coordinates (tangent and bitangent are read and dropped). -/
structure VertexRec (α : Type) where
  pos : Vec3 α
  b0 : Nat
  b1 : Nat
  b2 : Nat
  b3 : Nat
  w : Vec3 α
  nrm : Vec3 α
  u : α
  v : α

/-- One 64-byte section record with the data it points to: the size byte
`fvf_size`, the `face_count` index triples and the `vert_count` vertices. -/
structure SectionRec (α : Type) where
  fvf_size : Nat
  faces : List (Vec3 Nat)
  verts : List (VertexRec α)

/-- The output primitive `prim`: positions and the attributes `id`, `bi`,
`bw`, `nrm`, `uv`, and the triangles. The source sizes these buffers in pass 1
and writes entry `vi` (`fi`) in increasing order; here each write appends. -/
structure Mesh (α : Type) where
  verts : List (Vec3 α)
  id : List Nat
  bi : List (Vec4 Int)
  bw : List (Vec4 α)
  nrm : List (Vec3 α)
  uv : List (Vec3 α)
  tris : List (Vec3 Nat)

/-- The variables that pass 2 carries from one section to the next. -/
structure Pass2State (α : Type) where
  prim : Mesh α
  vi : Nat
  fi : Nat
  bone_mapping_section : List (Finset Nat)
  bone_map_section_to_batch : List Nat

/-- The variables of the vertex loop of one section. -/
structure VertLoop (α : Type) where
  prim : Mesh α
  vi : Nat
  bone_index : Finset Nat

section MeshDefs

variable {α : Type} [Ring α]

/-- The expression `vec4f(1 - w[0] - w[1] - w[2], w[0], w[1], w[2])`. -/
def boneWeights (w : Vec3 α) : Vec4 α :=
  ![1 - w 0 - w 1 - w 2, w 0, w 1, w 2]

/-- The four bone-index bytes of a vertex, as `vec4i(b0, b1, b2, b3)`. -/
def VertexRec.slots (r : VertexRec α) : Vec4 Int :=
  ![(r.b0 : Int), (r.b1 : Int), (r.b2 : Int), (r.b3 : Int)]

/-- The four `insert` statements on `bone_index` (Dance.cpp 146-152). -/
def insertSlots (bone_index : Finset Nat) (r : VertexRec α) : Finset Nat :=
  let s := insert r.b0 bone_index
  let s := if r.b1 ≠ 0 then insert r.b1 s else s
  let s := if r.b2 ≠ 0 then insert r.b2 s else s
  if r.b3 ≠ 0 then insert r.b3 s else s

/-- The body of the vertex loop of section `i` (Dance.cpp 135-167). -/
def vertexStep (i : Nat) (st : VertLoop α) (r : VertexRec α) : VertLoop α :=
  { prim :=
      { st.prim with
        verts := st.prim.verts ++ [r.pos]
        id := st.prim.id ++ [i]
        bi := st.prim.bi ++ [r.slots]
        bw := st.prim.bw ++ [boneWeights r.w]
        nrm := st.prim.nrm ++ [r.nrm]
        uv := st.prim.uv ++ [![r.u, 1 - r.v, 0]] }
    vi := st.vi + 1
    bone_index := insertSlots st.bone_index r }

/-- Pass 1 (Dance.cpp 85-99): the size byte of each section is asserted and
the vertex and triangle counts are summed. -/
def pass1 (secs : List (SectionRec α)) : Except DecodeError (Nat × Nat) :=
  secs.foldlM (fun (acc : Nat × Nat) s =>
    if s.fvf_size = 68 then
      Except.ok (acc.1 + s.verts.length, acc.2 + s.faces.length)
    else Except.error DecodeError.strideAssert) (0, 0)

/-- The body of the section loop of pass 2 for section `i` (Dance.cpp 112-176):
assertion, triangles offset by `vi`, vertices, then the batch bookkeeping
on the section's `bone_index`. -/
def sectionStep (st : Pass2State α) (i : Nat) (s : SectionRec α) :
    Except DecodeError (Pass2State α) :=
  if s.fvf_size = 68 then
    let tris := st.prim.tris ++ s.faces.map (fun f => ![f 0 + st.vi, f 1 + st.vi, f 2 + st.vi])
    let vs := s.verts.foldl (vertexStep i)
      { prim := { st.prim with tris := tris }, vi := st.vi, bone_index := ∅ }
    if h : vs.bone_index.Nonempty then
      let max_value := vs.bone_index.max' h
      let sets :=
        if max_value = vs.bone_index.card - 1 then st.bone_mapping_section ++ [∅]
        else st.bone_mapping_section
      match sets.getLast? with
      | none => Except.error DecodeError.noBatch
      | some last =>
        Except.ok
          { prim := vs.prim
            vi := vs.vi
            fi := st.fi + s.faces.length
            bone_mapping_section := sets.dropLast ++ [last ∪ vs.bone_index]
            bone_map_section_to_batch := st.bone_map_section_to_batch ++ [sets.length - 1] }
    else Except.error DecodeError.emptyIndexSet
  else Except.error DecodeError.strideAssert

/-- The section loop of pass 2 from section `i` on. -/
def pass2From : Nat → Pass2State α → List (SectionRec α) → Except DecodeError (Pass2State α)
  | _, st, [] => Except.ok st
  | i, st, s :: rest =>
    match sectionStep st i s with
    | Except.ok st' => pass2From (i + 1) st' rest
    | Except.error e => Except.error e

/-- The state before pass 2: empty buffers, `vi = 0`, `fi = 0`, no batch. -/
def pass2Init : Pass2State α :=
  { prim := { verts := [], id := [], bi := [], bw := [], nrm := [], uv := [], tris := [] }
    vi := 0
    fi := 0
    bone_mapping_section := []
    bone_map_section_to_batch := [] }

/-- Pass 2 over all sections. -/
def pass2 (secs : List (SectionRec α)) : Except DecodeError (Pass2State α) :=
  pass2From 0 pass2Init secs

/-- The table loop (Dance.cpp 180-187): for each batch, as many `int16_t`
values as its index set has elements are read from the reader, whose
remaining values are `table`. -/
def readTable : List (Finset Nat) → List Int → Except DecodeError (List (List Int))
  | [], _ => Except.ok []
  | s :: rest, table =>
    if s.card ≤ table.length then
      match readTable rest (table.drop s.card) with
      | Except.ok rows => Except.ok (table.take s.card :: rows)
      | Except.error e => Except.error e
    else Except.error DecodeError.tableRead

/-- The statement `x = bone_mapping_table[batch][x]` for one slot. -/
def remapSlot (row : List Int) (x : Int) : Except DecodeError Int :=
  match readAt row x with
  | some y => Except.ok y
  | none => Except.error DecodeError.indexRead

/-- The loop `for (auto &x : bi[vi]) x = bone_mapping_table[batch][x];`. -/
def remapVertex (row : List Int) (b : Vec4 Int) : Except DecodeError (Vec4 Int) := do
  let y0 ← remapSlot row (b 0)
  let y1 ← remapSlot row (b 1)
  let y2 ← remapSlot row (b 2)
  let y3 ← remapSlot row (b 3)
  pure ![y0, y1, y2, y3]

/-- The vertex loop of pass 3 for one section: `vert_count` times, remap
`bi[vi]` in place and advance `vi`. -/
def remapVerts (table : List (List Int)) (batch : Nat) :
    Nat → List (Vec4 Int) × Nat → Except DecodeError (List (Vec4 Int) × Nat)
  | 0, st => Except.ok st
  | n + 1, st =>
    match table[batch]?, st.1[st.2]? with
    | some row, some b =>
      match remapVertex row b with
      | Except.ok b' => remapVerts table batch n (st.1.set st.2 b', st.2 + 1)
      | Except.error e => Except.error e
    | _, _ => Except.error DecodeError.indexRead

/-- The section loop of pass 3 (Dance.cpp 189-201) from section `i` on. -/
def pass3From (table : List (List Int)) (batches : List Nat) :
    Nat → List (SectionRec α) → List (Vec4 Int) × Nat →
      Except DecodeError (List (Vec4 Int) × Nat)
  | _, [], st => Except.ok st
  | i, s :: rest, st =>
    match batches[i]? with
    | some batch =>
      match remapVerts table batch s.verts.length st with
      | Except.ok st' => pass3From table batches (i + 1) rest st'
      | Except.error e => Except.error e
    | none => Except.error DecodeError.indexRead

/-- The section passes of `ReadDanceMesh::apply`: pass 1, pass 2, the remap
table read from `table`, pass 3; the result is the primitive `prim`. -/
def readSections (secs : List (SectionRec α)) (table : List Int) :
    Except DecodeError (Mesh α) :=
  match pass1 secs with
  | Except.error e => Except.error e
  | Except.ok _ =>
    match pass2 secs with
    | Except.error e => Except.error e
    | Except.ok st =>
      match readTable st.bone_mapping_section table with
      | Except.error e => Except.error e
      | Except.ok rows =>
        match pass3From rows st.bone_map_section_to_batch 0 secs (st.prim.bi, 0) with
        | Except.error e => Except.error e
        | Except.ok r => Except.ok { st.prim with bi := r.1 }

/-- In the words of the specification: the distinct-index set of a section,
every vertex's slot-0 index plus every non-zero index of the slots 1 to 3. -/
def sectionSet (s : SectionRec α) : Finset Nat :=
  (s.verts.map (fun r => r.b0)).toFinset ∪
    ((s.verts.flatMap (fun r => [r.b1, r.b2, r.b3])).filter (fun x => x ≠ 0)).toFinset

/-- The row of section `i`: `bone_mapping_table[bone_map_section_to_batch[i]]`,
empty when a subscript is out of range. -/
def rowOf (table : List (List Int)) (batches : List Nat) (i : Nat) : List Int :=
  ((batches[i]?).bind (fun b => table[b]?)).getD []

/-- The four slots of `b` looked up in `row` (`0` where a slot is out of range). -/
def lookupSlots (row : List Int) (b : Vec4 Int) : Vec4 Int :=
  fun k => (readAt row (b k)).getD 0

/-- The remapped `bi` buffer of the sections from section `i` on: every
vertex's four slots looked up in the row of its section. -/
def remapSpec (table : List (List Int)) (batches : List Nat) :
    Nat → List (SectionRec α) → List (Vec4 Int)
  | _, [] => []
  | i, s :: rest =>
    s.verts.map (fun r => lookupSlots (rowOf table batches i) r.slots)
      ++ remapSpec table batches (i + 1) rest

/-- In the words of the specification: a set is complete when
`max(set) == size(set) - 1`. -/
def isComplete (S : Finset Nat) : Bool :=
  if h : S.Nonempty then decide (S.max' h = S.card - 1) else false

end MeshDefs

/-- A vertex record with the given four bone-index bytes and zero geometry. -/
def vertexOfSlots (a b c d : Nat) : VertexRec ℤ :=
  { pos := ![0, 0, 0], b0 := a, b1 := b, b2 := c, b3 := d, w := ![0, 0, 0], nrm := ![0, 0, 0],
    u := 0, v := 0 }

/-- Three one-vertex sections whose distinct-index sets are `{0,1,2}`, `{3}`
and `{0,1,2,3}`. -/
def batchExample : List (SectionRec ℤ) :=
  [{ fvf_size := 68, faces := [], verts := [vertexOfSlots 0 1 2 0] },
   { fvf_size := 68, faces := [], verts := [vertexOfSlots 3 0 0 0] },
   { fvf_size := 68, faces := [], verts := [vertexOfSlots 0 1 2 3] }]

/-- One section with the single vertex whose bone-index bytes are `0, 1, 2, 0`. -/
def remapExample : List (SectionRec ℤ) :=
  [{ fvf_size := 68, faces := [], verts := [vertexOfSlots 0 1 2 0] }]

/-! ## `EvalDance` (Dance.cpp 597-666) -/

/-- The type `glm::mat4`; entry `(r, c)` is the source's `m[c][r]` (GLM stores
columns). -/
abbrev Mat4 (α : Type) := Matrix (Fin 4) (Fin 4) α

/-- The `bones` primitive: bind positions and the attributes `parent`, `c1`,
`c2`, `c3`, `c4`. -/
structure Bones (α : Type) where
  verts : List (Vec3 α)
  parent : List Int
  c1 : List (Vec4 α)
  c2 : List (Vec4 α)
  c3 : List (Vec4 α)
  c4 : List (Vec4 α)

/-- The `anm` primitive: per-bone translation (`verts`) and rotation (`rot`). -/
structure Anm (α : Type) where
  verts : List (Vec3 α)
  rot : List (Vec4 α)

section EvalDefs

variable {α : Type} [Field α]

/-- The matrix built by `m[0] = a; m[1] = b; m[2] = c; m[3] = d`: the four
vectors are its columns. -/
def matOfCols (a b c d : Vec4 α) : Mat4 α :=
  Matrix.of (fun r col => (![a, b, c, d] : Fin 4 → Vec4 α) col r)

/-- Modelled from the spec: `glm::toMat4(glm::quat(w, x, y, z))` is GLM library
code outside the source file; the specification describes it as "rotation
quaternion → 4×4 rotation matrix". The entries are those of GLM's `mat3_cast`. -/
def toMat4 (w x y z : α) : Mat4 α :=
  !![1 - 2 * (y * y + z * z), 2 * (x * y - w * z), 2 * (x * z + w * y), 0;
     2 * (x * y + w * z), 1 - 2 * (x * x + z * z), 2 * (y * z - w * x), 0;
     2 * (x * z - w * y), 2 * (y * z + w * x), 1 - 2 * (x * x + y * y), 0;
     0, 0, 0, 1]

/-- Modelled from the spec: `glm::translate(v)` is GLM library code outside the
source file; the specification describes it as "a translation matrix for the
sampled translation", the identity with fourth column `(v, 1)`. -/
def translate (v : Vec3 α) : Mat4 α :=
  !![1, 0, 0, v 0;
     0, 1, 0, v 1;
     0, 0, 1, v 2;
     0, 0, 0, 1]

/-- Modelled from the spec: `glm::inverse` is GLM library code outside the
source file; the specification writes `inverse(M)`. In exact arithmetic it is
the cofactor matrix divided by the determinant, as GLM computes it. -/
def inverse (m : Mat4 α) : Mat4 α :=
  (m.det)⁻¹ • m.adjugate

/-- The bind matrix of bone `i`, read from `c1[i]`, `c2[i]`, `c3[i]`, `c4[i]`. -/
def bindMat (bones : Bones α) (i : Int) : Option (Mat4 α) := do
  let a ← readAt bones.c1 i
  let b ← readAt bones.c2 i
  let c ← readAt bones.c3 i
  let d ← readAt bones.c4 i
  pure (matOfCols a b c d)

/-- The value `m * matQuat * glm::inverse(m)` that the loop body stores in
`ms[i]` before it composes the parent (Dance.cpp 611-633). -/
def localMat (bones : Bones α) (anm : Anm α) (i : Nat) : Option (Mat4 α) := do
  let m ← bindMat bones i
  let rotation ← anm.rot[i]?
  let trans ← anm.verts[i]?
  let matQuat := translate trans * toMat4 (rotation 3) (rotation 0) (rotation 1) (rotation 2)
  let p ← bones.parent[i]?
  let matQuat ←
    if 0 ≤ p then do
      let _m ← bindMat bones p
      pure (inverse (inverse _m * m) * matQuat)
    else pure matQuat
  pure (m * matQuat * inverse m)

/-- The assignment `xs[i] = v` on a `std::vector`. -/
def writeAt {V : Type} (xs : List V) (i : Nat) (v : V) : Option (List V) :=
  if i < xs.length then some (xs.set i v) else none

/-- The body of the bone loop for bone `i` (Dance.cpp 610-637): `ms[i]` gets
the local matrix and then, `if (parent[i] >= 0)`, `ms[parent[i]] * ms[i]`. -/
def boneStep (bones : Bones α) (anm : Anm α) (ms : List (Mat4 α)) (i : Nat) :
    Option (List (Mat4 α)) := do
  let l ← localMat bones anm i
  let ms ← writeAt ms i l
  let p ← bones.parent[i]?
  if 0 ≤ p then do
    let a ← readAt ms p
    let b ← ms[i]?
    writeAt ms i (a * b)
  else pure ms

/-- The bone loop over `ms.size() = bones->size()` bones. The vector `ms` is
first resized, which fills it with default-constructed matrices `dflt` (zero
or identity, depending on the GLM configuration). -/
def evalBones (dflt : Mat4 α) (bones : Bones α) (anm : Anm α) : Option (List (Mat4 α)) :=
  (List.range bones.verts.length).foldlM (boneStep bones anm)
    (List.replicate bones.verts.length dflt)

/-- The product `m * glm::vec4(p[0], p[1], p[2], w)` cut to its first three
components. -/
def applyMat (m : Mat4 α) (p : Vec3 α) (w : α) : Vec3 α :=
  ![(m.mulVec ![p 0, p 1, p 2, w]) 0, (m.mulVec ![p 0, p 1, p 2, w]) 1,
    (m.mulVec ![p 0, p 1, p 2, w]) 2]

/-- The blend matrix of a vertex: `m = 0; for (j < 4) m += ms[bi[j]] * bw[j];`. -/
def blendMat (ms : List (Mat4 α)) (bi : Vec4 Int) (bw : Vec4 α) : Option (Mat4 α) :=
  ([0, 1, 2, 3] : List (Fin 4)).foldlM
    (fun m j => (readAt ms (bi j)).map (fun w => m + bw j • w)) (0 : Mat4 α)

/-- The body of the skinning loop for vertex `i` (Dance.cpp 649-662): the new
position and normal. -/
def skinVertex (ms : List (Mat4 α)) (prim : Mesh α) (i : Nat) : Option (Vec3 α × Vec3 α) := do
  let bi ← prim.bi[i]?
  let bw ← prim.bw[i]?
  let m ← blendMat ms bi bw
  let p ← prim.verts[i]?
  let n ← prim.nrm[i]?
  pure (applyMat m p 1, applyMat m n 0)

/-- The node `EvalDance`: bone matrices, posed bone positions, skinned mesh. -/
def evalDance (dflt : Mat4 α) (bones : Bones α) (anm : Anm α) (prim : Mesh α) :
    Option (Bones α × Mesh α) := do
  let ms ← evalBones dflt bones anm
  let bverts ← (List.range bones.verts.length).mapM
    (fun i => do
      let m ← ms[i]?
      let p ← bones.verts[i]?
      pure (applyMat m p 1))
  let skinned ← (List.range prim.verts.length).mapM (skinVertex ms prim)
  pure ({ bones with verts := bverts },
    { prim with verts := skinned.map Prod.fst, nrm := skinned.map Prod.snd })

/-- All attribute arrays of `bones` and `anm` have `bones->size()` entries. -/
def SizesAgree (bones : Bones α) (anm : Anm α) : Prop :=
  bones.parent.length = bones.verts.length ∧ bones.c1.length = bones.verts.length ∧
    bones.c2.length = bones.verts.length ∧ bones.c3.length = bones.verts.length ∧
    bones.c4.length = bones.verts.length ∧ anm.verts.length = bones.verts.length ∧
    anm.rot.length = bones.verts.length

/-- The matrix `ms[i]` is the local matrix of bone `i`, multiplied on the left
by the matrix `ms[parent[i]]` when the bone has a parent. -/
def IsWorld (bones : Bones α) (anm : Anm α) (ms : List (Mat4 α)) (i : Nat) : Prop :=
  ∃ l p, localMat bones anm i = some l ∧ bones.parent[i]? = some p ∧
    (p < 0 → ms[i]? = some l) ∧
    (0 ≤ p → ∃ W, readAt ms p = some W ∧ ms[i]? = some (W * l))

end EvalDefs

/-- Two bones with the unit matrix as bind matrix; `parent` is a parameter. -/
def unitBones (parent : List Int) (c4 : List (Vec4 ℚ)) : Bones ℚ :=
  { verts := [![0, 0, 0], ![0, 0, 0]]
    parent := parent
    c1 := [![1, 0, 0, 0], ![1, 0, 0, 0]]
    c2 := [![0, 1, 0, 0], ![0, 1, 0, 0]]
    c3 := [![0, 0, 1, 0], ![0, 0, 1, 0]]
    c4 := c4 }

/-- The identity animation sample for two bones. -/
def idAnm : Anm ℚ :=
  { verts := [![0, 0, 0], ![0, 0, 0]], rot := [![0, 0, 0, 1], ![0, 0, 0, 1]] }

/-- One vertex at `(1, 0, 0)` bound to bone 1 with weights `(1, 0, 0, 0)`. -/
def skinExample : Mesh ℚ :=
  { verts := [![1, 0, 0]], id := [0], bi := [![1, 0, 0, 0]], bw := [![1, 0, 0, 0]],
    nrm := [![0, 1, 0]], uv := [![0, 0, 0]], tris := [] }

/-- Bone 0 is a root with the unit bind matrix, bone 1 is its child with the
bind matrix `translate (1, 0, 0)`. -/
def childBones : Bones ℚ :=
  unitBones [-1, 0] [![0, 0, 0, 1], ![1, 0, 0, 1]]

/-- Bone 1 is a root and bone 0 is its child: the parent has the larger index. -/
def parentLastBones : Bones ℚ :=
  unitBones [1, -1] [![0, 0, 0, 1], ![0, 0, 0, 1]]

/-- The identity rotation for both bones, the translation `(1, 0, 0)` for bone 1. -/
def shiftAnm : Anm ℚ :=
  { verts := [![0, 0, 0], ![1, 0, 0]], rot := [![0, 0, 0, 1], ![0, 0, 0, 1]] }

/-- Bone 0 is a root and bone 1 its child; both have the unit bind matrix. -/
def sameBones : Bones ℚ :=
  unitBones [-1, 0] [![0, 0, 0, 1], ![0, 0, 0, 1]]

/-! ## `align_to` (Dance.cpp 252-254) -/

/-- The function `align_to`: `(v + a - 1) / a * a` evaluated left to right in
`uint32_t` arithmetic, every intermediate result reduced modulo `2 ^ 32`.
(For `a = 0` the source divides by zero; the only calls pass `a = 16`.) -/
def align_to (v a : Nat) : Nat :=
  ((((v + a) % 2 ^ 32 + (2 ^ 32 - 1)) % 2 ^ 32) / a * a) % 2 ^ 32

/-- The six bytes `00 00 01 80 00 40`: selector 0 and the three fields equal
to 16384. -/
def midBytes : Fin 6 → Fin 256 :=
  ![0, 0, 1, 128, 0, 64]

/-- The values that `BinaryReader::read_LE<T>` returns at each byte offset of
a file, one function per primitive type (`h16` is a 16-bit half float after
`glm::detail::toFloat32`). The reader class belongs to the host library: the
agreement between the views and a read past the end of the buffer are not
modelled. -/
structure FileView (α : Type) where
  u8 : Nat → Fin 256
  u16 : Nat → Nat
  u32 : Nat → Nat
  i32 : Nat → Int
  f32 : Nat → α
  h16 : Nat → α

/-- The call `reader.read_LE<vec3f>()` at offset `off`: three floats. -/
def FileView.vec3f {α : Type} (file : FileView α) (off : Nat) : Vec3 α :=
  ![file.f32 off, file.f32 (off + 4), file.f32 (off + 8)]

/-- The call `reader.read_LE<vec4f>()` at offset `off`: four floats. -/
def FileView.vec4f {α : Type} (file : FileView α) (off : Nat) : Vec4 α :=
  ![file.f32 off, file.f32 (off + 4), file.f32 (off + 8), file.f32 (off + 12)]

/-- The function `read_vec3h` (Dance.cpp 255-260) at offset `off`: three half
floats, 6 bytes. -/
def read_vec3h {α : Type} (file : FileView α) (off : Nat) : Vec3 α :=
  ![file.h16 off, file.h16 (off + 2), file.h16 (off + 4)]

/-- The loop that reads `count` values `read_LE<uint16_t>()` from offset `cur`. -/
def readIndex {α : Type} (file : FileView α) (cur count : Nat) : List Nat :=
  (List.range count).map (fun j => file.u16 (cur + 2 * j))

/-! ## The decode of `ReadDanceAnm` (Dance.cpp 261-414) -/

/-- The member variables of a `ReadDanceAnm` node. The vectors of `int` hold
converted unsigned values: `arc_interpolation` and `arc_type` 16-bit values,
which the conversion leaves unchanged, `arc_unknown` and `arc_addr` 32-bit
values; `max_frame` is an `int`. -/
structure AnmNode (α : Type) where
  arc_pos : List (List (Vec3 α))
  arc_rot : List (List (Vec4 α))
  arc_interpolation : List Nat
  arc_type : List Nat
  arc_unknown : List Int
  arc_addr : List Int
  max_frame : Int

/-- A newly constructed node: empty vectors and `max_frame = 0`. -/
def AnmNode.fresh {α : Type} : AnmNode α :=
  { arc_pos := [], arc_rot := [], arc_interpolation := [], arc_type := [], arc_unknown := [],
    arc_addr := [], max_frame := 0 }

/-- The output primitive `anm`: the user datum `max_frame`, the per-bone
translation and rotation, and the diagnostic attributes. -/
structure AnmOut (α : Type) where
  max_frame : Int
  samples : List (Vec3 α × Vec4 α)
  count : List Nat
  interpolation : List Nat
  type : List Nat
  unknown : List Int
  addr : List Int

section AnmDecode

variable {α : Type} [LinearOrderedField α]

/-- The bound `(bone_count - 3) * 2` of the directory loop, in `uint32_t`
arithmetic. -/
def addrCount (bone_count : Nat) : Nat :=
  (((bone_count % 2 ^ 32 + (2 ^ 32 - 3)) % 2 ^ 32) * 2) % 2 ^ 32

/-- The directory loop `for (i = 0; i < (bone_count - 3) * 2; i++)
addrs.push_back(reader.read_LE<uint32_t>())` with the reader at `cur`. The
counter is compared as an unsigned value; it is an `int`, and a bound of
`2 ^ 31` or more, which would overflow it, is not distinguished. -/
def readAddrs (file : FileView α) (cur bone_count : Nat) : List Nat :=
  (List.range (addrCount bone_count)).map (fun i => file.u32 (cur + 4 * i))

/-- The loop that reads `count` packed quaternions (6 bytes each) from `cur`
and decodes them with `getQuat`. -/
def readQuats (sqrt : α → α) (file : FileView α) (cur count : Nat) : List (Vec4 α) :=
  (List.range count).map (fun j => getQuat sqrt (fun k => file.u8 (cur + 6 * j + k.val)))

/-- The loop `for (k < 3) if (zeno::abs(translate[k]) < 0.001) translate[k] = 0;`. -/
def snapTranslate (t : Vec3 α) : Vec3 α :=
  fun k => if |t k| < 0.001 then 0 else t k

/-- The sample loop of the sparse translation branch (Dance.cpp 363-380),
`count` samples with the reader at `cur`: type 30 reads three half floats,
type 31 three half floats plus `base_offset`, any other type three floats. -/
def sparsePosSamples (file : FileView α) (_type : Nat) (base_offset : Vec3 α) :
    Nat → Nat → List (Vec3 α)
  | 0, _ => []
  | count + 1, cur =>
    if _type = 30 then
      snapTranslate (read_vec3h file cur)
        :: sparsePosSamples file _type base_offset count (cur + 6)
    else if _type = 31 then
      snapTranslate (read_vec3h file cur + base_offset)
        :: sparsePosSamples file _type base_offset count (cur + 6)
    else
      snapTranslate (file.vec3f cur)
        :: sparsePosSamples file _type base_offset count (cur + 12)

/-- The sample loop of the dense translation branch (Dance.cpp 396-410):
type 30 reads three half floats, any other type three floats. -/
def densePosSamples (file : FileView α) (_type : Nat) : Nat → Nat → List (Vec3 α)
  | 0, _ => []
  | count + 1, cur =>
    if _type = 30 then
      snapTranslate (read_vec3h file cur) :: densePosSamples file _type count (cur + 6)
    else
      snapTranslate (file.vec3f cur) :: densePosSamples file _type count (cur + 12)

/-- The curve `arc_rot[_bone]` after a rotation track block (`_type == 28`,
Dance.cpp 305-345), `prev` being the curve before and `cur` the reader offset
after the aligned header: the sparse branch reads the indices, aligns, reads
the quaternions and fills; the dense branch appends the quaternions. -/
def rotCurve (sqrt : α → α) (file : FileView α) (max_frame : Int) (prev : List (Vec4 α))
    (_interpolation _count cur : Nat) : Option (List (Vec4 α)) :=
  if _interpolation = 0 then
    rotSparse prev (readIndex file cur _count)
      (readQuats sqrt file (align_to (cur + 2 * _count) 16) _count) max_frame
  else some (prev ++ readQuats sqrt file cur _count)

/-- The rotation track block for bone `_bone`. -/
def rotTrack (sqrt : α → α) (file : FileView α) (node : AnmNode α)
    (_interpolation _count _bone cur : Nat) : Option (AnmNode α) := do
  let prev ← node.arc_rot[_bone]?
  let curve ← rotCurve sqrt file node.max_frame prev _interpolation _count cur
  pure { node with arc_rot := node.arc_rot.set _bone curve }

/-- The curve `arc_pos[_bone]` after a translation track block (`_type != 28`,
Dance.cpp 351-411), `prev` being the curve before and `cur` the reader offset
after the aligned header. The sparse branch reads the indices, aligns, reads
`base_offset` (three floats) when the type is 31, reads the samples and
fills; the dense branch appends its samples. -/
def posCurve (file : FileView α) (max_frame : Int) (prev : List (Vec3 α))
    (_type _interpolation _count cur : Nat) : Option (List (Vec3 α)) :=
  if _interpolation = 0 then
    posSparse prev (readIndex file cur _count)
      (sparsePosSamples file _type
        (if _type = 31 then file.vec3f (align_to (cur + 2 * _count) 16) else ![0, 0, 0])
        _count
        (if _type = 31 then align_to (cur + 2 * _count) 16 + 12
          else align_to (cur + 2 * _count) 16))
      max_frame
  else some (prev ++ densePosSamples file _type _count cur)

/-- The translation track block for bone `_bone`: the four diagnostic entries
are stored (the `uint32_t` values `_unknown` and `offset` converted to `int`),
then the curve is decoded. -/
def posTrack (file : FileView α) (node : AnmNode α)
    (_type _interpolation _count _bone _unknown offset cur : Nat) : Option (AnmNode α) := do
  let arc_interpolation ← writeAt node.arc_interpolation _bone _interpolation
  let arc_type ← writeAt node.arc_type _bone _type
  let arc_unknown ← writeAt node.arc_unknown _bone (toInt32 _unknown)
  let arc_addr ← writeAt node.arc_addr _bone (toInt32 offset)
  let prev ← node.arc_pos[_bone]?
  let curve ← posCurve file node.max_frame prev _type _interpolation _count cur
  pure { node with
    arc_pos := node.arc_pos.set _bone curve
    arc_interpolation := arc_interpolation
    arc_type := arc_type
    arc_unknown := arc_unknown
    arc_addr := arc_addr }

/-- The body of the loop over `addrs` (Dance.cpp 295-413): the 16-byte track
header at `offset = section2 + addrs[i]`, then the rotation or translation
block. -/
def trackStep (sqrt : α → α) (file : FileView α) (section2 : Nat) (node : AnmNode α)
    (addr : Nat) : Option (AnmNode α) :=
  let offset := (section2 + addr) % 2 ^ 32
  let _type := file.u16 offset
  let _interpolation := file.u16 (offset + 2)
  let _count := file.u16 (offset + 4)
  let _bone := file.u16 (offset + 6)
  let _unknown := file.u32 (offset + 12)
  let cur := align_to (offset + 16) 16
  if _type = 28 then rotTrack sqrt file node _interpolation _count _bone cur
  else posTrack file node _type _interpolation _count _bone _unknown offset cur

/-- The decode block of `ReadDanceAnm::apply` (Dance.cpp 271-413), run on the
member variables `node`: `max_frame` and `bone_count` are read, the six
vectors are resized to `bone_count`, the directory is read and every track
block is decoded. The member `max_frame` is an `int` assigned from a
`uint32_t`: the value is converted. -/
def decodeAnm (sqrt : α → α) (file : FileView α) (node : AnmNode α) : Option (AnmNode α) :=
  let max_frame := toInt32 (file.u32 0x04)
  let bone_count := file.u32 0x20
  let section2 := (0x24 + (8 + 2 * bone_count) % 2 ^ 32) % 2 ^ 32
  let addrs := readAddrs file ((section2 + 8) % 2 ^ 32) bone_count
  addrs.foldlM (trackStep sqrt file section2)
    { arc_pos := vecResize node.arc_pos bone_count []
      arc_rot := vecResize node.arc_rot bone_count []
      arc_interpolation := vecResize node.arc_interpolation bone_count 0
      arc_type := vecResize node.arc_type bone_count 0
      arc_unknown := vecResize node.arc_unknown bone_count 0
      arc_addr := vecResize node.arc_addr bone_count 0
      max_frame := max_frame }

/-- The guarded decode at the head of `ReadDanceAnm::apply`:
`if (arc_pos.empty()) { ... }`. -/
def ensureDecoded (sqrt : α → α) (file : FileView α) (node : AnmNode α) :
    Option (AnmNode α) :=
  if node.arc_pos.isEmpty then decodeAnm sqrt file node else some node

/-- The output `anm` built from the member variables at the requested frame
(Dance.cpp 415-449). -/
def anmOutput (frame : Int) (node : AnmNode α) : Option (AnmOut α) :=
  (sampleAll frame node.arc_pos node.arc_rot).map (fun samples =>
    { max_frame := node.max_frame
      samples := samples
      count := node.arc_pos.map List.length
      interpolation := node.arc_interpolation
      type := node.arc_type
      unknown := node.arc_unknown
      addr := node.arc_addr })

/-- The method `ReadDanceAnm::apply` on a node with member variables `node`,
for the file `file` named by the input `path` and the requested `frame`. The
result is the node after the call and the output `anm`. -/
def applyAnm (sqrt : α → α) (file : FileView α) (frame : Int) (node : AnmNode α) :
    Option (AnmNode α × AnmOut α) :=
  (ensureDecoded sqrt file node).bind (fun node' =>
    (anmOutput frame node').map (fun out => (node', out)))

end AnmDecode

/-- A file view whose every float is 2 and every half float is 1. -/
def constView : FileView ℚ :=
  { u8 := fun _ => 0, u16 := fun _ => 0, u32 := fun _ => 0, i32 := fun _ => 0,
    f32 := fun _ => 2, h16 := fun _ => 1 }

/-- An animation file with `bone_count = 3` (no track block) and the given
`max_frame`. -/
def threeBoneFile (max_frame : Nat) : FileView ℚ :=
  { u8 := fun _ => 0, u16 := fun _ => 0,
    u32 := fun off => if off = 0x04 then max_frame else if off = 0x20 then 3 else 0,
    i32 := fun _ => 0, f32 := fun _ => 0, h16 := fun _ => 0 }

/-- The member variables after decoding `threeBoneFile max_frame`. -/
def threeBoneNode (max_frame : Nat) : AnmNode ℚ :=
  { arc_pos := [[], [], []], arc_rot := [[], [], []], arc_interpolation := [0, 0, 0],
    arc_type := [0, 0, 0], arc_unknown := [0, 0, 0], arc_addr := [0, 0, 0],
    max_frame := toInt32 max_frame }

/-- The output `anm` for the member variables `threeBoneNode max_frame`. -/
def threeBoneOut (max_frame : Nat) : AnmOut ℚ :=
  { max_frame := toInt32 max_frame,
    samples := [(![0, 0, 0], ![0, 0, 0, 1]), (![0, 0, 0], ![0, 0, 0, 1]),
      (![0, 0, 0], ![0, 0, 0, 1])],
    count := [0, 0, 0], interpolation := [0, 0, 0], type := [0, 0, 0], unknown := [0, 0, 0],
    addr := [0, 0, 0] }

/-! ## `ReadDanceCamera` (Dance.cpp 465-582) -/

/-- The member variables of a `ReadDanceCamera` node. -/
structure CamNode (α : Type) where
  arc_pos : List (Vec3 α)
  arc_rot : List (Vec4 α)

/-- A newly constructed node: both curves empty. -/
def CamNode.fresh {α : Type} : CamNode α :=
  { arc_pos := [], arc_rot := [] }

section Camera

variable {α : Type} [LinearOrderedField α]

/-- One iteration of the camera fill loop at frame `f` (Dance.cpp 496-506,
545-555): `if (mapping.count(f)) arc.push_back(mapping[f]); else if (f > 0)
arc.push_back(arc.back()); else arc.emplace_back(dflt);`. -/
def camFillStep {V : Type} (dflt : V) (mapping : List (Nat × V)) (arc : List V) (f : Nat) :
    Option (List V) :=
  match mapping.lookup f with
  | some v => some (arc ++ [v])
  | none =>
    if 0 < f then
      match arc.getLast? with
      | some v => some (arc ++ [v])
      | none => none
    else some (arc ++ [dflt])

/-- The sparse branch of a camera track once the indices and the values have
been read: the map is built and the loop `for (f = 0; f <= index.back(); f++)`
appends one value per frame to the curve `prev`. -/
def camSparse {V : Type} (dflt : V) (prev : List V) (index : List Nat) (vals : List V) :
    Option (List V) :=
  match index.getLast? with
  | none => none
  | some last => (List.range (last + 1)).foldlM (camFillStep dflt (buildMapping index vals)) prev

/-- The rotation curve after the first track block, whose header is at
`0x38`, and the reader offset after the block (Dance.cpp 473-513). The values
are read as `vec4f`, 16 bytes each. -/
def camRotTrack (file : FileView α) (prev : List (Vec4 α)) : Option (List (Vec4 α) × Nat) :=
  let _interpolation := file.u16 0x3A
  let _count := file.u16 0x3C
  let cur := align_to 0x48 16
  if _interpolation = 0 then
    let cur2 := align_to (cur + 2 * _count) 16
    (camSparse ![0, 0, 0, 1] prev (readIndex file cur _count)
        ((List.range _count).map (fun j => file.vec4f (cur2 + 16 * j)))).map
      (fun curve => (curve, cur2 + 16 * _count))
  else
    some (prev ++ (List.range _count).map (fun j => file.vec4f (cur + 16 * j)),
      cur + 16 * _count)

/-- The translation curve after the second track block, whose header is at
the aligned offset that follows the first block (Dance.cpp 514-569). Each
sample is a `vec3f` followed by a discarded float, 16 bytes, snapped. -/
def camPosTrack (file : FileView α) (prev : List (Vec3 α)) (cur : Nat) : Option (List (Vec3 α)) :=
  let head := align_to cur 16
  let _interpolation := file.u16 (head + 2)
  let _count := file.u16 (head + 4)
  let cur := align_to (head + 16) 16
  if _interpolation = 0 then
    let cur2 := align_to (cur + 2 * _count) 16
    camSparse ![0, 0, 0] prev (readIndex file cur _count)
      ((List.range _count).map (fun j => snapTranslate (file.vec3f (cur2 + 16 * j))))
  else
    some (prev ++ (List.range _count).map (fun j => snapTranslate (file.vec3f (cur + 16 * j))))

/-- The decode block of `ReadDanceCamera::apply` on the member variables. -/
def decodeCamera (file : FileView α) (node : CamNode α) : Option (CamNode α) :=
  match camRotTrack file node.arc_rot with
  | none => none
  | some (arc_rot, cur) =>
    match camPosTrack file node.arc_pos cur with
    | none => none
    | some arc_pos => some { arc_pos := arc_pos, arc_rot := arc_rot }

/-- The value `xs.size() - 1` of type `size_t`. -/
def sizeMinusOne (n : Nat) : Int :=
  (((n + (2 ^ 64 - 1)) % 2 ^ 64 : Nat) : Int)

/-- The subscript `arc[zeno::clamp(frame, 0, arc.size() - 1)]` of the camera
sampling (Dance.cpp 577, 579). -/
def sampleCurve {V : Type} (frame : Int) (arc : List V) : Option V :=
  readAt arc (clamp frame 0 (sizeMinusOne arc.length))

/-- The sampling of `ReadDanceCamera::apply`: the outputs `trans` and `rot`. -/
def sampleCamera (frame : Int) (arc_pos : List (Vec3 α)) (arc_rot : List (Vec4 α)) :
    Option (Vec3 α × Vec4 α) :=
  match sampleCurve frame arc_pos, sampleCurve frame arc_rot with
  | some t, some r => some (t, r)
  | _, _ => none

/-- The method `ReadDanceCamera::apply`: the file is decoded
`if (arc_pos.empty())`, then both curves are sampled. -/
def applyCamera (file : FileView α) (frame : Int) (node : CamNode α) :
    Option (CamNode α × (Vec3 α × Vec4 α)) :=
  (if node.arc_pos.isEmpty then decodeCamera file node else some node).bind (fun node' =>
    (sampleCamera frame node'.arc_pos node'.arc_rot).map (fun out => (node', out)))

end Camera

/-- A camera file whose two track headers, at `0x38` and `0x50`, have
`_interpolation = 1` (dense) and `_count = 0`. -/
def emptyCameraFile : FileView ℚ :=
  { u8 := fun _ => 0, u16 := fun off => if off = 0x3A ∨ off = 0x52 then 1 else 0,
    u32 := fun _ => 0, i32 := fun _ => 0, f32 := fun _ => 0, h16 := fun _ => 0 }

/-! ## The bone loop of `ReadDanceMesh` (Dance.cpp 23-74) -/

/-- The output primitive `bones` while the bone loop runs: bind positions,
the attributes `parent`, `childCount`, `c1` to `c4`, and the lines. The
source sizes the vertex attributes to `bone_count` first and writes entry `i`
in increasing order; here `verts`, `parent` and `c1` to `c4` grow by appending,
while `childCount`, which is written at `parent[i]`, is kept at full size. -/
structure BoneLoop (α : Type) where
  verts : List (Vec3 α)
  parent : List Int
  childCount : List Nat
  c1 : List (Vec4 α)
  c2 : List (Vec4 α)
  c3 : List (Vec4 α)
  c4 : List (Vec4 α)
  lines : List (Int × Nat)

section BoneLoopDefs

variable {α : Type} [LinearOrderedField α]

/-- The loop `for (j < 4) if (glm::abs(c[i][j]) < 0.00001) c[i][j] = 0;`. -/
def snapBasis (c : Vec4 α) : Vec4 α :=
  fun j => if |c j| < 0.00001 then 0 else c j

/-- The offset `bone_ptr + 16 * 11 * i` of bone record `i`, as `uint32_t`. -/
def boneRecordPtr (bone_ptr i : Nat) : Nat :=
  (bone_ptr + 16 * 11 * i) % 2 ^ 32

/-- The value `parent[i]`, read as `int32_t` at `16 * 10 + 12 + cur_bone_ptr`. -/
def parentAt (file : FileView α) (bone_ptr i : Nat) : Int :=
  file.i32 ((16 * 10 + 12 + boneRecordPtr bone_ptr i) % 2 ^ 32)

/-- The statements `parent[i] = p; if (parent[i] != -1) {
lines.push_back({parent[i], i}); childCount[parent[i]] += 1; }`. -/
def linkParent (st : BoneLoop α) (i : Nat) (p : Int) : Option (BoneLoop α) :=
  if p ≠ -1 then
    match readAt st.childCount p with
    | some c =>
      some { st with
        parent := st.parent ++ [p]
        lines := st.lines ++ [(p, i)]
        childCount := st.childCount.set p.toNat (c + 1) }
    | none => none
  else some { st with parent := st.parent ++ [p] }

/-- The body of the bone loop for bone `i` (Dance.cpp 35-73): the four basis
vectors are read at `16 + cur_bone_ptr` and snapped, the position is read at
`64 + cur_bone_ptr`, the parent at `172 + cur_bone_ptr`. -/
def boneRecordStep (file : FileView α) (bone_ptr : Nat) (st : BoneLoop α) (i : Nat) :
    Option (BoneLoop α) :=
  let cur_bone_ptr := boneRecordPtr bone_ptr i
  let p1 := (16 * 1 + cur_bone_ptr) % 2 ^ 32
  linkParent
    { st with
      c1 := st.c1 ++ [snapBasis (file.vec4f p1)]
      c2 := st.c2 ++ [snapBasis (file.vec4f (p1 + 16))]
      c3 := st.c3 ++ [snapBasis (file.vec4f (p1 + 32))]
      c4 := st.c4 ++ [snapBasis (file.vec4f (p1 + 48))]
      verts := st.verts ++ [file.vec3f ((16 * 4 + cur_bone_ptr) % 2 ^ 32)] }
    i (parentAt file bone_ptr i)

/-- The bone loop over `bone_count` bones for the record array at `bone_ptr`. -/
def boneLoopFrom (file : FileView α) (bone_count bone_ptr : Nat) : Option (BoneLoop α) :=
  (List.range bone_count).foldlM (boneRecordStep file bone_ptr)
    { verts := [], parent := [], childCount := List.replicate bone_count 0,
      c1 := [], c2 := [], c3 := [], c4 := [], lines := [] }

/-- The skeleton part of `ReadDanceMesh::apply`: `bone_count` is read at
`0x18`, `bone_ptr` at `0x1C`, then the bone loop runs. -/
def readBones (file : FileView α) : Option (BoneLoop α) :=
  boneLoopFrom file (file.u32 0x18) (file.u32 0x1C)

end BoneLoopDefs

/-- The triangles that pass 2 appends for the sections `secs` when section 0
of the list starts at vertex `vi`: the raw indices of each section plus the
number of vertices before it. -/
def trisSpec {α : Type} : Nat → List (SectionRec α) → List (Vec3 Nat)
  | _, [] => []
  | vi, s :: rest =>
    s.faces.map (fun f => ![f 0 + vi, f 1 + vi, f 2 + vi])
      ++ trisSpec (vi + s.verts.length) rest

/-- The number of vertices of the sections before section `i`. -/
def vertBase {α : Type} (secs : List (SectionRec α)) (i : Nat) : Nat :=
  ((secs.take i).map (fun s => s.verts.length)).sum

/-- The number of triangles of the sections before section `i`. -/
def faceBase {α : Type} (secs : List (SectionRec α)) (i : Nat) : Nat :=
  ((secs.take i).map (fun s => s.faces.length)).sum

/-- Two sections with two vertices and one triangle each. -/
def triExample : List (SectionRec ℤ) :=
  [{ fvf_size := 68, faces := [![0, 1, 0]],
     verts := [vertexOfSlots 0 0 0 0, vertexOfSlots 0 0 0 0] },
   { fvf_size := 68, faces := [![1, 0, 1]],
     verts := [vertexOfSlots 0 0 0 0, vertexOfSlots 0 0 0 0] }]

/-- A file with three bone records at offset 0 whose parents are `-1, 0, 0`. -/
def boneExample : FileView ℚ :=
  { u8 := fun _ => 0, u16 := fun _ => 0,
    u32 := fun off => if off = 0x18 then 3 else 0,
    i32 := fun off => if off = 172 then -1 else 0,
    f32 := fun _ => 0, h16 := fun _ => 0 }

/-! ## Batch coverage, the local transform and further example inputs -/

/-- The accumulated index sets `sets` and the recorded batches `batch` cover
the sections `secs`: every section has a recorded batch, which is an index of
`sets`, and the set of batch `b` is the union of the distinct-index sets of
the sections recorded for `b`. -/
def BatchCover {α : Type} (secs : List (SectionRec α)) (sets : List (Finset Nat))
    (batch : List Nat) : Prop :=
  batch.length = secs.length ∧
    (∀ (i b : Nat), batch[i]? = some b → b < sets.length) ∧
    ∀ (b : Nat) (S : Finset Nat), sets[b]? = some S →
      ∀ x, x ∈ S ↔ ∃ (i : Nat) (s : SectionRec α),
        batch[i]? = some b ∧ secs[i]? = some s ∧ x ∈ sectionSet s

/-- In the words of the specification: the local animated transform
`L_i = translate(t_i) * rotate(q_i)` of a bone with sampled translation `t`
and rotation `q = (x, y, z, w)`. -/
def animMat {α : Type} [Field α] (t : Vec3 α) (q : Vec4 α) : Mat4 α :=
  translate t * toMat4 (q 3) (q 0) (q 1) (q 2)

/-- Two one-vertex sections whose distinct-index sets are `{0,1,2}` and `{5}`. -/
def gapExample : List (SectionRec ℤ) :=
  [{ fvf_size := 68, faces := [], verts := [vertexOfSlots 0 1 2 0] },
   { fvf_size := 68, faces := [], verts := [vertexOfSlots 5 0 0 0] }]

/-- One section without vertices. -/
def noVertexExample : List (SectionRec ℤ) :=
  [{ fvf_size := 68, faces := [], verts := [] }]

/-- One one-vertex section whose distinct-index set is `{5}`. -/
def noBatchExample : List (SectionRec ℤ) :=
  [{ fvf_size := 68, faces := [], verts := [vertexOfSlots 5 0 0 0] }]

/-- A file with one root bone record at offset 0 whose floats at the offsets
64 and 68 are `2` and `1/1000000`; all other floats are `0`. -/
def basisExample : FileView ℚ :=
  { u8 := fun _ => 0, u16 := fun _ => 0,
    u32 := fun off => if off = 0x18 then 1 else 0,
    i32 := fun _ => -1,
    f32 := fun off => if off = 64 then 2 else if off = 68 then 1 / 1000000 else 0,
    h16 := fun _ => 0 }

/-! # Properties -/

/-! ## Properties of `getQuat` -/

section GetQuatLemmas

variable {α : Type} [LinearOrderedField α]

theorem packNum_eq_sum (data : Fin 6 → Fin 256) : packNum data = specNum data := by
  unfold specNum
  have h0 := (data 0).isLt
  have h1 := (data 1).isLt
  have h2 := (data 2).isLt
  have h3 := (data 3).isLt
  have h4 := (data 4).isLt
  have h5 := (data 5).isLt
  rw [Fin.sum_univ_six]
  simp only [packNum, List.foldl_cons, List.foldl_nil, Nat.shiftLeft_eq, Fin.val_zero,
    Fin.val_one, Fin.val_two]
  have e3 : ((3 : Fin 6) : Nat) = 3 := rfl
  have e4 : ((4 : Fin 6) : Nat) = 4 := rfl
  have e5 : ((5 : Fin 6) : Nat) = 5 := rfl
  rw [e3, e4, e5]
  norm_num
  omega

theorem snapQuat_apply (q : Vec4 α) (i : Fin 4) :
    snapQuat q i = if i.val < 3 ∧ |q i| < 0.0001 then 0 else q i := by
  simp only [snapQuat, List.foldl_cons, List.foldl_nil]
  fin_cases i <;> simp [Function.update] <;> split_ifs <;> simp_all

theorem land_mask15 (n : Nat) : n &&& 0x7FFF = n % 2 ^ 15 :=
  Nat.and_pow_two_sub_one_eq_mod n 15

theorem field8_eq (data : Fin 6 → Fin 256) :
    (field8 data : α) = dequant (packNum data / 4 % 2 ^ 15) := by
  simp only [field8, land_mask15, Nat.shiftRight_eq_div_pow]

theorem field6_eq (data : Fin 6 → Fin 256) :
    (field6 data : α) = dequant (packNum data / 2 ^ 17 % 2 ^ 15) := by
  simp only [field6, land_mask15, Nat.shiftRight_eq_div_pow, Nat.div_div_eq_div_mul]
  norm_num

theorem field7_eq (data : Fin 6 → Fin 256) :
    (field7 data : α) = dequant (packNum data / 2 ^ 32 % 2 ^ 15) := by
  simp only [field7, land_mask15, Nat.shiftRight_eq_div_pow, Nat.div_div_eq_div_mul]
  norm_num

theorem quatType_eq (data : Fin 6 → Fin 256) : quatType data = packNum data % 4 := by
  have h := Nat.and_pow_two_sub_one_eq_mod (packNum data) 2
  norm_num at h
  simpa [quatType] using h

theorem normSq_getQuatRaw (data : Fin 6 → Fin 256) (h : 0 ≤ (radicand data : ℝ)) :
    normSq (getQuatRaw Real.sqrt data) = 1 := by
  have hs : Real.sqrt (radicand data) * Real.sqrt (radicand data) = radicand data :=
    Real.mul_self_sqrt h
  have hr : (radicand data : ℝ) = 1 - ((field8 data : ℝ) * field8 data
      + field6 data * field6 data + field7 data * field7 data) := rfl
  unfold getQuatRaw normSq
  split_ifs <;> simp <;> linarith

theorem normSq_snapQuat_bounds (q : Vec4 α) :
    normSq q - 0.00000003 ≤ normSq (snapQuat q) ∧ normSq (snapQuat q) ≤ normSq q := by
  have key : ∀ i : Fin 4, q i * q i - 0.00000001 ≤ snapQuat q i * snapQuat q i
      ∧ snapQuat q i * snapQuat q i ≤ q i * q i := by
    intro i
    rw [snapQuat_apply]
    split_ifs with hc
    · have h1 := abs_lt.mp hc.2
      have h2 : 0 ≤ q i * q i := mul_self_nonneg _
      constructor
      · norm_num at h1 ⊢
        nlinarith [h1.1, h1.2]
      · simpa using h2
    · constructor
      · norm_num
      · exact le_refl _
  have h3 : snapQuat q 3 = q 3 := by
    rw [snapQuat_apply]
    have e3 : ((3 : Fin 4) : Nat) = 3 := rfl
    simp [e3]
  have k0 := key 0
  have k1 := key 1
  have k2 := key 2
  unfold normSq
  rw [h3]
  constructor
  · norm_num at k0 k1 k2 ⊢
    linarith [k0.1, k1.1, k2.1]
  · linarith [k0.2, k1.2, k2.2]

end GetQuatLemmas

/-- C1: for every 6-byte input whose radicand `1 - (a^2 + b^2 + c^2)` is
non-negative, the vector returned by `getQuat` (snapping included) has a
squared norm within `1e-4` of `1`, over the reals with the exact square
root. -/
theorem getQuat_normSq_near_one (data : Fin 6 → Fin 256) (h : 0 ≤ (radicand data : ℝ)) :
    |normSq (getQuat Real.sqrt data) - 1| ≤ 0.0001 := by
  have hb := normSq_snapQuat_bounds (getQuatRaw Real.sqrt data)
  rw [normSq_getQuatRaw data h] at hb
  unfold getQuat
  rw [abs_le]
  constructor
  · norm_num at hb ⊢
    linarith [hb.1]
  · norm_num at hb ⊢
    linarith [hb.2]

theorem radicand_witness_nonneg :
    0 ≤ (radicand (![0, 0, 1, 128, 0, 64] : Fin 6 → Fin 256) : ℝ) := by
  have hp : packNum (![0, 0, 1, 128, 0, 64] : Fin 6 → Fin 256) = 70370891726848 := by
    decide
  unfold radicand
  rw [field8_eq, field6_eq, field7_eq, hp]
  norm_num [dequant]

theorem getQuat_normSq_near_one_witness :
    0 ≤ (radicand (![0, 0, 1, 128, 0, 64] : Fin 6 → Fin 256) : ℝ) ∧
      |normSq (getQuat Real.sqrt (![0, 0, 1, 128, 0, 64] : Fin 6 → Fin 256)) - 1| ≤ 0.0001 :=
  ⟨radicand_witness_nonneg, getQuat_normSq_near_one _ radicand_witness_nonneg⟩

/-- C2: `getQuat` packs the six bytes little-endian into `num`, takes the
selector `num mod 4` and the three 15-bit fields at bit offsets 2, 17 and 32,
maps each field by `(raw - 16383.5) / 23169.767578125`, reconstructs
`recon = sqrt (1 - (a^2 + b^2 + c^2))` and, before snapping, returns
`(recon, c, b, a)`, `(c, recon, b, a)`, `(c, b, recon, a)` or `(c, b, a, recon)`
for the selectors 0, 1, 2 and 3. -/
theorem getQuatRaw_spec {α : Type} [LinearOrderedField α] (sqrt : α → α)
    (data : Fin 6 → Fin 256) :
    packNum data = specNum data ∧ quatType data = specNum data % 4 ∧
      (specNum data % 4 = 0 → getQuatRaw sqrt data
        = ![specRecon sqrt data, specField data 32, specField data 17, specField data 2]) ∧
      (specNum data % 4 = 1 → getQuatRaw sqrt data
        = ![specField data 32, specRecon sqrt data, specField data 17, specField data 2]) ∧
      (specNum data % 4 = 2 → getQuatRaw sqrt data
        = ![specField data 32, specField data 17, specRecon sqrt data, specField data 2]) ∧
      (specNum data % 4 = 3 → getQuatRaw sqrt data
        = ![specField data 32, specField data 17, specField data 2, specRecon sqrt data]) := by
  have hn : packNum data = specNum data := packNum_eq_sum data
  have ht : quatType data = specNum data % 4 := by rw [quatType_eq, hn]
  have h8 : (field8 data : α) = specField data 2 := by rw [field8_eq, hn]; rfl
  have h6 : (field6 data : α) = specField data 17 := by rw [field6_eq, hn]; rfl
  have h7 : (field7 data : α) = specField data 32 := by rw [field7_eq, hn]; rfl
  have hr : sqrt (radicand data) = specRecon sqrt data := by
    unfold radicand specRecon
    rw [h8, h6, h7]
    simp only [pow_two]
  refine ⟨hn, ht, ?_, ?_, ?_, ?_⟩ <;> intro hv <;>
    simp only [getQuatRaw, h8, h6, h7, hr, ht, hv] <;> simp

/-! ## Properties of the sparse tracks -/

section SparseLemmas
variable {V : Type}

theorem buildMapping_eq (index : List Nat) (vals : List V) :
    buildMapping index vals = (index.zip vals).reverse := by
  have h : ∀ (l : List (Nat × V)) (m : List (Nat × V)),
      l.foldl (fun m p => (p.1, p.2) :: m) m = l.reverse ++ m := by
    intro l
    induction l with
    | nil => intro m; rfl
    | cons p l ih => intro m; simp [List.foldl_cons, ih]
  simp [buildMapping, h]

theorem lookup_buildMapping_none (index : List Nat) (vals : List V) (k : Nat)
    (h : ∀ j (hj : j < index.length), index[j] ≠ k) :
    (buildMapping index vals).lookup k = none := by
  rw [buildMapping_eq, List.lookup_eq_none_iff]
  intro p hp
  have hp1 : p.1 ∈ index := (List.of_mem_zip (List.mem_reverse.mp hp)).1
  obtain ⟨j, hj, hjk⟩ := List.mem_iff_getElem.mp hp1
  have := h j hj
  simp only [bne_iff_ne, ne_eq]
  intro hk
  exact this (by rw [hjk, hk])

theorem lookup_buildMapping_some (index : List Nat) (vals : List V) (j : Nat)
    (hj : j < index.length) (hv : j < vals.length)
    (hlast : ∀ j' (hj' : j' < index.length), j < j' → index[j'] ≠ index[j]) :
    (buildMapping index vals).lookup index[j] = some vals[j] := by
  rw [buildMapping_eq, List.lookup_eq_some_iff]
  refine ⟨((index.drop (j + 1)).zip (vals.drop (j + 1))).reverse,
    ((index.take j).zip (vals.take j)).reverse, ?_, ?_⟩
  · have hi : index = index.take j ++ index[j] :: index.drop (j + 1) := by
      rw [List.getElem_cons_drop, List.take_append_drop]
    have hw : vals = vals.take j ++ vals[j] :: vals.drop (j + 1) := by
      rw [List.getElem_cons_drop, List.take_append_drop]
    have hl : (index.take j).length = (vals.take j).length := by
      simp [List.length_take]; omega
    conv_lhs => rw [hi, hw]
    rw [List.zip_append hl, List.zip_cons_cons, List.reverse_append, List.reverse_cons,
      List.append_assoc]
    rfl
  · intro p hp
    have hp1 : p.1 ∈ index.drop (j + 1) := (List.of_mem_zip (List.mem_reverse.mp hp)).1
    obtain ⟨i, hi, hik⟩ := List.mem_iff_getElem.mp hp1
    rw [List.getElem_drop] at hik
    have hlt : j + 1 + i < index.length := by
      rw [List.length_drop] at hi; omega
    have := hlast (j + 1 + i) hlt (by omega)
    simp only [bne_iff_ne, ne_eq]
    intro hk
    exact this (by rw [hik, ← hk])

theorem fillValue_spec (index : List Nat) (vals : List V) (first : V) (f : Nat) :
    ((∀ j (hj : j < index.length), f < index[j]) →
        fillValue (buildMapping index vals) first f = first) ∧
      (∀ j (hj : j < index.length) (hv : j < vals.length), index[j] ≤ f →
        (∀ j' (hj' : j' < index.length), index[j'] ≤ f → index[j'] ≤ index[j]) →
        (∀ j' (hj' : j' < index.length), j < j' → index[j'] ≠ index[j]) →
        fillValue (buildMapping index vals) first f = vals[j]) := by
  induction f with
  | zero =>
    constructor
    · intro h
      have hn := lookup_buildMapping_none index vals 0 (fun j hj => by have := h j hj; omega)
      simp [fillValue, hn]
    · intro j hj hv hle _ hlast
      have h0 : index[j] = 0 := by omega
      have hs := lookup_buildMapping_some index vals j hj hv hlast
      rw [h0] at hs
      simp [fillValue, hs]
  | succ f ih =>
    constructor
    · intro h
      have hn := lookup_buildMapping_none index vals (f + 1)
        (fun j hj => by have := h j hj; omega)
      simp only [fillValue, hn, Option.getD_none]
      exact ih.1 (fun j hj => by have := h j hj; omega)
    · intro j hj hv hle hmax hlast
      by_cases he : index[j] = f + 1
      · have hs := lookup_buildMapping_some index vals j hj hv hlast
        rw [he] at hs
        simp [fillValue, hs]
      · have hn := lookup_buildMapping_none index vals (f + 1) (by
          intro j' hj' hk
          have := hmax j' hj' (by omega)
          omega)
        simp only [fillValue, hn, Option.getD_none]
        refine ih.2 j hj hv (by omega) ?_ hlast
        intro j' hj' hle'
        exact hmax j' hj' (by omega)

end SparseLemmas

section MaxFrameLemmas

variable {α : Type} [LinearOrderedField α]

end MaxFrameLemmas

theorem clamp_index (frame : Int) (n : Nat) (hn : n ≠ 0) :
    0 ≤ clamp frame 0 ((n : Int) - 1) ∧ (clamp frame 0 ((n : Int) - 1)).toNat < n := by
  unfold clamp
  have h1 : (1 : Int) ≤ n := by omega
  constructor
  · exact le_min (le_max_right _ _) (by omega)
  · have : min (max frame 0) ((n : Int) - 1) ≤ (n : Int) - 1 := min_le_right _ _
    have h0 : 0 ≤ min (max frame 0) ((n : Int) - 1) := le_min (le_max_right _ _) (by omega)
    omega

theorem readAt_clamp {V : Type} (xs : List V) (frame : Int) (hn : xs.length ≠ 0) :
    ∃ h : (clamp frame 0 ((xs.length : Int) - 1)).toNat < xs.length,
      readAt xs (clamp frame 0 ((xs.length : Int) - 1))
        = some (xs.get ⟨(clamp frame 0 ((xs.length : Int) - 1)).toNat, h⟩) := by
  obtain ⟨h0, h1⟩ := clamp_index frame xs.length hn
  refine ⟨h1, ?_⟩
  unfold readAt
  rw [if_neg (by omega), List.getElem?_eq_getElem h1]
  rfl

theorem mapM_range_some {β : Type} (f : Nat → Option β) (g : Nat → β) (n : Nat)
    (h : ∀ b, b < n → f b = some (g b)) :
    (List.range n).mapM f = some ((List.range n).map g) := by
  have key : ∀ l : List Nat, (∀ b ∈ l, f b = some (g b)) → l.mapM f = some (l.map g) := by
    intro l
    induction l with
    | nil => intro _; rfl
    | cons a l ih =>
      intro hl
      rw [List.mapM_cons, hl a (List.mem_cons_self _ _), ih (fun b hb => hl b (List.mem_cons_of_mem _ hb))]
      rfl
  exact key _ (fun b hb => h b (List.mem_range.mp hb))

theorem samplePos_eq {α : Type} [Zero α] (frame : Int) (pos : List (Vec3 α)) :
    ∃ p, samplePos frame pos = some p ∧ (pos.length = 0 → p = ![0, 0, 0]) ∧
      (pos.length ≠ 0 →
        pos[(min (max frame 0) ((pos.length : Int) - 1)).toNat]? = some p) := by
  by_cases hn : pos.length = 0
  · exact ⟨![0, 0, 0], by simp [samplePos, hn], fun _ => rfl, fun h => absurd hn h⟩
  · obtain ⟨h, hr⟩ := readAt_clamp pos frame hn
    refine ⟨_, by simpa [samplePos, hn] using hr, fun h0 => absurd h0 hn, fun _ => ?_⟩
    rw [List.getElem?_eq_getElem (by simpa [clamp] using h)]
    rfl

theorem sampleRot_eq {α : Type} [Zero α] [One α] (frame : Int) (rot : List (Vec4 α)) :
    ∃ r, sampleRot frame rot = some r ∧ (rot.length = 0 → r = ![0, 0, 0, 1]) ∧
      (rot.length ≠ 0 →
        rot[(min (max frame 0) ((rot.length : Int) - 1)).toNat]? = some r) := by
  by_cases hn : rot.length = 0
  · exact ⟨![0, 0, 0, 1], by simp [sampleRot, hn], fun _ => rfl, fun h => absurd hn h⟩
  · obtain ⟨h, hr⟩ := readAt_clamp rot frame hn
    refine ⟨_, by simpa [sampleRot, hn] using hr, fun h0 => absurd h0 hn, fun _ => ?_⟩
    rw [List.getElem?_eq_getElem (by simpa [clamp] using h)]
    rfl

/-- C4: for every bone and every integer frame, a translation track of length
`n > 0` is sampled at index `min (max frame 0) (n - 1)`, which lies in
`[0, n - 1]`, and the rotation track likewise with its own length; an empty
rotation track gives `(0,0,0,1)`, an empty translation track the zero vector;
the sampling loop never reads outside a track. -/
theorem sample_clamped {α : Type} [Zero α] [One α] (frame : Int)
    (arc_pos : List (List (Vec3 α))) (arc_rot : List (List (Vec4 α)))
    (hlen : arc_rot.length = arc_pos.length) :
    ∃ out, sampleAll frame arc_pos arc_rot = some out ∧ out.length = arc_pos.length ∧
      ∀ b (hb : b < arc_pos.length) (hr : b < arc_rot.length) (ho : b < out.length),
        (arc_pos[b].length = 0 → out[b].1 = ![0, 0, 0]) ∧
        (arc_pos[b].length ≠ 0 →
          0 ≤ min (max frame 0) ((arc_pos[b].length : Int) - 1) ∧
          min (max frame 0) ((arc_pos[b].length : Int) - 1) ≤ (arc_pos[b].length : Int) - 1 ∧
          arc_pos[b][(min (max frame 0) ((arc_pos[b].length : Int) - 1)).toNat]?
            = some out[b].1) ∧
        (arc_rot[b].length = 0 → out[b].2 = ![0, 0, 0, 1]) ∧
        (arc_rot[b].length ≠ 0 →
          0 ≤ min (max frame 0) ((arc_rot[b].length : Int) - 1) ∧
          min (max frame 0) ((arc_rot[b].length : Int) - 1) ≤ (arc_rot[b].length : Int) - 1 ∧
          arc_rot[b][(min (max frame 0) ((arc_rot[b].length : Int) - 1)).toNat]?
            = some out[b].2) := by
  classical
  let g : Nat → Vec3 α × Vec4 α := fun b =>
    ((samplePos frame (arc_pos.getD b [])).getD ![0, 0, 0],
     (sampleRot frame (arc_rot.getD b [])).getD ![0, 0, 0, 1])
  have hbody : ∀ b, b < arc_pos.length → sampleBone frame arc_pos arc_rot b = some (g b) := by
    intro b hb
    have hr : b < arc_rot.length := by omega
    obtain ⟨p, hp, _⟩ := samplePos_eq frame arc_pos[b]
    obtain ⟨r, hrr, _⟩ := sampleRot_eq frame arc_rot[b]
    simp [sampleBone, g, List.getElem?_eq_getElem hb, List.getElem?_eq_getElem hr, hp, hrr,
      List.getD_eq_getElem?_getD]
  refine ⟨(List.range arc_pos.length).map g, mapM_range_some _ g _ hbody, by simp, ?_⟩
  intro b hb hr ho
  obtain ⟨p, hp, hp0, hp1⟩ := samplePos_eq frame arc_pos[b]
  obtain ⟨r, hrr, hr0, hr1⟩ := sampleRot_eq frame arc_rot[b]
  have hg : ((List.range arc_pos.length).map g)[b] = (p, r) := by
    simp [g, List.getD_eq_getElem?_getD, List.getElem?_eq_getElem hb,
      List.getElem?_eq_getElem hr, hp, hrr]
  rw [hg]
  refine ⟨hp0, fun hn => ⟨?_, min_le_right _ _, hp1 hn⟩, hr0,
    fun hn => ⟨?_, min_le_right _ _, hr1 hn⟩⟩
  · exact le_min (le_max_right _ _) (by omega)
  · exact le_min (le_max_right _ _) (by omega)

theorem sample_clamped_witness :
    ([[], [(![1, 2, 3, 4] : Vec4 ℚ)]] : List (List (Vec4 ℚ))).length
        = ([[(![1, 2, 3] : Vec3 ℚ), ![4, 5, 6]], []] : List (List (Vec3 ℚ))).length ∧
      ∃ out, sampleAll (-1) [[(![1, 2, 3] : Vec3 ℚ), ![4, 5, 6]], []]
          [[], [(![1, 2, 3, 4] : Vec4 ℚ)]] = some out ∧ out.length = 2 :=
  ⟨rfl, by
    obtain ⟨out, h1, h2, _⟩ := sample_clamped (-1)
      [[(![1, 2, 3] : Vec3 ℚ), ![4, 5, 6]], []] [[], [(![1, 2, 3, 4] : Vec4 ℚ)]] rfl
    exact ⟨out, h1, h2⟩⟩

/-! ## Properties of the section passes of `ReadDanceMesh` -/

section MeshLemmas

variable {α : Type}

theorem pass1_spec (secs : List (SectionRec α)) :
    (pass1 secs = Except.error DecodeError.strideAssert ↔ ∃ s ∈ secs, s.fvf_size ≠ 68) ∧
      ((∀ s ∈ secs, s.fvf_size = 68) → ∃ totals, pass1 secs = Except.ok totals) := by
  have key : ∀ (l : List (SectionRec α)) (acc : Nat × Nat),
      ((∃ s ∈ l, s.fvf_size ≠ 68) → l.foldlM (fun (acc : Nat × Nat) s =>
          if s.fvf_size = 68 then
            Except.ok (acc.1 + s.verts.length, acc.2 + s.faces.length)
          else Except.error DecodeError.strideAssert) acc
          = Except.error DecodeError.strideAssert) ∧
      ((∀ s ∈ l, s.fvf_size = 68) → ∃ totals, l.foldlM (fun (acc : Nat × Nat) s =>
          if s.fvf_size = 68 then
            Except.ok (acc.1 + s.verts.length, acc.2 + s.faces.length)
          else Except.error DecodeError.strideAssert) acc = Except.ok totals) := by
    intro l
    induction l with
    | nil => intro acc; exact ⟨fun ⟨s, hs, _⟩ => absurd hs (List.not_mem_nil s), fun _ => ⟨acc, rfl⟩⟩
    | cons a l ih =>
      intro acc
      rw [List.foldlM_cons]
      by_cases ha : a.fvf_size = 68
      · rw [if_pos ha]
        constructor
        · rintro ⟨s, hs, hne⟩
          rcases List.mem_cons.mp hs with h | h
          · exact absurd (h ▸ ha) hne
          · exact (ih _).1 ⟨s, h, hne⟩
        · intro hall
          exact (ih _).2 (fun s hs => hall s (List.mem_cons_of_mem _ hs))
      · rw [if_neg ha]
        constructor
        · intro _; rfl
        · intro hall
          exact absurd (hall a (List.mem_cons_self _ _)) ha
  constructor
  · constructor
    · intro h
      by_contra hne
      push_neg at hne
      obtain ⟨t, ht⟩ := (key secs (0, 0)).2 hne
      unfold pass1 at h
      rw [ht] at h
      cases h
    · exact (key secs (0, 0)).1
  · exact (key secs (0, 0)).2

end MeshLemmas

section BatchLemmas

variable {α : Type} [Ring α]

omit [Ring α] in
theorem insertSlots_eq (S : Finset Nat) (r : VertexRec α) :
    insertSlots S r = S ∪ ({r.b0} ∪ ([r.b1, r.b2, r.b3].filter (fun x => x ≠ 0)).toFinset) := by
  unfold insertSlots
  ext x
  by_cases h1 : r.b1 = 0 <;> by_cases h2 : r.b2 = 0 <;> by_cases h3 : r.b3 = 0 <;>
    simp [h1, h2, h3, List.filter_cons] <;> tauto

omit [Ring α] in
theorem sectionSet_cons (f : Nat) (fs : List (Vec3 Nat)) (r : VertexRec α)
    (rs : List (VertexRec α)) :
    sectionSet ({ fvf_size := f, faces := fs, verts := r :: rs } : SectionRec α)
      = ({r.b0} ∪ ([r.b1, r.b2, r.b3].filter (fun x => x ≠ 0)).toFinset)
        ∪ sectionSet ({ fvf_size := f, faces := fs, verts := rs } : SectionRec α) := by
  unfold sectionSet
  ext x
  simp only [List.map_cons, List.toFinset_cons, List.flatMap_cons, List.filter_append,
    List.toFinset_append, Finset.mem_union, Finset.mem_insert, Finset.mem_singleton,
    List.mem_toFinset]
  tauto

theorem foldl_vertexStep (i : Nat) (f : Nat) (fs : List (Vec3 Nat)) (rs : List (VertexRec α))
    (st : VertLoop α) :
    (rs.foldl (vertexStep i) st).bone_index
        = st.bone_index ∪ sectionSet ({ fvf_size := f, faces := fs, verts := rs } : SectionRec α) ∧
      (rs.foldl (vertexStep i) st).vi = st.vi + rs.length ∧
      (rs.foldl (vertexStep i) st).prim.bi = st.prim.bi ++ rs.map (fun r => r.slots) ∧
      (rs.foldl (vertexStep i) st).prim.bw = st.prim.bw ++ rs.map (fun r => boneWeights r.w) ∧
      (rs.foldl (vertexStep i) st).prim.tris = st.prim.tris := by
  induction rs generalizing st with
  | nil => simp [sectionSet]
  | cons r rs ih =>
    rw [List.foldl_cons]
    obtain ⟨h1, h2, h3, h4, h5⟩ := ih (vertexStep i st r)
    refine ⟨?_, ?_, ?_, ?_, ?_⟩
    · rw [h1, sectionSet_cons]
      simp only [vertexStep, insertSlots_eq]
      rw [Finset.union_assoc]
    · rw [h2]; simp only [vertexStep, List.length_cons]; omega
    · rw [h3]; simp [vertexStep]
    · rw [h4]; simp [vertexStep]
    · rw [h5]; simp [vertexStep]

omit [Ring α] in
theorem sectionSet_nonempty (s : SectionRec α) (h : s.verts ≠ []) : (sectionSet s).Nonempty := by
  obtain ⟨r, rs, hr⟩ := List.exists_cons_of_ne_nil h
  refine ⟨r.b0, ?_⟩
  unfold sectionSet
  rw [hr]
  simp

theorem isComplete_iff (S : Finset Nat) (h : S.Nonempty) :
    isComplete S = true ↔ S.max' h = S.card - 1 := by
  simp [isComplete, h]

theorem sectionStep_eq (st : Pass2State α) (i : Nat) (s : SectionRec α)
    (hf : s.fvf_size = 68) (hv : s.verts ≠ []) :
    ∃ prim, (∀ st', sectionStep st i s = Except.ok st' → st'.prim = prim) ∧
      prim.bi = st.prim.bi ++ s.verts.map (fun r => r.slots) ∧
      prim.bw = st.prim.bw ++ s.verts.map (fun r => boneWeights r.w) ∧
      prim.tris = st.prim.tris
        ++ s.faces.map (fun f => ![f 0 + st.vi, f 1 + st.vi, f 2 + st.vi]) ∧
      sectionStep st i s =
        match (if isComplete (sectionSet s) = true then st.bone_mapping_section ++ [∅]
            else st.bone_mapping_section).getLast? with
        | none => Except.error DecodeError.noBatch
        | some last =>
          Except.ok
            { prim := prim
              vi := st.vi + s.verts.length
              fi := st.fi + s.faces.length
              bone_mapping_section :=
                (if isComplete (sectionSet s) = true then st.bone_mapping_section ++ [∅]
                  else st.bone_mapping_section).dropLast ++ [last ∪ sectionSet s]
              bone_map_section_to_batch := st.bone_map_section_to_batch ++
                [(if isComplete (sectionSet s) = true then st.bone_mapping_section ++ [∅]
                  else st.bone_mapping_section).length - 1] } := by
  obtain ⟨f, fs, rs⟩ := s
  simp only at hf hv
  subst hf
  obtain ⟨h1, h2, h3, h4, h5⟩ := foldl_vertexStep i 68 fs rs
    ({ prim := { st.prim with
          tris := st.prim.tris ++ fs.map (fun f => ![f 0 + st.vi, f 1 + st.vi, f 2 + st.vi]) },
       vi := st.vi, bone_index := ∅ } : VertLoop α)
  simp only [Finset.empty_union] at h1 h2 h3 h4 h5
  have hne := sectionSet_nonempty ({ fvf_size := 68, faces := fs, verts := rs } : SectionRec α) hv
  refine ⟨_, ?_, h3, h4, h5, ?_⟩
  · intro st' hst'
    unfold sectionStep at hst'
    simp only [if_true] at hst'
    rw [dif_pos (by rw [h1]; exact hne)] at hst'
    split at hst'
    · cases hst'
    · cases hst'; rfl
  · unfold sectionStep
    simp only [if_true]
    rw [dif_pos (by rw [h1]; exact hne)]
    simp only [h1, h2, isComplete_iff _ hne]

theorem sectionStep_ok (st : Pass2State α) (i : Nat) (s : SectionRec α)
    (hf : s.fvf_size = 68) (hv : s.verts ≠ [])
    (hb : st.bone_mapping_section ≠ [] ∨ isComplete (sectionSet s) = true) :
    ∃ st' last, sectionStep st i s = Except.ok st' ∧
      (if isComplete (sectionSet s) = true then st.bone_mapping_section ++ [∅]
        else st.bone_mapping_section).getLast? = some last ∧
      st'.bone_mapping_section =
        (if isComplete (sectionSet s) = true then st.bone_mapping_section ++ [∅]
          else st.bone_mapping_section).dropLast ++ [last ∪ sectionSet s] ∧
      st'.bone_mapping_section.length = st.bone_mapping_section.length
        + (if isComplete (sectionSet s) = true then 1 else 0) ∧
      st'.bone_map_section_to_batch = st.bone_map_section_to_batch ++
        [st'.bone_mapping_section.length - 1] ∧
      st'.vi = st.vi + s.verts.length ∧ st'.fi = st.fi + s.faces.length ∧
      st'.prim.bi = st.prim.bi ++ s.verts.map (fun r => r.slots) ∧
      st'.prim.bw = st.prim.bw ++ s.verts.map (fun r => boneWeights r.w) ∧
      st'.prim.tris = st.prim.tris
        ++ s.faces.map (fun f => ![f 0 + st.vi, f 1 + st.vi, f 2 + st.vi]) := by
  obtain ⟨prim, _, hbi, hbw, htris, hstep⟩ := sectionStep_eq st i s hf hv
  have hsets : (if isComplete (sectionSet s) = true then st.bone_mapping_section ++ [∅]
      else st.bone_mapping_section) ≠ [] := by
    by_cases hc : isComplete (sectionSet s) = true
    · simp [hc]
    · rcases hb with hb | hb
      · simpa [hc] using hb
      · exact absurd hb hc
  obtain ⟨last, hlast⟩ : ∃ last, (if isComplete (sectionSet s) = true
      then st.bone_mapping_section ++ [∅] else st.bone_mapping_section).getLast? = some last := by
    cases hg : (if isComplete (sectionSet s) = true
      then st.bone_mapping_section ++ [∅] else st.bone_mapping_section).getLast? with
    | none => exact absurd (List.getLast?_eq_none_iff.mp hg) hsets
    | some l => exact ⟨l, rfl⟩
  rw [hlast] at hstep
  simp only at hstep
  have hlen : (if isComplete (sectionSet s) = true then st.bone_mapping_section ++ [∅]
      else st.bone_mapping_section).length
      = st.bone_mapping_section.length + (if isComplete (sectionSet s) = true then 1 else 0) := by
    by_cases hc : isComplete (sectionSet s) = true <;> simp [hc]
  have hpos : 0 < (if isComplete (sectionSet s) = true then st.bone_mapping_section ++ [∅]
      else st.bone_mapping_section).length := List.length_pos.mpr hsets
  refine ⟨_, last, hstep, hlast, rfl, ?_, ?_, rfl, rfl, hbi, hbw, htris⟩
  · simp only [List.length_append, List.length_dropLast, List.length_singleton]
    rw [hlen] at hpos ⊢
    omega
  · simp only [List.length_append, List.length_dropLast, List.length_singleton]
    congr 2

theorem pass2From_spec (secs : List (SectionRec α)) :
    ∀ (i : Nat) (st : Pass2State α), (∀ s ∈ secs, s.fvf_size = 68) →
      (∀ s ∈ secs, s.verts ≠ []) →
      (st.bone_mapping_section ≠ [] ∨
        ∀ s, secs.head? = some s → isComplete (sectionSet s) = true) →
      ∃ st', pass2From i st secs = Except.ok st' ∧
        st'.bone_map_section_to_batch = st.bone_map_section_to_batch ++
          (List.range secs.length).map (fun k => st.bone_mapping_section.length
            + (secs.take (k + 1)).countP (fun s => isComplete (sectionSet s)) - 1) ∧
        st'.bone_mapping_section.length = st.bone_mapping_section.length
          + secs.countP (fun s => isComplete (sectionSet s)) ∧
        st'.prim.bi = st.prim.bi ++ secs.flatMap (fun s => s.verts.map (fun r => r.slots)) ∧
        st'.prim.bw = st.prim.bw
          ++ secs.flatMap (fun s => s.verts.map (fun r => boneWeights r.w)) := by
  induction secs with
  | nil => intro i st _ _ _; exact ⟨st, rfl, by simp, by simp, by simp, by simp⟩
  | cons s rest ih =>
    intro i st hf hv hb
    obtain ⟨st1, last, hstep, _, _, hlen, hbat, _, _, hbi, hbw, _⟩ := sectionStep_ok st i s
      (hf s (List.mem_cons_self _ _)) (hv s (List.mem_cons_self _ _))
      (hb.imp id (fun h => h s rfl))
    have hpos : st1.bone_mapping_section ≠ [] := by
      intro h0
      rcases hb with hb | hb
      · rw [h0] at hlen
        have := List.length_pos.mpr hb
        simp at hlen
        omega
      · rw [h0, hb s rfl] at hlen
        simp at hlen
    obtain ⟨st', hst', hb', hl', hbi', hbw'⟩ := ih (i + 1) st1
      (fun x hx => hf x (List.mem_cons_of_mem _ hx))
      (fun x hx => hv x (List.mem_cons_of_mem _ hx)) (Or.inl hpos)
    have hp1 := List.length_pos.mpr hpos
    refine ⟨st', ?_, ?_, ?_, ?_, ?_⟩
    · simp only [pass2From, hstep]
      exact hst'
    · rw [hb', hbat]
      simp only [List.length_cons, List.range_succ_eq_map, List.map_cons, List.map_map,
        List.append_assoc, List.singleton_append]
      congr 1
      rw [List.cons.injEq]
      constructor
      · rw [hlen]; simp [List.countP_cons]
      · apply List.map_congr_left
        intro k _
        simp only [Function.comp, List.take_succ_cons, List.countP_cons]
        rw [hlen]
        omega
    · rw [hl', hlen]
      simp only [List.countP_cons]
      omega
    · rw [hbi', hbi]; simp
    · rw [hbw', hbw]; simp

end BatchLemmas

section RemapLemmas

variable {α : Type} [Ring α]

theorem readTable_spec (sets : List (Finset Nat)) :
    ∀ table : List Int, (sets.map Finset.card).sum ≤ table.length →
      ∃ rows, readTable sets table = Except.ok rows ∧ rows.length = sets.length ∧
        ∀ b (hb : b < sets.length), rows[b]?
          = some ((table.drop ((sets.take b).map Finset.card).sum).take sets[b].card) ∧
          ((table.drop ((sets.take b).map Finset.card).sum).take sets[b].card).length
            = sets[b].card := by
  induction sets with
  | nil => intro table _; exact ⟨[], rfl, rfl, fun b hb => absurd hb (Nat.not_lt_zero b)⟩
  | cons s rest ih =>
    intro table hlen
    simp only [List.map_cons, List.sum_cons] at hlen
    obtain ⟨rows, hr, hl, hrows⟩ := ih (table.drop s.card) (by rw [List.length_drop]; omega)
    refine ⟨table.take s.card :: rows, ?_, by simp [hl], ?_⟩
    · unfold readTable
      rw [if_pos (by omega), hr]
    · intro b hb
      cases b with
      | zero => simp; omega
      | succ b =>
        have hb' : b < rest.length := by simpa using hb
        simp only [List.getElem?_cons_succ, List.take_succ_cons, List.map_cons, List.sum_cons,
          List.getElem_cons_succ]
        obtain ⟨e1, e2⟩ := hrows b hb'
        rw [List.drop_drop] at e1 e2
        exact ⟨e1, e2⟩

theorem remapVertex_ok (row : List Int) (b : Vec4 Int)
    (h : ∀ k, ∃ y, readAt row (b k) = some y) :
    remapVertex row b = Except.ok (lookupSlots row b) := by
  obtain ⟨y0, h0⟩ := h 0
  obtain ⟨y1, h1⟩ := h 1
  obtain ⟨y2, h2⟩ := h 2
  obtain ⟨y3, h3⟩ := h 3
  have e : lookupSlots row b = ![y0, y1, y2, y3] := by
    funext k
    fin_cases k <;> simp [lookupSlots, h0, h1, h2, h3]
  rw [e]
  simp only [remapVertex, remapSlot, h0, h1, h2, h3]
  rfl

theorem remapVerts_spec (table : List (List Int)) (batch : Nat) (row : List Int)
    (hrow : table[batch]? = some row) (blk : List (Vec4 Int)) :
    ∀ (pre post : List (Vec4 Int)), (∀ b ∈ blk, ∀ k, ∃ y, readAt row (b k) = some y) →
      remapVerts table batch blk.length (pre ++ blk ++ post, pre.length)
        = Except.ok (pre ++ blk.map (lookupSlots row) ++ post, pre.length + blk.length) := by
  induction blk with
  | nil => intro pre post _; simp [remapVerts]
  | cons b blk ih =>
    intro pre post h
    have hget : (pre ++ b :: blk ++ post)[pre.length]? = some b := by
      rw [List.append_assoc, List.getElem?_append_right (le_refl _)]
      simp
    have hset : (pre ++ b :: blk ++ post).set pre.length (lookupSlots row b)
        = (pre ++ [lookupSlots row b]) ++ blk ++ post := by
      rw [List.append_assoc, List.set_append_right _ _ (le_refl _)]
      simp
    simp only [List.length_cons, remapVerts, hrow, hget,
      remapVertex_ok row b (h b (List.mem_cons_self _ _)), hset]
    have := ih (pre ++ [lookupSlots row b]) post (fun x hx => h x (List.mem_cons_of_mem _ hx))
    simp only [List.length_append, List.length_singleton] at this
    rw [this]
    simp
    omega

omit [Ring α] in
theorem pass3From_spec (table : List (List Int)) (batches : List Nat)
    (secs : List (SectionRec α)) :
    ∀ (i : Nat) (pre : List (Vec4 Int)),
      (∀ k (hk : k < secs.length), ∃ batch row, batches[i + k]? = some batch ∧
        table[batch]? = some row ∧
        ∀ r ∈ secs[k].verts, ∀ slot, ∃ y, readAt row (r.slots slot) = some y) →
      pass3From table batches i secs
          (pre ++ secs.flatMap (fun s => s.verts.map (fun r => r.slots)), pre.length)
        = Except.ok (pre ++ remapSpec table batches i secs,
            pre.length + (secs.map (fun s => s.verts.length)).sum) := by
  induction secs with
  | nil => intro i pre _; simp [pass3From, remapSpec]
  | cons s rest ih =>
    intro i pre h
    obtain ⟨batch, row, hb, hrow, hr⟩ := h 0 (by simp)
    simp only [Nat.add_zero, List.getElem_cons_zero] at hb hr
    have hblk := remapVerts_spec table batch row hrow (s.verts.map (fun r => r.slots)) pre
      (rest.flatMap (fun s => s.verts.map (fun r => r.slots)))
      (by
        intro b hb' k
        obtain ⟨r, hr1, hr2⟩ := List.mem_map.mp hb'
        subst hr2
        exact hr r hr1 k)
    simp only [List.length_map] at hblk
    have hrowOf : rowOf table batches i = row := by simp [rowOf, hb, hrow]
    have hrest := ih (i + 1) (pre ++ s.verts.map (fun r => lookupSlots row r.slots)) (by
      intro k hk
      obtain ⟨b', row', h1, h2, h3⟩ := h (k + 1) (by simpa using hk)
      refine ⟨b', row', ?_, h2, ?_⟩
      · rw [← h1]; congr 1; omega
      · simpa using h3)
    simp only [List.length_append, List.length_map] at hrest
    simp only [pass3From, hb, List.flatMap_cons, ← List.append_assoc, hblk, List.map_map,
      remapSpec, hrowOf, List.map_cons, List.sum_cons]
    simp only [Function.comp_def]
    rw [hrest]
    simp only [List.append_assoc, Nat.add_assoc]

omit [Ring α] in
theorem remapSpec_getElem (table : List (List Int)) (batches : List Nat)
    (secs : List (SectionRec α)) :
    ∀ (i k : Nat) (hk : k < secs.length) (j : Nat) (hj : j < secs[k].verts.length),
      (remapSpec table batches i secs)[((secs.take k).map (fun s => s.verts.length)).sum + j]?
        = some (lookupSlots (rowOf table batches (i + k)) secs[k].verts[j].slots) := by
  induction secs with
  | nil => intro i k hk; simp at hk
  | cons s rest ih =>
    intro i k hk j hj
    cases k with
    | zero =>
      simp only [List.getElem_cons_zero] at hj
      simp only [List.take_zero, List.map_nil, List.sum_nil, Nat.zero_add, remapSpec,
        Nat.add_zero, List.getElem_cons_zero]
      rw [List.getElem?_append_left (by simpa using hj)]
      simp [List.getElem?_map, List.getElem?_eq_getElem hj]
    | succ k =>
      have hk' : k < rest.length := by simpa using hk
      simp only [List.getElem_cons_succ] at hj
      simp only [List.take_succ_cons, List.map_cons, List.sum_cons, remapSpec,
        List.getElem_cons_succ]
      rw [List.getElem?_append_right (by simp; omega)]
      have := ih (i + 1) k hk' j hj
      simp only [List.length_map]
      rw [show s.verts.length + ((rest.take k).map (fun s => s.verts.length)).sum + j
        - s.verts.length = ((rest.take k).map (fun s => s.verts.length)).sum + j by omega]
      rw [this, Nat.add_assoc i 1 k, Nat.add_comm 1 k]

theorem sectionStep_inv (st st' : Pass2State α) (i : Nat) (s : SectionRec α)
    (h : sectionStep st i s = Except.ok st') :
    s.fvf_size = 68 ∧ s.verts ≠ [] ∧
      st'.prim.bi = st.prim.bi ++ s.verts.map (fun r => r.slots) ∧
      st'.bone_map_section_to_batch.length = st.bone_map_section_to_batch.length + 1 := by
  have hf : s.fvf_size = 68 := by
    by_contra hf
    unfold sectionStep at h
    rw [if_neg hf] at h
    cases h
  have hv : s.verts ≠ [] := by
    intro hv
    unfold sectionStep at h
    rw [if_pos hf, hv] at h
    simp at h
  obtain ⟨prim, hprim, hbi, _, _, hstep⟩ := sectionStep_eq st i s hf hv
  refine ⟨hf, hv, ?_, ?_⟩
  · rw [hprim st' h, hbi]
  · rw [hstep] at h
    split at h
    · cases h
    · cases h
      simp

theorem pass2From_inv (secs : List (SectionRec α)) :
    ∀ (i : Nat) (st st' : Pass2State α), pass2From i st secs = Except.ok st' →
      (∀ s ∈ secs, s.fvf_size = 68) ∧ (∀ s ∈ secs, s.verts ≠ []) ∧
      st'.prim.bi = st.prim.bi ++ secs.flatMap (fun s => s.verts.map (fun r => r.slots)) ∧
      st'.bone_map_section_to_batch.length
        = st.bone_map_section_to_batch.length + secs.length := by
  induction secs with
  | nil =>
    intro i st st' h
    cases h
    simp
  | cons s rest ih =>
    intro i st st' h
    unfold pass2From at h
    cases hs : sectionStep st i s with
    | error e => rw [hs] at h; cases h
    | ok st1 =>
      rw [hs] at h
      simp only at h
      obtain ⟨hf, hv, hbi, hlen⟩ := sectionStep_inv st st1 i s hs
      obtain ⟨hf', hv', hbi', hlen'⟩ := ih (i + 1) st1 st' h
      refine ⟨?_, ?_, ?_, ?_⟩
      · intro x hx
        rcases List.mem_cons.mp hx with hx | hx
        · rw [hx]; exact hf
        · exact hf' x hx
      · intro x hx
        rcases List.mem_cons.mp hx with hx | hx
        · rw [hx]; exact hv
        · exact hv' x hx
      · rw [hbi', hbi]; simp
      · rw [hlen', hlen]; simp; omega

end RemapLemmas

section StrideLemmas

variable {α : Type} [Ring α]

theorem sectionStep_not_stride (st : Pass2State α) (i : Nat) (s : SectionRec α)
    (hf : s.fvf_size = 68) : sectionStep st i s ≠ Except.error DecodeError.strideAssert := by
  unfold sectionStep
  rw [if_pos hf]
  simp only
  split
  · split
    · intro h; cases h
    · intro h; cases h
  · intro h; cases h

theorem pass2From_not_stride (secs : List (SectionRec α)) :
    ∀ (i : Nat) (st : Pass2State α), (∀ s ∈ secs, s.fvf_size = 68) →
      pass2From i st secs ≠ Except.error DecodeError.strideAssert := by
  induction secs with
  | nil => intro i st _ h; cases h
  | cons s rest ih =>
    intro i st hf
    have h1 := sectionStep_not_stride st i s (hf s (List.mem_cons_self _ _))
    unfold pass2From
    cases hs : sectionStep st i s with
    | ok st' => exact ih (i + 1) st' (fun x hx => hf x (List.mem_cons_of_mem _ hx))
    | error e =>
      intro h
      simp only at h
      cases h
      exact h1 hs

theorem readTable_not_stride (sets : List (Finset Nat)) :
    ∀ table : List Int, readTable sets table ≠ Except.error DecodeError.strideAssert := by
  induction sets with
  | nil => intro table h; cases h
  | cons s rest ih =>
    intro table
    unfold readTable
    split
    · cases hr : readTable rest (table.drop s.card) with
      | ok rows => intro h; cases h
      | error e =>
        intro h
        simp only at h
        cases h
        exact ih _ hr
    · intro h; cases h

theorem remapSlot_not_stride (row : List Int) (x : Int) :
    remapSlot row x ≠ Except.error DecodeError.strideAssert := by
  unfold remapSlot
  split <;> intro h <;> cases h

theorem remapVertex_not_stride (row : List Int) (b : Vec4 Int) :
    remapVertex row b ≠ Except.error DecodeError.strideAssert := by
  unfold remapVertex
  intro h
  cases h0 : remapSlot row (b 0) with
  | error e => rw [h0] at h; cases h; exact remapSlot_not_stride _ _ h0
  | ok y0 =>
    cases h1 : remapSlot row (b 1) with
    | error e => rw [h0, h1] at h; cases h; exact remapSlot_not_stride _ _ h1
    | ok y1 =>
      cases h2 : remapSlot row (b 2) with
      | error e => rw [h0, h1, h2] at h; cases h; exact remapSlot_not_stride _ _ h2
      | ok y2 =>
        cases h3 : remapSlot row (b 3) with
        | error e => rw [h0, h1, h2, h3] at h; cases h; exact remapSlot_not_stride _ _ h3
        | ok y3 => rw [h0, h1, h2, h3] at h; cases h

theorem remapVerts_not_stride (table : List (List Int)) (batch : Nat) (n : Nat) :
    ∀ st : List (Vec4 Int) × Nat,
      remapVerts table batch n st ≠ Except.error DecodeError.strideAssert := by
  induction n with
  | zero => intro st h; cases h
  | succ n ih =>
    intro st
    unfold remapVerts
    split
    · rename_i row b _ _
      cases hv : remapVertex row b with
      | ok b' => exact ih _
      | error e =>
        intro h
        simp only at h
        cases h
        exact remapVertex_not_stride _ _ hv
    · intro h; cases h

omit [Ring α] in
theorem pass3From_not_stride (table : List (List Int)) (batches : List Nat)
    (secs : List (SectionRec α)) :
    ∀ (i : Nat) (st : List (Vec4 Int) × Nat),
      pass3From table batches i secs st ≠ Except.error DecodeError.strideAssert := by
  induction secs with
  | nil => intro i st h; cases h
  | cons s rest ih =>
    intro i st
    unfold pass3From
    split
    · rename_i batch _
      cases hv : remapVerts table batch s.verts.length st with
      | ok st' => exact ih _ _
      | error e =>
        intro h
        simp only at h
        cases h
        exact remapVerts_not_stride _ _ _ _ hv
    · intro h; cases h

end StrideLemmas

/-- C10: the section passes fail on the stride assertion, and so produce no
mesh, exactly when some section record has a size byte different from 68; in
particular the check never fails when every size byte is 68, and it already
fails in pass 1 otherwise. -/
theorem stride_check {α : Type} [Ring α] (secs : List (SectionRec α)) (table : List Int) :
    (readSections secs table = Except.error DecodeError.strideAssert
        ↔ ∃ s ∈ secs, s.fvf_size ≠ 68) ∧
      (pass1 secs = Except.error DecodeError.strideAssert ↔ ∃ s ∈ secs, s.fvf_size ≠ 68) ∧
      (pass1 secs ≠ Except.error DecodeError.strideAssert ↔ ∀ s ∈ secs, s.fvf_size = 68) := by
  have hp := pass1_spec secs
  refine ⟨⟨?_, ?_⟩, hp.1, ?_⟩
  · intro h
    by_contra hne
    push_neg at hne
    obtain ⟨t, ht⟩ := hp.2 hne
    unfold readSections at h
    rw [ht] at h
    simp only at h
    cases h2 : pass2 secs with
    | error e =>
      rw [h2] at h
      simp only at h
      cases h
      exact pass2From_not_stride secs 0 pass2Init hne h2
    | ok st =>
      rw [h2] at h
      simp only at h
      cases h3 : readTable st.bone_mapping_section table with
      | error e =>
        rw [h3] at h
        simp only at h
        cases h
        exact readTable_not_stride _ _ h3
      | ok rows =>
        rw [h3] at h
        simp only at h
        cases h4 : pass3From rows st.bone_map_section_to_batch 0 secs (st.prim.bi, 0) with
        | error e =>
          rw [h4] at h
          simp only at h
          cases h
          exact pass3From_not_stride _ _ _ _ _ h4
        | ok r =>
          rw [h4] at h
          cases h
  · intro h
    unfold readSections
    rw [hp.1.mpr h]
  · rw [Ne, hp.1]
    push_neg
    rfl

theorem remapExample_pass2 :
    ∃ st, pass2 remapExample = Except.ok st ∧ st.bone_map_section_to_batch = [0] ∧
      st.bone_mapping_section = [{0, 1, 2}] :=
  ⟨_, rfl, rfl, by decide⟩

theorem remapExample_decodes :
    ∃ mesh, readSections remapExample [10, 11, 12] = Except.ok mesh ∧
      mesh.bi = [![10, 11, 12, 10]] :=
  ⟨_, rfl, rfl⟩

/-- C6: the remap table row of batch `b` is the run of `|S_b|` consecutive
`i16` values of the table region that follows the rows of the earlier
batches (`S_b` the accumulated index set of the batch), and after decoding,
each of the four slots of vertex `j` of a section `i` assigned to batch `b`
holds `row_b[x]`, `x` being the raw byte read for the slot (the table region
being long enough and every `x` below the length of its row); local index 2
with the row `[10,11,12]` resolves to 12. -/
theorem remap_resolution {α : Type} [Ring α] (secs : List (SectionRec α)) (table : List Int)
    (st : Pass2State α) (h2 : pass2 secs = Except.ok st)
    (hlen : (st.bone_mapping_section.map Finset.card).sum ≤ table.length)
    (hrange : ∀ i (hi : i < secs.length), ∀ r ∈ secs[i].verts, ∀ k : Fin 4,
      ∃ b S, st.bone_map_section_to_batch[i]? = some b ∧
        st.bone_mapping_section[b]? = some S ∧ r.slots k < (S.card : Int)) :
    ∃ rows mesh, readTable st.bone_mapping_section table = Except.ok rows ∧
      readSections secs table = Except.ok mesh ∧
      rows.length = st.bone_mapping_section.length ∧
      (∀ b (hb : b < st.bone_mapping_section.length), rows[b]?
        = some ((table.drop ((st.bone_mapping_section.take b).map Finset.card).sum).take
            st.bone_mapping_section[b].card)) ∧
      (∀ i (hi : i < secs.length) j (hj : j < secs[i].verts.length) (k : Fin 4),
        ∃ b row vec, st.bone_map_section_to_batch[i]? = some b ∧ rows[b]? = some row ∧
          mesh.bi[((secs.take i).map (fun s => s.verts.length)).sum + j]? = some vec ∧
          readAt row (secs[i].verts[j].slots k) = some (vec k)) ∧
      remapSlot [10, 11, 12] 2 = Except.ok 12 := by
  obtain ⟨rows, hrows, hrl, hrow⟩ := readTable_spec st.bone_mapping_section table hlen
  obtain ⟨hf, hv, hbi, _⟩ := pass2From_inv secs 0 pass2Init st h2
  obtain ⟨totals, hp1⟩ := (pass1_spec secs).2 hf
  have hslot : ∀ r : VertexRec α, ∀ k : Fin 4, 0 ≤ r.slots k := by
    intro r k
    fin_cases k <;> simp [VertexRec.slots]
  have hin : ∀ k (hk : k < secs.length), ∃ batch row,
      st.bone_map_section_to_batch[0 + k]? = some batch ∧ rows[batch]? = some row ∧
      ∀ r ∈ secs[k].verts, ∀ slot, ∃ y, readAt row (r.slots slot) = some y := by
    intro k hk
    obtain ⟨r0, rs, hr0⟩ := List.exists_cons_of_ne_nil (hv secs[k] (List.getElem_mem hk))
    obtain ⟨b, S, hb, hS, _⟩ := hrange k hk r0 (by rw [hr0]; exact List.mem_cons_self _ _) 0
    have hbl : b < st.bone_mapping_section.length := by
      by_contra hge
      rw [List.getElem?_eq_none (by omega)] at hS
      cases hS
    obtain ⟨e1, e2⟩ := hrow b hbl
    refine ⟨b, _, by simpa using hb, e1, ?_⟩
    intro r hr slot
    obtain ⟨b', S', hb', hS', hlt⟩ := hrange k hk r hr slot
    rw [hb] at hb'
    cases hb'
    rw [List.getElem?_eq_getElem hbl] at hS'
    cases hS'
    have h0 := hslot r slot
    have hidx : (r.slots slot).toNat < (List.take st.bone_mapping_section[b].card
        (List.drop (List.map Finset.card (List.take b st.bone_mapping_section)).sum
          table)).length := by
      rw [e2]; omega
    refine ⟨(List.take st.bone_mapping_section[b].card
        (List.drop (List.map Finset.card (List.take b st.bone_mapping_section)).sum
          table))[(r.slots slot).toNat], ?_⟩
    unfold readAt
    rw [if_neg (by omega), List.getElem?_eq_getElem hidx]
  have h3 := pass3From_spec rows st.bone_map_section_to_batch secs 0 [] hin
  simp only [List.nil_append, List.length_nil, Nat.zero_add] at h3
  simp only [pass2Init, List.nil_append] at hbi
  refine ⟨rows, { st.prim with bi := remapSpec rows st.bone_map_section_to_batch 0 secs },
    hrows, ?_, hrl, fun b hb => (hrow b hb).1, ?_, rfl⟩
  · unfold readSections
    rw [hp1]
    simp only
    rw [h2]
    simp only
    rw [hrows]
    simp only
    rw [hbi, h3]
  · intro i hi j hj k
    obtain ⟨b, row, hb, hr, hall⟩ := hin i hi
    simp only [Nat.zero_add] at hb
    have hg := remapSpec_getElem rows st.bone_map_section_to_batch secs 0 i hi j hj
    simp only [Nat.zero_add] at hg
    have hrowOf : rowOf rows st.bone_map_section_to_batch i = row := by simp [rowOf, hb, hr]
    rw [hrowOf] at hg
    refine ⟨b, row, _, hb, hr, hg, ?_⟩
    obtain ⟨y, hy⟩ := hall secs[i].verts[j] (List.getElem_mem hj) k
    simp [lookupSlots, hy]

theorem remap_resolution_witness :
    ∃ st, pass2 remapExample = Except.ok st ∧
      (st.bone_mapping_section.map Finset.card).sum ≤ ([10, 11, 12] : List Int).length ∧
      (∀ i (hi : i < remapExample.length), ∀ r ∈ remapExample[i].verts, ∀ k : Fin 4,
        ∃ b S, st.bone_map_section_to_batch[i]? = some b ∧
          st.bone_mapping_section[b]? = some S ∧ r.slots k < (S.card : Int)) ∧
      ∃ mesh, readSections remapExample [10, 11, 12] = Except.ok mesh ∧
        ∃ vec, mesh.bi[0]? = some vec ∧ vec 2 = 12 := by
  obtain ⟨st, hst, hb, hs⟩ := remapExample_pass2
  have hlen : (st.bone_mapping_section.map Finset.card).sum ≤ ([10, 11, 12] : List Int).length := by
    rw [hs]; decide
  have hrange : ∀ i (hi : i < remapExample.length), ∀ r ∈ remapExample[i].verts, ∀ k : Fin 4,
      ∃ b S, st.bone_map_section_to_batch[i]? = some b ∧
        st.bone_mapping_section[b]? = some S ∧ r.slots k < (S.card : Int) := by
    intro i hi r hr k
    have hi0 : i = 0 := by simpa [remapExample] using hi
    subst hi0
    have hr0 : r = vertexOfSlots 0 1 2 0 := by simpa [remapExample] using hr
    subst hr0
    refine ⟨0, {0, 1, 2}, by rw [hb]; rfl, by rw [hs]; rfl, ?_⟩
    fin_cases k <;> simp [VertexRec.slots, vertexOfSlots]
  obtain ⟨rows, mesh, hrows, hmesh, _, hrow, hval, _⟩ :=
    remap_resolution remapExample [10, 11, 12] st hst hlen hrange
  refine ⟨st, hst, hlen, hrange, mesh, hmesh, ?_⟩
  obtain ⟨mesh', hm', hbi'⟩ := remapExample_decodes
  rw [hmesh] at hm'
  cases hm'
  exact ⟨_, by rw [hbi']; rfl, rfl⟩

/-- C7: the vertex loop stores the weight vector
`(1 - w0 - w1 - w2, w0, w1, w2)` for the raw triple `(w0, w1, w2)`; its four
components sum to exactly 1; the triple `(0.2, 0.3, 0.1)` gives
`(0.4, 0.2, 0.3, 0.1)`. -/
theorem weight_reconstruction {α : Type} [Ring α] (i : Nat) (st : VertLoop α)
    (r : VertexRec α) :
    (vertexStep i st r).prim.bw
        = st.prim.bw ++ [![1 - r.w 0 - r.w 1 - r.w 2, r.w 0, r.w 1, r.w 2]] ∧
      boneWeights r.w = ![1 - r.w 0 - r.w 1 - r.w 2, r.w 0, r.w 1, r.w 2] ∧
      boneWeights r.w 0 + boneWeights r.w 1 + boneWeights r.w 2 + boneWeights r.w 3 = 1 ∧
      boneWeights (![0.2, 0.3, 0.1] : Vec3 ℚ) = ![0.4, 0.2, 0.3, 0.1] := by
  refine ⟨rfl, rfl, ?_, ?_⟩
  · simp only [boneWeights, Matrix.cons_val_zero, Matrix.cons_val_one, Matrix.head_cons,
      Matrix.cons_val_two, Matrix.tail_cons, Matrix.cons_val_three]
    abel
  · funext k
    fin_cases k <;> norm_num [boneWeights]

theorem batchExample_sets : batchExample.map sectionSet = [{0, 1, 2}, {3}, {0, 1, 2, 3}] := by
  decide

theorem batchExample_batches :
    ∃ st, pass2 batchExample = Except.ok st ∧ st.bone_map_section_to_batch = [0, 0, 1] :=
  ⟨_, rfl, rfl⟩

/-- C5: for every sequence of sections that each have at least one vertex and
whose section 0 is complete (`max(S) == |S| - 1` for its distinct-index set
`S`), the batch recorded for section `i` is the number of complete sections
among the sections `0..i`, minus one; the sets `{0,1,2}`, `{3}`, `{0,1,2,3}`
get the batches `0, 0, 1`. -/
theorem batch_assignment {α : Type} [Ring α] (secs : List (SectionRec α))
    (hv : ∀ s ∈ secs, s.verts ≠ [])
    (h0 : ∀ s, secs.head? = some s → isComplete (sectionSet s) = true)
    (hf : ∀ s ∈ secs, s.fvf_size = 68) :
    (∃ st, pass2 secs = Except.ok st ∧ st.bone_map_section_to_batch.length = secs.length ∧
      ∀ i, i < secs.length →
        0 < (secs.take (i + 1)).countP (fun s => isComplete (sectionSet s)) ∧
        st.bone_map_section_to_batch[i]?
          = some ((secs.take (i + 1)).countP (fun s => isComplete (sectionSet s)) - 1)) ∧
      batchExample.map sectionSet = [{0, 1, 2}, {3}, {0, 1, 2, 3}] ∧
      ∃ st, pass2 batchExample = Except.ok st ∧ st.bone_map_section_to_batch = [0, 0, 1] := by
  refine ⟨?_, batchExample_sets, batchExample_batches⟩
  obtain ⟨st, hst, hb, _, _, _⟩ := pass2From_spec secs 0 pass2Init hf hv (Or.inr h0)
  refine ⟨st, hst, ?_, ?_⟩
  · rw [hb]; simp [pass2Init]
  · intro i hi
    constructor
    · cases secs with
      | nil => simp at hi
      | cons s rest =>
        have hc := h0 s rfl
        simp [List.take_succ_cons, List.countP_cons, hc]
    · rw [hb]
      simp [pass2Init, List.getElem?_map, List.getElem?_range hi]

theorem batch_assignment_witness :
    (∀ s ∈ batchExample, s.verts ≠ []) ∧
      (∀ s, batchExample.head? = some s → isComplete (sectionSet s) = true) ∧
      (∀ s ∈ batchExample, s.fvf_size = 68) ∧
      ∃ st, pass2 batchExample = Except.ok st ∧
        st.bone_map_section_to_batch.length = batchExample.length :=
  have hv : ∀ s ∈ batchExample, s.verts ≠ [] := by
    intro s hs
    simp only [batchExample, List.mem_cons, List.mem_singleton, List.not_mem_nil, or_false] at hs
    rcases hs with h | h | h <;> subst h <;> simp
  have h0 : ∀ s, batchExample.head? = some s → isComplete (sectionSet s) = true := by
    intro s hs
    simp only [batchExample, List.head?_cons, Option.some.injEq] at hs
    subst hs
    decide
  have hf : ∀ s ∈ batchExample, s.fvf_size = 68 := by
    intro s hs
    simp only [batchExample, List.mem_cons, List.mem_singleton, List.not_mem_nil, or_false] at hs
    rcases hs with h | h | h <;> subst h <;> rfl
  ⟨hv, h0, hf, by
    obtain ⟨⟨st, h1, h2, _⟩, _⟩ := batch_assignment batchExample hv h0 hf
    exact ⟨st, h1, h2⟩⟩

/-! ## Properties of `EvalDance` -/

section EvalLemmas

variable {α : Type} [Field α]

theorem inverse_eq_inv (m : Mat4 α) : inverse m = m⁻¹ := by
  rw [inverse, Matrix.inv_def, Ring.inverse_eq_inv']

theorem inverse_one : inverse (1 : Mat4 α) = 1 := by
  rw [inverse_eq_inv, inv_one]

theorem translate_zero : translate (![0, 0, 0] : Vec3 α) = 1 := by
  ext i j
  fin_cases i <;> fin_cases j <;> rfl

theorem toMat4_identity : toMat4 (1 : α) 0 0 0 = 1 := by
  ext i j
  fin_cases i <;> fin_cases j <;> simp [toMat4, Matrix.one_apply] <;> rfl

theorem mul_inverse_cancel (m : Mat4 α) (h : m.det ≠ 0) : m * inverse m = 1 := by
  rw [inverse_eq_inv]
  exact Matrix.mul_nonsing_inv m (Ne.isUnit h)

theorem inverse_mul_cancel (m : Mat4 α) (h : m.det ≠ 0) : inverse m * m = 1 := by
  rw [inverse_eq_inv]
  exact Matrix.nonsing_inv_mul m (Ne.isUnit h)

theorem inverse_eq_of_mul_eq_one (m n : Mat4 α) (h : m * n = 1) : inverse m = n := by
  rw [inverse_eq_inv]
  exact Matrix.inv_eq_right_inv h

theorem applyMat_one (p : Vec3 α) (w : α) : applyMat (1 : Mat4 α) p w = p := by
  funext k
  fin_cases k <;> simp [applyMat, Matrix.one_mulVec]

theorem readAt_natCast {V : Type} (xs : List V) (i : Nat) : readAt xs (i : Int) = xs[i]? := by
  simp [readAt]

theorem readAt_of_nonneg {V : Type} (xs : List V) (p : Int) (h : 0 ≤ p) :
    readAt xs p = xs[p.toNat]? := by
  unfold readAt
  rw [if_neg (by omega)]

omit [Field α] in
theorem bindMat_isSome (bones : Bones α) (anm : Anm α) (hs : SizesAgree bones anm) (p : Int)
    (h0 : 0 ≤ p) (hp : p.toNat < bones.verts.length) : ∃ m, bindMat bones p = some m := by
  obtain ⟨_, h1, h2, h3, h4, _, _⟩ := hs
  simp only [bindMat, readAt_of_nonneg _ p h0]
  rw [List.getElem?_eq_getElem (by omega : p.toNat < bones.c1.length),
    List.getElem?_eq_getElem (by omega : p.toNat < bones.c2.length),
    List.getElem?_eq_getElem (by omega : p.toNat < bones.c3.length),
    List.getElem?_eq_getElem (by omega : p.toNat < bones.c4.length)]
  exact ⟨_, rfl⟩

theorem localMat_isSome (bones : Bones α) (anm : Anm α) (hs : SizesAgree bones anm) (i : Nat)
    (hi : i < bones.verts.length) (p : Int) (hp : bones.parent[i]? = some p)
    (hpr : p < 0 ∨ p.toNat < bones.verts.length) : ∃ l, localMat bones anm i = some l := by
  obtain ⟨m, hm⟩ := bindMat_isSome bones anm hs (i : Int) (by omega) (by simpa using hi)
  obtain ⟨_, _, _, _, _, h5, h6⟩ := hs
  unfold localMat
  rw [hm, List.getElem?_eq_getElem (by omega : i < anm.rot.length),
    List.getElem?_eq_getElem (by omega : i < anm.verts.length), hp]
  simp only [Option.bind_eq_bind, Option.some_bind]
  by_cases h0 : 0 ≤ p
  · rw [if_pos h0]
    obtain ⟨m', hm'⟩ := bindMat_isSome bones anm
      ⟨by assumption, by assumption, by assumption, by assumption, by assumption, h5, h6⟩ p h0
      (by omega)
    rw [hm']
    exact ⟨_, rfl⟩
  · rw [if_neg h0]
    exact ⟨_, rfl⟩

theorem boneStep_spec (bones : Bones α) (anm : Anm α) (hs : SizesAgree bones anm)
    (ms : List (Mat4 α)) (hms : ms.length = bones.verts.length) (i : Nat)
    (hi : i < bones.verts.length) (p : Int) (hp : bones.parent[i]? = some p) (hlt : p < i) :
    ∃ l ms', localMat bones anm i = some l ∧ boneStep bones anm ms i = some ms' ∧
      ms'.length = ms.length ∧ (∀ j, j ≠ i → ms'[j]? = ms[j]?) ∧
      (p < 0 → ms'[i]? = some l) ∧
      (0 ≤ p → ∃ W, readAt ms p = some W ∧ ms'[i]? = some (W * l)) := by
  obtain ⟨l, hl⟩ := localMat_isSome bones anm hs i hi p hp (by omega)
  have hi' : i < ms.length := by omega
  unfold boneStep
  rw [hl, hp]
  simp only [Option.bind_eq_bind, Option.some_bind, writeAt, hi', if_true]
  by_cases h0 : 0 ≤ p
  · have hpn : p.toNat < ms.length := by omega
    have hne : i ≠ p.toNat := by omega
    rw [if_pos h0, readAt_of_nonneg _ p h0, List.getElem?_set_ne hne,
      List.getElem?_eq_getElem hpn, List.getElem?_set_self hi']
    simp only [Option.some_bind, List.length_set, hi', if_true, List.set_set]
    refine ⟨l, _, rfl, rfl, by simp, ?_, fun h => absurd h0 (by omega), fun _ => ?_⟩
    · intro j hj
      rw [List.getElem?_set_ne (Ne.symm hj)]
    · refine ⟨ms[p.toNat], ?_, ?_⟩
      · rw [readAt_of_nonneg _ p h0, List.getElem?_eq_getElem hpn]
      · rw [List.getElem?_set_self hi']
  · rw [if_neg h0]
    refine ⟨l, _, rfl, rfl, by simp, ?_, fun _ => ?_, fun h => absurd h h0⟩
    · intro j hj
      rw [List.getElem?_set_ne (Ne.symm hj)]
    · rw [List.getElem?_set_self hi']

theorem evalBones_upto (dflt : Mat4 α) (bones : Bones α) (anm : Anm α)
    (hs : SizesAgree bones anm)
    (hpar : ∀ (i : Nat) (p : Int), bones.parent[i]? = some p → p < (i : Int)) (k : Nat)
    (hk : k ≤ bones.verts.length) :
    ∃ ms, (List.range k).foldlM (boneStep bones anm)
        (List.replicate bones.verts.length dflt) = some ms ∧
      ms.length = bones.verts.length ∧ ∀ j, j < k → IsWorld bones anm ms j := by
  induction k with
  | zero => exact ⟨_, rfl, by simp, fun j hj => absurd hj (Nat.not_lt_zero j)⟩
  | succ k ih =>
    obtain ⟨ms, hms, hlen, hw⟩ := ih (Nat.le_of_succ_le hk)
    have hkp : k < bones.parent.length := by rw [hs.1]; omega
    obtain ⟨l, ms', hl, hstep, hlen', hother, hneg, hpos⟩ := boneStep_spec bones anm hs ms hlen k
      (by omega) bones.parent[k] (List.getElem?_eq_getElem hkp)
      (hpar k _ (List.getElem?_eq_getElem hkp))
    have hpk := hpar k _ (List.getElem?_eq_getElem hkp)
    refine ⟨ms', ?_, by rw [hlen', hlen], ?_⟩
    · rw [List.range_succ, List.foldlM_append, hms]
      simp only [Option.bind_eq_bind, Option.some_bind, List.foldlM_cons, List.foldlM_nil,
        Option.bind_some, hstep]
      rfl
    · intro j hj
      rcases Nat.lt_succ_iff_lt_or_eq.mp hj with hjk | hjk
      · obtain ⟨lj, pj, h1, h2, h3, h4⟩ := hw j hjk
        have hpj := hpar j pj h2
        refine ⟨lj, pj, h1, h2, fun h => ?_, fun h => ?_⟩
        · rw [hother j (by omega)]; exact h3 h
        · obtain ⟨W, hW, hWl⟩ := h4 h
          refine ⟨W, ?_, ?_⟩
          · rw [readAt_of_nonneg _ pj h, hother _ (by omega), ← readAt_of_nonneg _ pj h]
            exact hW
          · rw [hother j (by omega)]; exact hWl
      · subst hjk
        refine ⟨l, bones.parent[j], hl, List.getElem?_eq_getElem hkp, hneg, fun h => ?_⟩
        obtain ⟨W, hW, hWl⟩ := hpos h
        refine ⟨W, ?_, hWl⟩
        rw [readAt_of_nonneg _ _ h, hother _ (by omega), ← readAt_of_nonneg _ _ h]
        exact hW

end EvalLemmas


/-- C9 (as amended): for every skeleton in which the parent index of each
bone is smaller than the index of the bone, the bone loop ends with world
matrices such that the matrix of a bone without a parent is its local matrix
and the matrix of a bone `i` with parent `p` is the final matrix of `p` times
the local matrix of `i`. -/
theorem world_matrices_parent_first {α : Type} [Field α] (dflt : Mat4 α) (bones : Bones α)
    (anm : Anm α) (hs : SizesAgree bones anm)
    (hpar : ∀ (i : Nat) (p : Int), bones.parent[i]? = some p → p < (i : Int)) :
    ∃ ms, evalBones dflt bones anm = some ms ∧ ms.length = bones.verts.length ∧
      ∀ i, i < bones.verts.length → IsWorld bones anm ms i :=
  evalBones_upto dflt bones anm hs hpar bones.verts.length (le_refl _)

section EvalExamples

theorem matOfCols_unit :
    matOfCols (![1, 0, 0, 0] : Vec4 ℚ) ![0, 1, 0, 0] ![0, 0, 1, 0] ![0, 0, 0, 1] = 1 := by
  ext i j
  fin_cases i <;> fin_cases j <;> simp [matOfCols, Matrix.one_apply] <;> rfl

theorem matOfCols_shift :
    matOfCols (![1, 0, 0, 0] : Vec4 ℚ) ![0, 1, 0, 0] ![0, 0, 1, 0] ![1, 0, 0, 1]
      = translate ![1, 0, 0] := by
  ext i j
  fin_cases i <;> fin_cases j <;> simp [matOfCols, translate] <;> rfl

theorem translate_mul_neg : translate (![1, 0, 0] : Vec3 ℚ) * translate ![-1, 0, 0] = 1 := by
  ext i j
  fin_cases i <;> fin_cases j <;>
    simp [translate, Matrix.mul_apply, Fin.sum_univ_four, Matrix.one_apply] <;> rfl

theorem inverse_shift : inverse (translate (![1, 0, 0] : Vec3 ℚ)) = translate ![-1, 0, 0] :=
  inverse_eq_of_mul_eq_one _ _ translate_mul_neg

theorem det_shift : (translate (![1, 0, 0] : Vec3 ℚ)).det ≠ 0 :=
  (Matrix.isUnit_det_of_right_inverse translate_mul_neg).ne_zero

theorem bindMat_childBones_zero : bindMat childBones 0 = some 1 := by
  simp only [bindMat, readAt, childBones, unitBones, lt_self_iff_false, if_false, Int.toNat_zero,
    List.getElem?_cons_zero, Option.bind_eq_bind, Option.some_bind, Option.pure_def,
    matOfCols_unit]

theorem bindMat_childBones_one : bindMat childBones 1 = some (translate ![1, 0, 0]) := by
  have h : ¬ ((1 : Int) < 0) := by omega
  have h1 : (1 : Int).toNat = 1 := rfl
  simp only [bindMat, readAt, childBones, unitBones, h, if_false, h1,
    List.getElem?_cons_succ, List.getElem?_cons_zero, Option.bind_eq_bind, Option.some_bind,
    Option.pure_def, matOfCols_shift]

theorem localMat_childBones_zero : localMat childBones idAnm 0 = some 1 := by
  have h := bindMat_childBones_zero
  have hp : childBones.parent[0]? = some (-1) := rfl
  have hr : idAnm.rot[0]? = some ![0, 0, 0, 1] := rfl
  have hv : idAnm.verts[0]? = some ![0, 0, 0] := rfl
  have hn : ¬ ((0 : Int) ≤ -1) := by omega
  have e : toMat4 ((![0, 0, 0, 1] : Vec4 ℚ) 3) ((![0, 0, 0, 1] : Vec4 ℚ) 0)
      ((![0, 0, 0, 1] : Vec4 ℚ) 1) ((![0, 0, 0, 1] : Vec4 ℚ) 2) = 1 := toMat4_identity
  simp only [localMat, Nat.cast_zero, h, hp, hr, hv, hn, if_false, Option.bind_eq_bind,
    Option.some_bind, Option.pure_def, translate_zero, e, one_mul, inverse_one]

theorem localMat_childBones_one :
    localMat childBones idAnm 1 = some (translate ![-1, 0, 0]) := by
  have h0 := bindMat_childBones_zero
  have h1 := bindMat_childBones_one
  have hp : childBones.parent[1]? = some 0 := rfl
  have hr : idAnm.rot[1]? = some ![0, 0, 0, 1] := rfl
  have hv : idAnm.verts[1]? = some ![0, 0, 0] := rfl
  have e : toMat4 ((![0, 0, 0, 1] : Vec4 ℚ) 3) ((![0, 0, 0, 1] : Vec4 ℚ) 0)
      ((![0, 0, 0, 1] : Vec4 ℚ) 1) ((![0, 0, 0, 1] : Vec4 ℚ) 2) = 1 := toMat4_identity
  simp only [localMat, Nat.cast_one, h1, hp, hr, hv, Option.bind_eq_bind, Option.some_bind,
    Option.pure_def, le_refl, if_true, h0, inverse_one, one_mul, inverse_shift, translate_zero,
    e, mul_one, translate_mul_neg]

theorem boneStep_childBones_zero (a b : Mat4 ℚ) :
    boneStep childBones idAnm [a, b] 0 = some [1, b] := by
  have hp : childBones.parent[0]? = some (-1) := rfl
  have hn : ¬ ((0 : Int) ≤ -1) := by omega
  simp only [boneStep, localMat_childBones_zero, writeAt, hp, hn, if_false,
    Option.bind_eq_bind, Option.some_bind, Option.pure_def, List.length_cons, List.length_nil,
    Nat.zero_lt_succ, if_true, List.set_cons_zero]

theorem boneStep_childBones_one (b : Mat4 ℚ) :
    boneStep childBones idAnm [1, b] 1 = some [1, translate ![-1, 0, 0]] := by
  have hp : childBones.parent[1]? = some 0 := rfl
  have hl : (1 : Nat) < ([1, b] : List (Mat4 ℚ)).length := by simp
  have hl' : (1 : Nat) < ([1, translate ![-1, 0, 0]] : List (Mat4 ℚ)).length := by simp
  simp only [boneStep, localMat_childBones_one, writeAt, hp, hl, hl', if_true,
    Option.bind_eq_bind, Option.some_bind, Option.pure_def, le_refl, readAt,
    lt_self_iff_false, if_false, Int.toNat_zero, List.set_cons_succ, List.set_cons_zero,
    List.getElem?_cons_zero, List.getElem?_cons_succ, one_mul]

theorem evalBones_childBones (dflt : Mat4 ℚ) :
    evalBones dflt childBones idAnm = some [1, translate ![-1, 0, 0]] := by
  have hr : List.range childBones.verts.length = [0, 1] := rfl
  have hrep : List.replicate childBones.verts.length dflt = [dflt, dflt] := rfl
  simp only [evalBones, hr, hrep, List.foldlM_cons, List.foldlM_nil, boneStep_childBones_zero,
    boneStep_childBones_one, Option.bind_eq_bind, Option.some_bind, Option.pure_def]

theorem blendMat_skinExample :
    blendMat [(1 : Mat4 ℚ), translate ![-1, 0, 0]] ![1, 0, 0, 0] ![1, 0, 0, 0]
      = some (translate ![-1, 0, 0]) := by
  have h1 : readAt [(1 : Mat4 ℚ), translate ![-1, 0, 0]] 1 = some (translate ![-1, 0, 0]) := by
    have h : ¬ ((1 : Int) < 0) := by omega
    have h1 : (1 : Int).toNat = 1 := rfl
    simp only [readAt, h, if_false, h1, List.getElem?_cons_succ, List.getElem?_cons_zero]
  have h0 : readAt [(1 : Mat4 ℚ), translate ![-1, 0, 0]] 0 = some 1 := by
    simp only [readAt, lt_self_iff_false, if_false, Int.toNat_zero, List.getElem?_cons_zero]
  have e0 : (![1, 0, 0, 0] : Vec4 Int) 0 = 1 := rfl
  have e1 : (![1, 0, 0, 0] : Vec4 Int) 1 = 0 := rfl
  have e2 : (![1, 0, 0, 0] : Vec4 Int) 2 = 0 := rfl
  have e3 : (![1, 0, 0, 0] : Vec4 Int) 3 = 0 := rfl
  have w0 : (![1, 0, 0, 0] : Vec4 ℚ) 0 = 1 := rfl
  have w1 : (![1, 0, 0, 0] : Vec4 ℚ) 1 = 0 := rfl
  have w2 : (![1, 0, 0, 0] : Vec4 ℚ) 2 = 0 := rfl
  have w3 : (![1, 0, 0, 0] : Vec4 ℚ) 3 = 0 := rfl
  simp only [blendMat, List.foldlM_cons, List.foldlM_nil, e0, e1, e2, e3, w0, w1, w2, w3, h0,
    h1, Option.map_some', Option.bind_eq_bind, Option.some_bind, Option.pure_def, zero_add,
    one_smul, zero_smul, add_zero]

theorem applyMat_skinExample :
    applyMat (translate (![-1, 0, 0] : Vec3 ℚ)) ![1, 0, 0] 1 = ![0, 0, 0] := by
  funext k
  fin_cases k <;>
    simp [applyMat, translate, Matrix.mulVec, Matrix.dotProduct, Fin.sum_univ_four]

theorem evalDance_childBones (dflt : Mat4 ℚ) :
    ∃ out, evalDance dflt childBones idAnm skinExample = some out ∧
      out.2.verts = [![0, 0, 0]] := by
  have hr : List.range childBones.verts.length = [0, 1] := rfl
  have hs : List.range skinExample.verts.length = [0] := rfl
  have hv0 : childBones.verts[0]? = some ![0, 0, 0] := rfl
  have hv1 : childBones.verts[1]? = some ![0, 0, 0] := rfl
  have hbi : skinExample.bi[0]? = some ![1, 0, 0, 0] := rfl
  have hbw : skinExample.bw[0]? = some ![1, 0, 0, 0] := rfl
  have hp : skinExample.verts[0]? = some ![1, 0, 0] := rfl
  have hn : skinExample.nrm[0]? = some ![0, 1, 0] := rfl
  simp only [evalDance, evalBones_childBones, hr, hs, List.mapM_cons, List.mapM_nil,
    skinVertex, hbi, hbw, hp, hn, hv0, hv1, blendMat_skinExample, applyMat_skinExample,
    Option.bind_eq_bind, Option.some_bind, Option.pure_def, List.getElem?_cons_zero,
    List.getElem?_cons_succ, List.map_cons, List.map_nil]
  exact ⟨_, rfl, rfl⟩

theorem bindMat_parentLast (i : Int) (h0 : i = 0 ∨ i = 1) :
    bindMat parentLastBones i = some 1 := by
  have h : ¬ ((1 : Int) < 0) := by omega
  have h1 : (1 : Int).toNat = 1 := rfl
  rcases h0 with rfl | rfl
  · simp only [bindMat, readAt, parentLastBones, unitBones, lt_self_iff_false, if_false,
      Int.toNat_zero, List.getElem?_cons_zero, Option.bind_eq_bind, Option.some_bind,
      Option.pure_def, matOfCols_unit]
  · simp only [bindMat, readAt, parentLastBones, unitBones, h, if_false, h1,
      List.getElem?_cons_succ, List.getElem?_cons_zero, Option.bind_eq_bind, Option.some_bind,
      Option.pure_def, matOfCols_unit]

theorem localMat_parentLast_zero : localMat parentLastBones shiftAnm 0 = some 1 := by
  have h0 := bindMat_parentLast 0 (Or.inl rfl)
  have h1 := bindMat_parentLast 1 (Or.inr rfl)
  have hp : parentLastBones.parent[0]? = some 1 := rfl
  have hr : shiftAnm.rot[0]? = some ![0, 0, 0, 1] := rfl
  have hv : shiftAnm.verts[0]? = some ![0, 0, 0] := rfl
  have hle : (0 : Int) ≤ 1 := by omega
  have e : toMat4 ((![0, 0, 0, 1] : Vec4 ℚ) 3) ((![0, 0, 0, 1] : Vec4 ℚ) 0)
      ((![0, 0, 0, 1] : Vec4 ℚ) 1) ((![0, 0, 0, 1] : Vec4 ℚ) 2) = 1 := toMat4_identity
  simp only [localMat, Nat.cast_zero, h0, h1, hp, hr, hv, hle, if_true, Option.bind_eq_bind,
    Option.some_bind, Option.pure_def, translate_zero, e, one_mul, mul_one, inverse_one]

theorem localMat_parentLast_one :
    localMat parentLastBones shiftAnm 1 = some (translate ![1, 0, 0]) := by
  have h1 := bindMat_parentLast 1 (Or.inr rfl)
  have hp : parentLastBones.parent[1]? = some (-1) := rfl
  have hr : shiftAnm.rot[1]? = some ![0, 0, 0, 1] := rfl
  have hv : shiftAnm.verts[1]? = some ![1, 0, 0] := rfl
  have hn : ¬ ((0 : Int) ≤ -1) := by omega
  have e : toMat4 ((![0, 0, 0, 1] : Vec4 ℚ) 3) ((![0, 0, 0, 1] : Vec4 ℚ) 0)
      ((![0, 0, 0, 1] : Vec4 ℚ) 1) ((![0, 0, 0, 1] : Vec4 ℚ) 2) = 1 := toMat4_identity
  simp only [localMat, Nat.cast_one, h1, hp, hr, hv, hn, if_false, Option.bind_eq_bind,
    Option.some_bind, Option.pure_def, e, one_mul, mul_one, inverse_one]

theorem evalBones_parentLast (dflt : Mat4 ℚ) :
    evalBones dflt parentLastBones shiftAnm = some [dflt, translate ![1, 0, 0]] := by
  have hr : List.range parentLastBones.verts.length = [0, 1] := rfl
  have hrep : List.replicate parentLastBones.verts.length dflt = [dflt, dflt] := rfl
  have hp0 : parentLastBones.parent[0]? = some 1 := rfl
  have hp1 : parentLastBones.parent[1]? = some (-1) := rfl
  have hle : (0 : Int) ≤ 1 := by omega
  have hn : ¬ ((0 : Int) ≤ -1) := by omega
  have h : ¬ ((1 : Int) < 0) := by omega
  have h1 : (1 : Int).toNat = 1 := rfl
  simp only [evalBones, hr, hrep, List.foldlM_cons, List.foldlM_nil, boneStep,
    localMat_parentLast_zero, localMat_parentLast_one, writeAt, hp0, hp1, hle, hn, if_true,
    if_false, readAt, h, h1, Option.bind_eq_bind, Option.some_bind, Option.pure_def,
    List.length_cons, List.length_nil, Nat.zero_lt_succ, List.set_cons_zero,
    List.set_cons_succ, List.getElem?_cons_zero, List.getElem?_cons_succ, mul_one,
    Nat.lt_add_one, Nat.one_lt_ofNat, zero_add]

theorem translate_shift_ne_zero : translate (![1, 0, 0] : Vec3 ℚ) ≠ 0 := by
  intro h
  have := congrFun (congrFun h 0) 0
  simp [translate] at this

theorem translate_shift_ne_one : translate (![1, 0, 0] : Vec3 ℚ) ≠ 1 := by
  intro h
  have := congrFun (congrFun h 0) 3
  simp [translate, Matrix.one_apply] at this

theorem not_isWorld_parentLast (dflt : Mat4 ℚ) (hd : dflt ≠ translate ![1, 0, 0]) :
    ¬ IsWorld parentLastBones shiftAnm [dflt, translate ![1, 0, 0]] 0 := by
  rintro ⟨l, p, hl, hp, _, hpos⟩
  rw [localMat_parentLast_zero] at hl
  cases hl
  have hp0 : parentLastBones.parent[0]? = some 1 := rfl
  rw [hp0] at hp
  cases hp
  obtain ⟨W, hW, hms⟩ := hpos (by omega)
  have h : ¬ ((1 : Int) < 0) := by omega
  have h1 : (1 : Int).toNat = 1 := rfl
  simp only [readAt, h, if_false, h1, List.getElem?_cons_succ, List.getElem?_cons_zero,
    Option.some.injEq] at hW
  subst hW
  simp only [List.getElem?_cons_zero, Option.some.injEq, mul_one] at hms
  exact hd hms

end EvalExamples

/-- C8 (counterexample): bone 0 is a root with the unit bind matrix, bone 1 is
its child with the invertible bind matrix `translate (1,0,0)`; with the
identity animation sample the vertex `(1,0,0)`, bound to bone 1 with weights
`(1,0,0,0)`, is moved to `(0,0,0)`. -/
theorem identity_pose_counterexample :
    bindMat childBones 0 = some 1 ∧ bindMat childBones 1 = some (translate ![1, 0, 0]) ∧
      (1 : Mat4 ℚ).det ≠ 0 ∧ (translate (![1, 0, 0] : Vec3 ℚ)).det ≠ 0 ∧
      idAnm.verts = [![0, 0, 0], ![0, 0, 0]] ∧ idAnm.rot = [![0, 0, 0, 1], ![0, 0, 0, 1]] ∧
      skinExample.bi = [![1, 0, 0, 0]] ∧ skinExample.bw = [![1, 0, 0, 0]] ∧
      skinExample.verts = [![1, 0, 0]] ∧
      (∃ out, evalDance 0 childBones idAnm skinExample = some out ∧
        out.2.verts = [![0, 0, 0]] ∧ out.2.verts ≠ skinExample.verts) ∧
      (∃ out, evalDance 1 childBones idAnm skinExample = some out ∧
        out.2.verts = [![0, 0, 0]] ∧ out.2.verts ≠ skinExample.verts) := by
  have hne : ([![0, 0, 0]] : List (Vec3 ℚ)) ≠ skinExample.verts := by
    intro h
    have h1 : (![0, 0, 0] : Vec3 ℚ) = ![1, 0, 0] := (List.cons.inj h).1
    have h2 := congrFun h1 0
    simp at h2
  refine ⟨bindMat_childBones_zero, bindMat_childBones_one, by simp, det_shift, rfl, rfl, rfl,
    rfl, rfl, ?_, ?_⟩
  · obtain ⟨out, h1, h2⟩ := evalDance_childBones 0
    exact ⟨out, h1, h2, by rw [h2]; exact hne⟩
  · obtain ⟨out, h1, h2⟩ := evalDance_childBones 1
    exact ⟨out, h1, h2, by rw [h2]; exact hne⟩

/-- C9 (counterexample): bone 1 is a root that the animation translates by
`(1,0,0)` and bone 0 is its child, so the parent has the larger index; the
loop composes bone 0 with the default-constructed `ms[1]` (zero or identity),
not with the final world matrix `translate (1,0,0)` of bone 1. -/
theorem parent_last_counterexample :
    parentLastBones.parent = [1, -1] ∧ SizesAgree parentLastBones shiftAnm ∧
      (∃ ms, evalBones 0 parentLastBones shiftAnm = some ms ∧
        ¬ IsWorld parentLastBones shiftAnm ms 0) ∧
      (∃ ms, evalBones 1 parentLastBones shiftAnm = some ms ∧
        ¬ IsWorld parentLastBones shiftAnm ms 0) := by
  refine ⟨rfl, ⟨rfl, rfl, rfl, rfl, rfl, rfl, rfl⟩, ?_, ?_⟩
  · exact ⟨_, evalBones_parentLast 0,
      not_isWorld_parentLast 0 (Ne.symm translate_shift_ne_zero)⟩
  · exact ⟨_, evalBones_parentLast 1,
      not_isWorld_parentLast 1 (Ne.symm translate_shift_ne_one)⟩

section IdentityPose

variable {α : Type} [Field α]

theorem toMat4_identity_quat :
    toMat4 ((![0, 0, 0, 1] : Vec4 α) 3) ((![0, 0, 0, 1] : Vec4 α) 0)
      ((![0, 0, 0, 1] : Vec4 α) 1) ((![0, 0, 0, 1] : Vec4 α) 2) = 1 :=
  toMat4_identity

theorem localMat_identity (bones : Bones α) (anm : Anm α) (hs : SizesAgree bones anm)
    (hid : ∀ i, i < bones.verts.length →
      anm.verts[i]? = some ![0, 0, 0] ∧ anm.rot[i]? = some ![0, 0, 0, 1])
    (hinv : ∀ (i : Nat) m, bindMat bones i = some m → m.det ≠ 0)
    (hpar : ∀ (i : Nat) (p : Int), bones.parent[i]? = some p →
      p < 0 ∨ (p < (i : Int) ∧ bindMat bones p = bindMat bones i))
    (i : Nat) (hi : i < bones.verts.length) : localMat bones anm i = some 1 := by
  obtain ⟨m, hm⟩ := bindMat_isSome bones anm hs (i : Int) (by omega) (by simpa using hi)
  have hdet := hinv i m hm
  have hkp : i < bones.parent.length := by rw [hs.1]; exact hi
  have hp : bones.parent[i]? = some bones.parent[i] := List.getElem?_eq_getElem hkp
  unfold localMat
  rw [hm, (hid i hi).1, (hid i hi).2, hp]
  simp only [Option.bind_eq_bind, Option.some_bind, translate_zero, toMat4_identity_quat,
    one_mul]
  by_cases h0 : 0 ≤ bones.parent[i]
  · rcases hpar i _ hp with hneg | ⟨_, hsame⟩
    · omega
    · rw [if_pos h0, hsame, hm]
      simp only [Option.pure_def, Option.some_bind, inverse_mul_cancel m hdet, inverse_one,
        mul_one, mul_inverse_cancel m hdet]
  · rw [if_neg h0]
    simp only [Option.pure_def, Option.some_bind, mul_one, mul_inverse_cancel m hdet]

theorem evalBones_identity (dflt : Mat4 α) (bones : Bones α) (anm : Anm α)
    (hs : SizesAgree bones anm)
    (hid : ∀ i, i < bones.verts.length →
      anm.verts[i]? = some ![0, 0, 0] ∧ anm.rot[i]? = some ![0, 0, 0, 1])
    (hinv : ∀ (i : Nat) m, bindMat bones i = some m → m.det ≠ 0)
    (hpar : ∀ (i : Nat) (p : Int), bones.parent[i]? = some p →
      p < 0 ∨ (p < (i : Int) ∧ bindMat bones p = bindMat bones i)) :
    ∃ ms, evalBones dflt bones anm = some ms ∧ ms.length = bones.verts.length ∧
      ∀ i, i < bones.verts.length → ms[i]? = some 1 := by
  obtain ⟨ms, hms, hlen, hw⟩ := evalBones_upto dflt bones anm hs
    (fun i p hp => by rcases hpar i p hp with h | h <;> omega) bones.verts.length (le_refl _)
  refine ⟨ms, hms, hlen, ?_⟩
  intro i
  induction i using Nat.strong_induction_on with
  | _ i ih =>
    intro hi
    obtain ⟨l, p, hl, hp, hneg, hpos⟩ := hw i hi
    rw [localMat_identity bones anm hs hid hinv hpar i hi] at hl
    cases hl
    by_cases h0 : 0 ≤ p
    · obtain ⟨W, hW, hWl⟩ := hpos h0
      have hlt : p < (i : Int) := by rcases hpar i p hp with h | h <;> omega
      have := ih p.toNat (by omega) (by omega)
      rw [readAt_of_nonneg _ p h0, this] at hW
      cases hW
      rw [hWl, mul_one]
    · exact hneg (by omega)

theorem blendMat_identity (ms : List (Mat4 α)) (hms : ∀ i, i < ms.length → ms[i]? = some 1)
    (b : Vec4 Int) (w : Vec4 α) (hb : ∀ k, 0 ≤ b k ∧ b k < (ms.length : Int))
    (hw : w 0 + w 1 + w 2 + w 3 = 1) : blendMat ms b w = some 1 := by
  have hr : ∀ k, readAt ms (b k) = some 1 := by
    intro k
    rw [readAt_of_nonneg _ _ (hb k).1]
    have h1 := (hb k).1
    have h2 := (hb k).2
    exact hms _ (by omega)
  simp only [blendMat, List.foldlM_cons, List.foldlM_nil, hr, Option.map_some',
    Option.bind_eq_bind, Option.some_bind, Option.pure_def, zero_add]
  rw [← add_smul, ← add_smul, ← add_smul, hw, one_smul]

end IdentityPose

/-- C8 (as amended): for every skeleton with invertible bind basis matrices
in which each bone that has a parent has a smaller-indexed parent with the
same bind basis matrix (in particular for every skeleton without parent
links), and every mesh whose bone indices are in range and whose four weights
sum to 1, evaluating with translation zero and rotation `(0,0,0,1)` for every
bone leaves every vertex position equal to its input position. -/
theorem identity_pose_fixed {α : Type} [Field α] (dflt : Mat4 α) (bones : Bones α)
    (anm : Anm α) (prim : Mesh α) (hs : SizesAgree bones anm)
    (hmesh : prim.bi.length = prim.verts.length ∧ prim.bw.length = prim.verts.length ∧
      prim.nrm.length = prim.verts.length)
    (hid : ∀ i, i < bones.verts.length →
      anm.verts[i]? = some ![0, 0, 0] ∧ anm.rot[i]? = some ![0, 0, 0, 1])
    (hinv : ∀ (i : Nat) m, bindMat bones i = some m → m.det ≠ 0)
    (hpar : ∀ (i : Nat) (p : Int), bones.parent[i]? = some p →
      p < 0 ∨ (p < (i : Int) ∧ bindMat bones p = bindMat bones i))
    (hbi : ∀ (v : Nat) b, prim.bi[v]? = some b →
      ∀ k, 0 ≤ b k ∧ b k < (bones.verts.length : Int))
    (hbw : ∀ (v : Nat) w, prim.bw[v]? = some w → w 0 + w 1 + w 2 + w 3 = 1) :
    ∃ out, evalDance dflt bones anm prim = some out ∧ out.2.verts = prim.verts := by
  obtain ⟨ms, hms, hlen, hone⟩ := evalBones_identity dflt bones anm hs hid hinv hpar
  have hbones : (List.range bones.verts.length).mapM
      (fun i => do
        let m ← ms[i]?
        let p ← bones.verts[i]?
        pure (applyMat m p 1)) = some ((List.range bones.verts.length).map
          (fun i => bones.verts.getD i ![0, 0, 0])) := by
    apply mapM_range_some
    intro i hi
    rw [hone i hi, List.getElem?_eq_getElem hi]
    simp [applyMat_one, List.getD_eq_getElem?_getD, List.getElem?_eq_getElem hi]
  have hskin : (List.range prim.verts.length).mapM (skinVertex ms prim)
      = some ((List.range prim.verts.length).map
          (fun i => (prim.verts.getD i ![0, 0, 0], prim.nrm.getD i ![0, 0, 0]))) := by
    apply mapM_range_some
    intro i hi
    have h1 : i < prim.bi.length := by omega
    have h2 : i < prim.bw.length := by omega
    have h3 : i < prim.nrm.length := by omega
    have hb := blendMat_identity ms (fun j hj => hone j (by omega)) prim.bi[i] prim.bw[i]
      (by rw [hlen]; exact hbi i _ (List.getElem?_eq_getElem h1))
      (hbw i _ (List.getElem?_eq_getElem h2))
    simp [skinVertex, List.getElem?_eq_getElem h1, List.getElem?_eq_getElem h2,
      List.getElem?_eq_getElem h3, List.getElem?_eq_getElem hi, hb, applyMat_one,
      List.getD_eq_getElem?_getD]
  refine ⟨({ bones with verts := ((List.range bones.verts.length).map
      (fun i => bones.verts.getD i ![0, 0, 0])) },
    { prim with
      verts := (((List.range prim.verts.length).map
        (fun i => (prim.verts.getD i ![0, 0, 0], prim.nrm.getD i ![0, 0, 0]))).map Prod.fst),
      nrm := (((List.range prim.verts.length).map
        (fun i => (prim.verts.getD i ![0, 0, 0], prim.nrm.getD i ![0, 0, 0]))).map Prod.snd) }),
    ?_, ?_⟩
  · unfold evalDance
    rw [hms]
    simp only [Option.bind_eq_bind, Option.some_bind] at hbones ⊢
    rw [hbones, hskin]
    rfl
  · simp only [List.map_map]
    apply List.ext_getElem
    · simp
    · intro i h1 h2
      simp [List.getD_eq_getElem?_getD, List.getElem?_eq_getElem h2]

section PoseWitness

theorem sameBones_sizes : SizesAgree sameBones idAnm :=
  ⟨rfl, rfl, rfl, rfl, rfl, rfl, rfl⟩

theorem sameBones_parent (i : Nat) (p : Int) (h : sameBones.parent[i]? = some p) :
    (i = 0 ∧ p = -1) ∨ (i = 1 ∧ p = 0) := by
  match i, h with
  | 0, h =>
    left
    have h' : some (-1 : Int) = some p := h
    exact ⟨rfl, (Option.some.inj h').symm⟩
  | 1, h =>
    right
    have h' : some (0 : Int) = some p := h
    exact ⟨rfl, (Option.some.inj h').symm⟩
  | n + 2, h =>
    have h' : (none : Option Int) = some p := h
    cases h'

theorem bindMat_sameBones (i : Nat) (m : Mat4 ℚ) (h : bindMat sameBones i = some m) :
    m = 1 := by
  have hneg : ¬ ((1 : Int) < 0) := by omega
  have h1 : (1 : Int).toNat = 1 := rfl
  match i, h with
  | 0, h =>
    simp only [bindMat, Nat.cast_zero, readAt, sameBones, unitBones, lt_self_iff_false,
      if_false, Int.toNat_zero, List.getElem?_cons_zero, Option.bind_eq_bind,
      Option.some_bind, Option.pure_def, matOfCols_unit, Option.some.injEq] at h
    exact h.symm
  | 1, h =>
    simp only [bindMat, Nat.cast_one, readAt, sameBones, unitBones, hneg, if_false, h1,
      List.getElem?_cons_succ, List.getElem?_cons_zero, Option.bind_eq_bind,
      Option.some_bind, Option.pure_def, matOfCols_unit, Option.some.injEq] at h
    exact h.symm
  | n + 2, h =>
    have hc : readAt sameBones.c1 ((n + 2 : Nat) : Int) = none := by
      rw [readAt_natCast]
      rfl
    simp only [bindMat, hc, Option.bind_eq_bind, Option.none_bind] at h
    cases h

theorem bindMat_sameBones_eq : bindMat sameBones 0 = bindMat sameBones 1 := by
  have hneg : ¬ ((1 : Int) < 0) := by omega
  have h1 : (1 : Int).toNat = 1 := rfl
  simp only [bindMat, readAt, sameBones, unitBones, lt_self_iff_false, if_false, hneg, h1,
    Int.toNat_zero, List.getElem?_cons_zero, List.getElem?_cons_succ]

end PoseWitness

theorem identity_pose_fixed_witness :
    SizesAgree sameBones idAnm ∧ sameBones.parent = [-1, 0] ∧
      ∃ out, evalDance 0 sameBones idAnm skinExample = some out ∧
        out.2.verts = skinExample.verts :=
  ⟨sameBones_sizes, rfl, identity_pose_fixed 0 sameBones idAnm skinExample sameBones_sizes
    ⟨rfl, rfl, rfl⟩
    (fun i hi => by
      have h2 : i < 2 := hi
      interval_cases i <;> exact ⟨rfl, rfl⟩)
    (fun i m h => by
      rw [bindMat_sameBones i m h]
      simp)
    (fun i p h => by
      rcases sameBones_parent i p h with ⟨rfl, rfl⟩ | ⟨rfl, rfl⟩
      · left; omega
      · right
        exact ⟨by norm_num, bindMat_sameBones_eq⟩)
    (fun v b h => by
      match v, h with
      | 0, h =>
        have h' : some (![1, 0, 0, 0] : Vec4 Int) = some b := h
        cases h'
        intro k
        fin_cases k <;> simp [sameBones, unitBones]
      | n + 1, h =>
        have h' : (none : Option (Vec4 Int)) = some b := h
        cases h')
    (fun v w h => by
      match v, h with
      | 0, h =>
        have h' : some (![1, 0, 0, 0] : Vec4 ℚ) = some w := h
        cases h'
        simp
      | n + 1, h =>
        have h' : (none : Option (Vec4 ℚ)) = some w := h
        cases h')⟩

theorem world_matrices_parent_first_witness :
    SizesAgree sameBones idAnm ∧ sameBones.parent = [-1, 0] ∧
      ∃ ms, evalBones 0 sameBones idAnm = some ms ∧ ms.length = 2 ∧
        ∀ i, i < 2 → IsWorld sameBones idAnm ms i :=
  ⟨sameBones_sizes, rfl, world_matrices_parent_first 0 sameBones idAnm sameBones_sizes
    (fun i p h => by
      rcases sameBones_parent i p h with ⟨rfl, rfl⟩ | ⟨rfl, rfl⟩ <;> norm_num)⟩

/-! ## Properties of `align_to` -/

theorem align_to_eq (v a : Nat) (h1 : 1 ≤ a) (h : v + a - 1 < 2 ^ 32) :
    align_to v a = (v + a - 1) / a * a := by
  have e : ((v + a) % 2 ^ 32 + (2 ^ 32 - 1)) % 2 ^ 32 = v + a - 1 := by omega
  have hle : (v + a - 1) / a * a ≤ v + a - 1 := Nat.div_mul_le_self _ _
  unfold align_to
  rw [e, Nat.mod_eq_of_lt (by omega)]

/-- C13: for every `a ≥ 1` and every `v` with `v + a - 1 < 2 ^ 32`, the value
`align_to(v, a)` is the least multiple of `a` that is `≥ v`; it is `v` when
`v` is a multiple of `a`, and it is always `< v + a`. -/
theorem align_to_least_multiple (v a : Nat) (h1 : 1 ≤ a) (h : v + a - 1 < 2 ^ 32) :
    a ∣ align_to v a ∧ v ≤ align_to v a ∧
      (∀ m, a ∣ m → v ≤ m → align_to v a ≤ m) ∧
      (a ∣ v → align_to v a = v) ∧ align_to v a < v + a := by
  rw [align_to_eq v a h1 h]
  have hdm := Nat.div_add_mod (v + a - 1) a
  have hmod : (v + a - 1) % a < a := Nat.mod_lt _ (by omega)
  have hcomm : (v + a - 1) / a * a = a * ((v + a - 1) / a) := Nat.mul_comm _ _
  have hge : v ≤ (v + a - 1) / a * a := by omega
  have hlt : (v + a - 1) / a * a < v + a := by omega
  have hleast : ∀ m, a ∣ m → v ≤ m → (v + a - 1) / a * a ≤ m := by
    rintro m ⟨k, rfl⟩ hvm
    rw [hcomm]
    apply Nat.mul_le_mul_left
    by_contra hk
    push_neg at hk
    have h2 : a * (k + 1) ≤ a * ((v + a - 1) / a) := Nat.mul_le_mul_left _ hk
    rw [Nat.mul_add, Nat.mul_one] at h2
    omega
  refine ⟨⟨(v + a - 1) / a, hcomm⟩, hge, hleast, ?_, hlt⟩
  intro hdvd
  have := hleast v hdvd (le_refl _)
  omega

theorem align_to_least_multiple_witness :
    1 ≤ 16 ∧ 0x48 + 16 - 1 < 2 ^ 32 ∧ 16 ∣ align_to 0x48 16 ∧ 0x48 ≤ align_to 0x48 16 ∧
      align_to 0x48 16 < 0x48 + 16 :=
  ⟨by norm_num, by norm_num,
    (align_to_least_multiple 0x48 16 (by norm_num) (by norm_num)).1,
    (align_to_least_multiple 0x48 16 (by norm_num) (by norm_num)).2.1,
    (align_to_least_multiple 0x48 16 (by norm_num) (by norm_num)).2.2.2.2⟩

/-! ## Snapping and the radicand of `getQuat` -/

theorem packNum_midBytes : packNum midBytes = 70370891726848 := by
  decide

theorem field8_midBytes : (field8 midBytes : ℝ) = 0.5 / 23169.767578125 := by
  rw [field8_eq, packNum_midBytes]
  norm_num [dequant]

/-- C18 (counterexample): for the bytes `00 00 01 80 00 40` the selector is 0,
so slot 3 holds the decoded component `_8`; its magnitude is below `1e-4`,
yet the slot is output unchanged and is not 0. -/
theorem snap_decoded_slot_counterexample :
    quatType midBytes = 0 ∧ getQuatRaw Real.sqrt midBytes 3 = field8 midBytes ∧
      |(field8 midBytes : ℝ)| < 0.0001 ∧
      getQuat Real.sqrt midBytes 3 = field8 midBytes ∧
      getQuat Real.sqrt midBytes 3 ≠ 0 := by
  have ht : quatType midBytes = 0 := by
    rw [quatType_eq, packNum_midBytes]
  have hraw : getQuatRaw Real.sqrt midBytes 3 = field8 midBytes := by
    simp [getQuatRaw, ht]
  have e3 : ((3 : Fin 4) : Nat) = 3 := rfl
  have hq : getQuat Real.sqrt midBytes 3 = field8 midBytes := by
    rw [getQuat, snapQuat_apply, hraw]
    simp [e3]
  refine ⟨ht, hraw, ?_, hq, ?_⟩
  · rw [field8_midBytes, abs_lt]
    constructor <;> norm_num
  · rw [hq, field8_midBytes]
    norm_num

/-- C18 (as amended): for every 6-byte input, each of the output slots 0, 1
and 2 whose value before snapping has magnitude below `1e-4` is output as
exactly 0, whether it holds a decoded or the reconstructed component, and
slot 3 is output unmodified whatever it holds. -/
theorem getQuat_snap_first_three {α : Type} [LinearOrderedField α] (sqrt : α → α)
    (data : Fin 6 → Fin 256) (i : Fin 4) :
    getQuat sqrt data i
        = (if i.val < 3 ∧ |getQuatRaw sqrt data i| < 0.0001 then 0
            else getQuatRaw sqrt data i) ∧
      getQuat sqrt data 3 = getQuatRaw sqrt data 3 := by
  have e3 : ((3 : Fin 4) : Nat) = 3 := rfl
  refine ⟨snapQuat_apply _ i, ?_⟩
  rw [getQuat, snapQuat_apply]
  simp [e3]

section ReconLemmas

variable {α : Type} [LinearOrderedField α]

end ReconLemmas

section AnmLemmas

variable {α : Type} [LinearOrderedField α]

omit [LinearOrderedField α] in
theorem readAddrs_length (file : FileView α) (cur bone_count : Nat) :
    (readAddrs file cur bone_count).length = addrCount bone_count := by
  simp [readAddrs]

theorem densePos_eq_sparsePos (file : FileView α) (t : Nat) (h31 : t ≠ 31) (base : Vec3 α)
    (n : Nat) : ∀ cur, densePosSamples file t n cur = sparsePosSamples file t base n cur := by
  induction n with
  | zero => intro cur; rfl
  | succ n ih =>
    intro cur
    unfold densePosSamples sparsePosSamples
    by_cases h30 : t = 30
    · simp only [h30, if_true]
      rw [← h30, ih]
    · simp only [h30, h31, if_false]
      rw [ih]

theorem densePos_floats (file : FileView α) (t : Nat) (h30 : t ≠ 30) (n : Nat) :
    ∀ cur, densePosSamples file t n cur
      = (List.range n).map (fun j => snapTranslate (file.vec3f (cur + 12 * j))) := by
  induction n with
  | zero => intro cur; rfl
  | succ n ih =>
    intro cur
    unfold densePosSamples
    rw [if_neg h30, ih, List.range_succ_eq_map, List.map_cons, List.map_map]
    congr 1
    apply List.map_congr_left
    intro j _
    simp only [Function.comp, Nat.succ_eq_add_one]
    rw [show cur + 12 + 12 * j = cur + 12 * (j + 1) by ring]

theorem posTrack_length (file : FileView α) (node node' : AnmNode α)
    (t i c b u o cur : Nat) (h : posTrack file node t i c b u o cur = some node') :
    node'.arc_pos.length = node.arc_pos.length := by
  unfold posTrack at h
  simp only [Option.bind_eq_bind, Option.bind_eq_some] at h
  obtain ⟨_, _, _, _, _, _, _, _, _, _, _, _, h⟩ := h
  cases h
  simp

theorem rotTrack_length (sqrt : α → α) (file : FileView α) (node node' : AnmNode α)
    (i c b cur : Nat) (h : rotTrack sqrt file node i c b cur = some node') :
    node'.arc_pos.length = node.arc_pos.length := by
  unfold rotTrack at h
  simp only [Option.bind_eq_bind, Option.bind_eq_some] at h
  obtain ⟨_, _, _, _, h⟩ := h
  cases h
  rfl

theorem trackStep_length (sqrt : α → α) (file : FileView α) (section2 : Nat)
    (node node' : AnmNode α) (addr : Nat)
    (h : trackStep sqrt file section2 node addr = some node') :
    node'.arc_pos.length = node.arc_pos.length := by
  unfold trackStep at h
  simp only at h
  split at h
  · exact rotTrack_length sqrt file node node' _ _ _ _ h
  · exact posTrack_length file node node' _ _ _ _ _ _ _ h

theorem foldlM_trackStep_length (sqrt : α → α) (file : FileView α) (section2 : Nat)
    (addrs : List Nat) :
    ∀ node node' : AnmNode α, addrs.foldlM (trackStep sqrt file section2) node = some node' →
      node'.arc_pos.length = node.arc_pos.length := by
  induction addrs with
  | nil =>
    intro node node' h
    cases h
    rfl
  | cons a rest ih =>
    intro node node' h
    rw [List.foldlM_cons] at h
    simp only [Option.bind_eq_bind, Option.bind_eq_some] at h
    obtain ⟨n1, h1, h2⟩ := h
    rw [ih n1 node' h2, trackStep_length sqrt file section2 node n1 a h1]

theorem decodeAnm_length (sqrt : α → α) (file : FileView α) (node node' : AnmNode α)
    (hn : node.arc_pos = []) (h : decodeAnm sqrt file node = some node') :
    node'.arc_pos.length = file.u32 0x20 := by
  unfold decodeAnm at h
  have := foldlM_trackStep_length sqrt file _ _ _ node' h
  rw [this]
  simp [vecResize, hn]

end AnmLemmas

/-- C20: the number of track-block offsets read is `((boneCount - 3) * 2) mod
2^32`, the bound of the loop in unsigned 32-bit arithmetic, which is
`2 * (boneCount - 3)` for every `boneCount` with `3 ≤ boneCount ≤ 2^31 + 2`. -/
theorem directory_size {α : Type} [LinearOrderedField α] (file : FileView α)
    (cur bone_count : Nat) (hb : bone_count < 2 ^ 32) :
    ((readAddrs file cur bone_count).length : Int) = (((bone_count : Int) - 3) * 2) % 2 ^ 32 ∧
      (3 ≤ bone_count → bone_count ≤ 2 ^ 31 + 2 →
        (readAddrs file cur bone_count).length = 2 * (bone_count - 3)) := by
  rw [readAddrs_length]
  unfold addrCount
  constructor
  · omega
  · intro h3 hle
    omega

theorem directory_size_witness :
    (5 : Nat) < 2 ^ 32 ∧ (readAddrs constView 0x36 5).length = 4 :=
  ⟨by norm_num, by
    have h := (directory_size constView 0x36 5 (by norm_num)).2 (by norm_num) (by norm_num)
    simpa using h⟩

theorem snapTranslate_const (c : ℚ) (h : ¬ |c| < 0.001) :
    snapTranslate (![c, c, c] : Vec3 ℚ) = ![c, c, c] := by
  funext k
  fin_cases k <;> simp [snapTranslate, h]

theorem densePos_constView : densePosSamples constView 31 1 0 = [![2, 2, 2]] := by
  have h : ¬ |(2 : ℚ)| < 0.001 := by norm_num
  have e : constView.vec3f 0 = ![2, 2, 2] := rfl
  simp only [densePosSamples, e, snapTranslate_const 2 h]
  rfl

theorem sparsePos_constView :
    sparsePosSamples constView 31 (constView.vec3f 0) 1 12 = [![3, 3, 3]] := by
  have h : ¬ |(3 : ℚ)| < 0.001 := by norm_num
  have e : read_vec3h constView 12 + constView.vec3f 0 = ![3, 3, 3] := by
    funext k
    fin_cases k <;> simp [read_vec3h, FileView.vec3f, constView] <;> norm_num
  simp only [sparsePosSamples, e, snapTranslate_const 3 h]
  rfl

/-- C15 (the code at the failing input): the dense translation branch agrees
with the sparse sample rule for type 30 and for every type other than 31, but
for type 31 it reads three floats per sample (a stride of 12 bytes) like any
other type, without a base offset; on a view whose floats are 2 and whose
half floats are 1 the dense sample is `(2,2,2)` where the sparse rule gives
`(3,3,3)`. -/
theorem dense_translation_rule {α : Type} [LinearOrderedField α] (file : FileView α)
    (base : Vec3 α) (n cur : Nat) :
    densePosSamples file 30 n cur = sparsePosSamples file 30 base n cur ∧
      (∀ t, t ≠ 30 → t ≠ 31 →
        densePosSamples file t n cur = sparsePosSamples file t base n cur) ∧
      densePosSamples file 31 n cur
        = (List.range n).map (fun j => snapTranslate (file.vec3f (cur + 12 * j))) ∧
      densePosSamples constView 31 1 0 = [![2, 2, 2]] ∧
      sparsePosSamples constView 31 (constView.vec3f 0) 1 12 = [![3, 3, 3]] :=
  ⟨densePos_eq_sparsePos file 30 (by norm_num) base n cur,
    fun t _ h31 => densePos_eq_sparsePos file t h31 base n cur,
    densePos_floats file 31 (by norm_num) n cur, densePos_constView, sparsePos_constView⟩

section CacheLemmas

variable {α : Type} [LinearOrderedField α]

theorem ensureDecoded_of_nonempty (sqrt : α → α) (file : FileView α) (node : AnmNode α)
    (h : node.arc_pos ≠ []) : ensureDecoded sqrt file node = some node := by
  have he : node.arc_pos.isEmpty = false := by
    cases hp : node.arc_pos with
    | nil => exact absurd hp h
    | cons a l => rfl
  unfold ensureDecoded
  rw [he]
  rfl

theorem ensureDecoded_fresh (sqrt : α → α) (file : FileView α) :
    ensureDecoded sqrt file AnmNode.fresh = decodeAnm sqrt file AnmNode.fresh := rfl

end CacheLemmas

/-- C14 (as amended): the cached decode is keyed by the node, not by the
source file: for two consecutive calls on a new node, first on the file at
`path1` with `frame1`, then on the file at `path2` with `frame2`, where the
first call succeeds and its file has `boneCount > 0`, the second call returns
what a new node returns that decodes the file at `path1` and samples it at
`frame2`, whatever the file at `path2` is. -/
theorem cache_keyed_by_node {α : Type} [LinearOrderedField α] (sqrt : α → α)
    (file1 file2 : FileView α) (frame1 frame2 : Int) (node1 : AnmNode α) (out1 : AnmOut α)
    (h1 : applyAnm sqrt file1 frame1 AnmNode.fresh = some (node1, out1))
    (hb : file1.u32 0x20 ≠ 0) :
    applyAnm sqrt file2 frame2 node1 = applyAnm sqrt file1 frame2 AnmNode.fresh := by
  unfold applyAnm at h1 ⊢
  rw [ensureDecoded_fresh] at h1 ⊢
  simp only [Option.bind_eq_some, Option.map_eq_some'] at h1
  obtain ⟨node, hdec, out, _, hpair⟩ := h1
  have hnode : node = node1 := (Prod.mk.inj hpair).1
  subst hnode
  have hlen := decodeAnm_length sqrt file1 AnmNode.fresh node rfl hdec
  have hne : node.arc_pos ≠ [] := by
    intro h0
    rw [h0] at hlen
    exact hb hlen.symm
  rw [ensureDecoded_of_nonempty sqrt file2 node hne, hdec]

theorem addrCount_three : addrCount 3 = 0 := by
  decide

theorem decodeAnm_threeBone (m : Nat) :
    decodeAnm (fun x : ℚ => x) (threeBoneFile m) AnmNode.fresh = some (threeBoneNode m) := by
  have h20 : (threeBoneFile m).u32 0x20 = 3 := rfl
  have h04 : (threeBoneFile m).u32 0x04 = m := rfl
  simp only [decodeAnm, readAddrs, h20, h04, addrCount_three, List.range_zero, List.map_nil,
    List.foldlM_nil]
  rfl

theorem anmOutput_threeBone (m : Nat) (frame : Int) :
    anmOutput frame (threeBoneNode m) = some (threeBoneOut m) := by
  rfl

theorem applyAnm_threeBone_fresh (m : Nat) (frame : Int) :
    applyAnm (fun x => x) (threeBoneFile m) frame AnmNode.fresh
      = some (threeBoneNode m, threeBoneOut m) := by
  unfold applyAnm
  rw [ensureDecoded_fresh, decodeAnm_threeBone, Option.some_bind, anmOutput_threeBone]
  rfl

theorem applyAnm_threeBone_cached (file : FileView ℚ) (m : Nat) (frame : Int) :
    applyAnm (fun x => x) file frame (threeBoneNode m)
      = some (threeBoneNode m, threeBoneOut m) := by
  unfold applyAnm
  rw [ensureDecoded_of_nonempty _ _ _ (by simp [threeBoneNode]), Option.some_bind,
    anmOutput_threeBone]
  rfl

theorem cache_keyed_by_node_witness :
    applyAnm (fun x => x) (threeBoneFile 5) 0 AnmNode.fresh
        = some (threeBoneNode 5, threeBoneOut 5) ∧
      (threeBoneFile 5).u32 0x20 ≠ 0 ∧
      applyAnm (fun x => x) (threeBoneFile 7) 1 (threeBoneNode 5)
        = applyAnm (fun x => x) (threeBoneFile 5) 1 AnmNode.fresh :=
  ⟨applyAnm_threeBone_fresh 5 0, by decide,
    cache_keyed_by_node _ _ _ 0 1 _ _ (applyAnm_threeBone_fresh 5 0) (by decide)⟩

/-- C14 (counterexample): two files with `bone_count = 3` and no track block
that differ in `max_frame` (5 and 7). After a first call on the first file,
the call on the second file outputs `max_frame = 5`, while a new node that
decodes the second file outputs `max_frame = 7`. -/
theorem cache_not_keyed_by_file_counterexample :
    applyAnm (fun x => x) (threeBoneFile 5) 0 AnmNode.fresh
        = some (threeBoneNode 5, threeBoneOut 5) ∧
      applyAnm (fun x => x) (threeBoneFile 7) 0 (threeBoneNode 5)
        = some (threeBoneNode 5, threeBoneOut 5) ∧
      applyAnm (fun x => x) (threeBoneFile 7) 0 AnmNode.fresh
        = some (threeBoneNode 7, threeBoneOut 7) ∧
      (threeBoneOut 5).max_frame = 5 ∧ (threeBoneOut 7).max_frame = 7 ∧
      threeBoneOut 5 ≠ threeBoneOut 7 := by
  refine ⟨applyAnm_threeBone_fresh 5 0, applyAnm_threeBone_cached _ 5 0,
    applyAnm_threeBone_fresh 7 0, rfl, rfl, ?_⟩
  intro h
  have h3 := congrArg AnmOut.max_frame h
  exact absurd h3 (by decide)

/-! ## Properties of `ReadDanceCamera` -/

section CameraLemmas

theorem camFill_upto {V : Type} (dflt : V) (mapping : List (Nat × V)) (prev : List V)
    (k : Nat) :
    (List.range k).foldlM (camFillStep dflt mapping) prev
      = some (prev ++ (List.range k).map (fillValue mapping dflt)) := by
  induction k with
  | zero => simp
  | succ k ih =>
    rw [List.range_succ, List.foldlM_append, ih]
    simp only [Option.bind_eq_bind, Option.some_bind, List.foldlM_cons, List.foldlM_nil,
      List.map_append, List.map_cons, List.map_nil]
    unfold camFillStep
    cases hm : mapping.lookup k with
    | some v =>
      cases k <;> simp [fillValue, hm]
    | none =>
      cases k with
      | zero => simp [fillValue, hm]
      | succ k =>
        have hl : (prev ++ List.map (fillValue mapping dflt) (List.range (k + 1))).getLast?
            = some (fillValue mapping dflt k) := by
          rw [List.range_succ, List.map_append, ← List.append_assoc]
          simp
        simp [fillValue, hm, hl]

theorem camSparse_isForwardFill {V : Type} (dflt : V) (index : List Nat) (vals : List V)
    (h : index ≠ []) :
    ∃ curve, camSparse dflt [] index vals = some curve ∧
      IsForwardFill dflt index vals (index.getLast h) curve := by
  refine ⟨(List.range (index.getLast h + 1)).map (fillValue (buildMapping index vals) dflt),
    ?_, ?_, ?_⟩
  · unfold camSparse
    rw [List.getLast?_eq_getLast _ h]
    simp only
    rw [camFill_upto]
    simp
  · simp
  · intro f hf
    have hs := fillValue_spec index vals dflt f
    have hv : ((List.range (index.getLast h + 1)).map
        (fillValue (buildMapping index vals) dflt))[f]?
        = some (fillValue (buildMapping index vals) dflt f) := by
      rw [List.getElem?_map, List.getElem?_range (by omega)]
      rfl
    constructor
    · intro h0
      rw [hv, hs.1 h0]
    · intro j hj hvj hle hmax hlast
      rw [hv, hs.2 j hj hvj hle hmax hlast]

theorem sampleCurve_nil {V : Type} (frame : Int) : sampleCurve frame ([] : List V) = none := by
  unfold sampleCurve readAt
  split <;> rfl

theorem sampleCurve_of_ne_nil {V : Type} (frame : Int) (arc : List V) (h : arc ≠ [])
    (hl : arc.length < 2 ^ 64) :
    arc[(min (max frame 0) ((arc.length : Int) - 1)).toNat]? = sampleCurve frame arc ∧
      ∃ v, sampleCurve frame arc = some v := by
  have hpos : 0 < arc.length := List.length_pos.mpr h
  have hs : sizeMinusOne arc.length = (arc.length : Int) - 1 := by
    unfold sizeMinusOne
    omega
  obtain ⟨hi, hr⟩ := readAt_clamp arc frame (by omega)
  unfold sampleCurve
  rw [hs]
  refine ⟨?_, _, hr⟩
  rw [hr, List.getElem?_eq_getElem (by simpa [clamp] using hi)]
  rfl

theorem decodeCamera_empty :
    decodeCamera emptyCameraFile CamNode.fresh = some { arc_pos := [], arc_rot := [] } := by
  have ha : align_to 0x48 16 = 0x50 := by decide
  have hb : align_to 0x50 16 = 0x50 := by decide
  have hc : align_to 0x60 16 = 0x60 := by decide
  have h1 : emptyCameraFile.u16 0x3A = 1 := rfl
  have h2 : emptyCameraFile.u16 0x3C = 0 := rfl
  have h3 : emptyCameraFile.u16 0x52 = 1 := rfl
  have h4 : emptyCameraFile.u16 0x54 = 0 := rfl
  simp only [decodeCamera, camRotTrack, camPosTrack, ha, hb, hc, h1, h2, h3, h4,
    Nat.one_ne_zero, if_false, List.range_zero, List.map_nil, Nat.mul_zero, Nat.add_zero,
    CamNode.fresh, List.append_nil]

end CameraLemmas

/-- C11 (the code at the failing input): the camera sampling reads
`arc[clamp(frame, 0, arc.size() - 1)]` without a test for an empty curve, so
for an empty translation curve every frame gives an out-of-bounds read, as
for the file whose two track headers are dense with count 0; when both
curves are non-empty the clamped index lies inside them. -/
theorem camera_sample_empty_curve {α : Type} [LinearOrderedField α] (frame : Int)
    (arc_pos : List (Vec3 α)) (arc_rot : List (Vec4 α)) :
    sampleCamera frame ([] : List (Vec3 α)) arc_rot = none ∧
      sampleCamera frame arc_pos ([] : List (Vec4 α)) = none ∧
      applyCamera emptyCameraFile frame CamNode.fresh = none ∧
      (arc_pos ≠ [] → arc_rot ≠ [] → arc_pos.length < 2 ^ 64 → arc_rot.length < 2 ^ 64 →
        ∃ out, sampleCamera frame arc_pos arc_rot = some out) := by
  refine ⟨?_, ?_, ?_, ?_⟩
  · unfold sampleCamera
    rw [sampleCurve_nil]
  · unfold sampleCamera
    rw [sampleCurve_nil]
    cases sampleCurve frame arc_pos <;> rfl
  · unfold applyCamera
    have he : (CamNode.fresh : CamNode ℚ).arc_pos.isEmpty = true := rfl
    rw [he]
    simp only [if_true, decodeCamera_empty, Option.some_bind]
    unfold sampleCamera
    rw [sampleCurve_nil]
    rfl
  · intro hp hr hpl hrl
    obtain ⟨_, t, ht⟩ := sampleCurve_of_ne_nil frame arc_pos hp hpl
    obtain ⟨_, r, hr'⟩ := sampleCurve_of_ne_nil frame arc_rot hr hrl
    exact ⟨(t, r), by unfold sampleCamera; rw [ht, hr']⟩

/-- C12: in the camera sparse decode, for every non-empty index list with
values of the same length, the curve has length `idx.last + 1` and at each
frame `f ≤ idx.last` holds the value paired with the greatest listed index
`≤ f` (the pair listed last when the index repeats), or the identity
`(0,0,0,1)` for the rotation and the zero vector for the translation when no
listed index is `≤ f`. -/
theorem camera_sparse_fill {α : Type} [Zero α] [One α] (index : List Nat)
    (rots : List (Vec4 α)) (poss : List (Vec3 α)) (h : index ≠ [])
    (_hr : index.length = rots.length) (_hp : index.length = poss.length) :
    (∃ curve, camSparse ![0, 0, 0, 1] [] index rots = some curve ∧
        IsForwardFill ![0, 0, 0, 1] index rots (index.getLast h) curve) ∧
      (∃ curve, camSparse ![0, 0, 0] [] index poss = some curve ∧
        IsForwardFill ![0, 0, 0] index poss (index.getLast h) curve) :=
  ⟨camSparse_isForwardFill _ index rots h, camSparse_isForwardFill _ index poss h⟩

theorem camera_sparse_fill_witness :
    ([0, 2] : List Nat) ≠ [] ∧
      ([0, 2] : List Nat).length = [(![1, 0, 0, 0] : Vec4 ℚ), ![0, 1, 0, 0]].length ∧
      ([0, 2] : List Nat).length = [(![1, 2, 3] : Vec3 ℚ), ![4, 5, 6]].length ∧
      (∃ curve, camSparse ![0, 0, 0, 1] [] [0, 2] [(![1, 0, 0, 0] : Vec4 ℚ), ![0, 1, 0, 0]]
          = some curve ∧ curve.length = 3) ∧
      camSparse ![0, 0, 0] [] [0, 2] [(![1, 2, 3] : Vec3 ℚ), ![4, 5, 6]]
        = some [![1, 2, 3], ![1, 2, 3], ![4, 5, 6]] :=
  ⟨by simp, rfl, rfl, by
    obtain ⟨⟨curve, h1, h2, _⟩, _⟩ := camera_sparse_fill [0, 2]
      [(![1, 0, 0, 0] : Vec4 ℚ), ![0, 1, 0, 0]] [(![1, 2, 3] : Vec3 ℚ), ![4, 5, 6]]
      (by simp) rfl rfl
    exact ⟨curve, h1, h2⟩, rfl⟩

/-! ## Properties of the triangles of `ReadDanceMesh` -/

section TriLemmas

variable {α : Type} [Ring α]

theorem sectionStep_inv_tris (st st' : Pass2State α) (i : Nat) (s : SectionRec α)
    (h : sectionStep st i s = Except.ok st') :
    st'.prim.tris = st.prim.tris
        ++ s.faces.map (fun f => ![f 0 + st.vi, f 1 + st.vi, f 2 + st.vi]) ∧
      st'.vi = st.vi + s.verts.length := by
  obtain ⟨hf, hv, _, _⟩ := sectionStep_inv st st' i s h
  obtain ⟨prim, hprim, _, _, htris, hstep⟩ := sectionStep_eq st i s hf hv
  refine ⟨by rw [hprim st' h, htris], ?_⟩
  rw [hstep] at h
  split at h
  · cases h
  · cases h
    rfl

theorem pass2From_tris (secs : List (SectionRec α)) :
    ∀ (i : Nat) (st st' : Pass2State α), pass2From i st secs = Except.ok st' →
      st'.prim.tris = st.prim.tris ++ trisSpec st.vi secs ∧
      st'.vi = st.vi + (secs.map (fun s => s.verts.length)).sum := by
  induction secs with
  | nil =>
    intro i st st' h
    cases h
    simp [trisSpec]
  | cons s rest ih =>
    intro i st st' h
    unfold pass2From at h
    cases hs : sectionStep st i s with
    | error e => rw [hs] at h; cases h
    | ok st1 =>
      rw [hs] at h
      simp only at h
      obtain ⟨ht, hvi⟩ := sectionStep_inv_tris st st1 i s hs
      obtain ⟨ht', hvi'⟩ := ih (i + 1) st1 st' h
      constructor
      · rw [ht', ht, hvi, trisSpec, List.append_assoc]
      · rw [hvi', hvi, List.map_cons, List.sum_cons, Nat.add_assoc]

omit [Ring α] in
theorem trisSpec_getElem (secs : List (SectionRec α)) :
    ∀ (vi k : Nat) (hk : k < secs.length) (j : Nat) (hj : j < secs[k].faces.length),
      (trisSpec vi secs)[faceBase secs k + j]?
        = some ![secs[k].faces[j] 0 + (vi + vertBase secs k),
            secs[k].faces[j] 1 + (vi + vertBase secs k),
            secs[k].faces[j] 2 + (vi + vertBase secs k)] := by
  induction secs with
  | nil => intro vi k hk; simp at hk
  | cons s rest ih =>
    intro vi k hk j hj
    cases k with
    | zero =>
      simp only [List.getElem_cons_zero] at hj
      simp only [faceBase, vertBase, List.take_zero, List.map_nil, List.sum_nil, Nat.zero_add,
        trisSpec, Nat.add_zero, List.getElem_cons_zero]
      rw [List.getElem?_append_left (by simpa using hj)]
      simp [List.getElem?_map, List.getElem?_eq_getElem hj]
    | succ k =>
      have hk' : k < rest.length := by simpa using hk
      simp only [List.getElem_cons_succ] at hj
      have := ih (vi + s.verts.length) k hk' j hj
      simp only [faceBase, vertBase, List.take_succ_cons, List.map_cons, List.sum_cons,
        trisSpec, List.getElem_cons_succ] at this ⊢
      rw [List.getElem?_append_right (by simp; omega)]
      simp only [List.length_map]
      rw [show s.faces.length + ((rest.take k).map (fun s => s.faces.length)).sum + j
        - s.faces.length = ((rest.take k).map (fun s => s.faces.length)).sum + j by omega]
      rw [this]
      simp only [Nat.add_assoc]

omit [Ring α] in
theorem vertBase_add_le (secs : List (SectionRec α)) :
    ∀ (i : Nat) (hi : i < secs.length),
      vertBase secs i + secs[i].verts.length ≤ (secs.map (fun s => s.verts.length)).sum := by
  induction secs with
  | nil => intro i hi; simp at hi
  | cons s rest ih =>
    intro i hi
    cases i with
    | zero => simp [vertBase]
    | succ i =>
      have hi' : i < rest.length := by simpa using hi
      have := ih i hi'
      simp only [vertBase, List.take_succ_cons, List.map_cons, List.sum_cons,
        List.getElem_cons_succ] at this ⊢
      omega

end TriLemmas

/-- C16: for every section `i`, each output triangle index is the raw `u16`
index plus `V_i`, the sum of the vertex counts of the sections before `i`;
hence when a raw index of section `i` is below the vertex count of the
section, the output index lies in `[V_i, V_i + vert_count_i)` and is below the
total vertex count. -/
theorem triangle_indices {α : Type} [Ring α] (secs : List (SectionRec α))
    (st : Pass2State α) (h2 : pass2 secs = Except.ok st) :
    st.vi = (secs.map (fun s => s.verts.length)).sum ∧
      ∀ i (hi : i < secs.length) j (hj : j < secs[i].faces.length) (k : Fin 3),
        ∃ tri, st.prim.tris[faceBase secs i + j]? = some tri ∧
          tri k = secs[i].faces[j] k + vertBase secs i ∧
          (secs[i].faces[j] k < secs[i].verts.length →
            vertBase secs i ≤ tri k ∧ tri k < vertBase secs i + secs[i].verts.length ∧
            tri k < (secs.map (fun s => s.verts.length)).sum) := by
  obtain ⟨ht, hvi⟩ := pass2From_tris secs 0 pass2Init st h2
  simp only [pass2Init, List.nil_append, Nat.zero_add] at ht hvi
  refine ⟨hvi, ?_⟩
  intro i hi j hj k
  have hg := trisSpec_getElem secs 0 i hi j hj
  simp only [Nat.zero_add] at hg
  rw [← ht] at hg
  refine ⟨_, hg, ?_, ?_⟩
  · fin_cases k <;> rfl
  · intro hlt
    have hle := vertBase_add_le secs i hi
    have hk : (![secs[i].faces[j] 0 + vertBase secs i, secs[i].faces[j] 1 + vertBase secs i,
        secs[i].faces[j] 2 + vertBase secs i] : Vec3 Nat) k
        = secs[i].faces[j] k + vertBase secs i := by
      fin_cases k <;> rfl
    rw [hk]
    omega

theorem triExample_pass2 :
    ∃ st, pass2 triExample = Except.ok st ∧ st.prim.tris = [![0, 1, 0], ![3, 2, 3]] :=
  ⟨_, rfl, rfl⟩

theorem triangle_indices_witness :
    ∃ st, pass2 triExample = Except.ok st ∧ st.prim.tris = [![0, 1, 0], ![3, 2, 3]] ∧
      st.vi = 4 := by
  obtain ⟨st, h1, h2⟩ := triExample_pass2
  exact ⟨st, h1, h2, (triangle_indices triExample st h1).1⟩

/-! ## Properties of the bone loop of `ReadDanceMesh` -/

section HierarchyLemmas

theorem sum_set_succ (xs : List Nat) :
    ∀ (p c : Nat), xs[p]? = some c → (xs.set p (c + 1)).sum = xs.sum + 1 := by
  induction xs with
  | nil => intro p c h; simp at h
  | cons x xs ih =>
    intro p c h
    cases p with
    | zero =>
      simp only [List.getElem?_cons_zero, Option.some.injEq] at h
      subst h
      simp only [List.set_cons_zero, List.sum_cons]
      omega
    | succ p =>
      simp only [List.getElem?_cons_succ] at h
      simp only [List.set_cons_succ, List.sum_cons, ih p c h]
      omega

variable {α : Type} [LinearOrderedField α]

theorem boneLoop_upto (file : FileView α) (bone_count bone_ptr : Nat)
    (hpar : ∀ i, i < bone_count → parentAt file bone_ptr i = -1 ∨
      (0 ≤ parentAt file bone_ptr i ∧ parentAt file bone_ptr i < (bone_count : Int)))
    (k : Nat) (hk : k ≤ bone_count) :
    ∃ st, (List.range k).foldlM (boneRecordStep file bone_ptr)
        { verts := [], parent := [], childCount := List.replicate bone_count 0,
          c1 := [], c2 := [], c3 := [], c4 := [], lines := [] } = some st ∧
      st.parent = (List.range k).map (parentAt file bone_ptr) ∧
      st.lines = (List.range k).filterMap (fun i =>
        if parentAt file bone_ptr i ≠ -1 then some (parentAt file bone_ptr i, i) else none) ∧
      st.childCount.length = bone_count ∧
      (∀ p, p < bone_count → st.childCount[p]?
        = some ((List.range k).countP (fun i => parentAt file bone_ptr i = (p : Int)))) ∧
      st.childCount.sum = st.lines.length := by
  induction k with
  | zero =>
    refine ⟨_, rfl, rfl, rfl, by simp, ?_, by simp⟩
    intro p hp
    simp [List.getElem?_replicate, hp]
  | succ k ih =>
    obtain ⟨st, hst, hparent, hlines, hlen, hcount, hsum⟩ := ih (Nat.le_of_succ_le hk)
    rw [List.range_succ, List.foldlM_append, hst]
    simp only [Option.bind_eq_bind, Option.some_bind, List.foldlM_cons, List.foldlM_nil,
      Option.bind_some, List.map_append, List.map_cons, List.map_nil, List.filterMap_append,
      List.filterMap_cons, List.filterMap_nil, List.countP_append, List.countP_cons,
      List.countP_nil]
    unfold boneRecordStep linkParent
    simp only
    by_cases hp : parentAt file bone_ptr k = -1
    · simp only [hp, ne_eq, not_true_eq_false, if_false]
      refine ⟨_, rfl, by rw [hparent], by rw [hlines]; simp, hlen, ?_, by rw [hsum, hlines]⟩
      intro p hpb
      rw [hcount p hpb]
      have : ¬ ((-1 : Int) = (p : Int)) := by omega
      simp [this]
    · rcases hpar k (by omega) with h | ⟨h0, h1⟩
      · exact absurd h hp
      · have hidx : (parentAt file bone_ptr k).toNat < bone_count := by omega
        have hread : readAt st.childCount (parentAt file bone_ptr k)
            = some ((List.range k).countP
                (fun i => parentAt file bone_ptr i = ((parentAt file bone_ptr k).toNat : Int))) := by
          rw [readAt_of_nonneg _ _ h0]
          exact hcount _ hidx
        simp only [hp, ne_eq, not_false_eq_true, if_true, hread]
        refine ⟨_, rfl, by rw [hparent], by rw [hlines], by rw [List.length_set, hlen], ?_, ?_⟩
        · intro p hpb
          by_cases hpe : p = (parentAt file bone_ptr k).toNat
          · subst hpe
            rw [List.getElem?_set_self (by rw [hlen]; exact hidx)]
            have : parentAt file bone_ptr k = ((parentAt file bone_ptr k).toNat : Int) := by
              omega
            simp [← this]
          · rw [List.getElem?_set_ne (Ne.symm hpe), hcount p hpb]
            have : ¬ (parentAt file bone_ptr k = (p : Int)) := by omega
            simp [this]
        · rw [sum_set_succ _ _ _ (hcount _ hidx), hsum, hlines]
          simp

end HierarchyLemmas

/-- C17: for every parent array whose entries are `-1` or in
`[0, boneCount)`, the emitted edge list is exactly the pairs `(parent[i], i)`,
in ascending `i`, of the bones with `parent[i] != -1`, and `childCount[p]` is
the number of bones `i` with `parent[i] == p`, so that the child counts sum
to the number of edges. -/
theorem skeleton_hierarchy {α : Type} [LinearOrderedField α] (file : FileView α)
    (bone_count bone_ptr : Nat)
    (hpar : ∀ i, i < bone_count → parentAt file bone_ptr i = -1 ∨
      (0 ≤ parentAt file bone_ptr i ∧ parentAt file bone_ptr i < (bone_count : Int))) :
    ∃ st, boneLoopFrom file bone_count bone_ptr = some st ∧
      st.parent = (List.range bone_count).map (parentAt file bone_ptr) ∧
      st.lines = (List.range bone_count).filterMap (fun i =>
        if parentAt file bone_ptr i ≠ -1 then some (parentAt file bone_ptr i, i) else none) ∧
      st.childCount.length = bone_count ∧
      (∀ p, p < bone_count → st.childCount[p]?
        = some ((List.range bone_count).countP
            (fun i => parentAt file bone_ptr i = (p : Int)))) ∧
      st.childCount.sum = st.lines.length :=
  boneLoop_upto file bone_count bone_ptr hpar bone_count (le_refl _)

theorem boneExample_parent (i : Nat) (hi : i < 3) :
    parentAt boneExample 0 i = -1 ∨
      (0 ≤ parentAt boneExample 0 i ∧ parentAt boneExample 0 i < ((3 : Nat) : Int)) := by
  interval_cases i
  · left; rfl
  · right; exact ⟨by decide, by decide⟩
  · right; exact ⟨by decide, by decide⟩

theorem skeleton_hierarchy_witness :
    (∀ i, i < 3 → parentAt boneExample 0 i = -1 ∨
        (0 ≤ parentAt boneExample 0 i ∧ parentAt boneExample 0 i < ((3 : Nat) : Int))) ∧
      ∃ st, boneLoopFrom boneExample 3 0 = some st ∧
        st.lines = [(0, 1), (0, 2)] ∧ st.childCount.sum = 2 := by
  refine ⟨boneExample_parent, ?_⟩
  obtain ⟨st, h1, _, h3, _, _, h6⟩ := skeleton_hierarchy boneExample 3 0 boneExample_parent
  have hl : st.lines = [(0, 1), (0, 2)] := by
    rw [h3]
    decide
  exact ⟨st, h1, hl, by rw [h6, hl]; rfl⟩

/-! ## Properties of the batch bookkeeping of `ReadDanceMesh` -/

section BookkeepingLemmas

theorem max_eq_card_iff_range (S : Finset Nat) (h : S.Nonempty) :
    S.max' h = S.card - 1 ↔ S = Finset.range (S.max' h + 1) := by
  have hsub : S ⊆ Finset.range (S.max' h + 1) := by
    intro x hx
    rw [Finset.mem_range]
    exact Nat.lt_succ_of_le (S.le_max' x hx)
  have hpos : 0 < S.card := Finset.card_pos.mpr h
  constructor
  · intro he
    apply Finset.eq_of_subset_of_card_le hsub
    rw [Finset.card_range]
    omega
  · intro he
    have hc := congrArg Finset.card he
    rw [Finset.card_range] at hc
    omega

theorem below_card_iff_range (S : Finset Nat) :
    (∀ x ∈ S, x < S.card) ↔ S = Finset.range S.card := by
  constructor
  · intro hx
    apply Finset.eq_of_subset_of_card_le
    · intro x hxS
      rw [Finset.mem_range]
      exact hx x hxS
    · rw [Finset.card_range]
  · intro he x hxS
    rw [he] at hxS
    exact Finset.mem_range.mp hxS

variable {α : Type} [Ring α]

theorem sectionStep_sets (st st' : Pass2State α) (i : Nat) (s : SectionRec α)
    (h : sectionStep st i s = Except.ok st') :
    s.fvf_size = 68 ∧ s.verts ≠ [] ∧
      ∃ last, (if isComplete (sectionSet s) = true then st.bone_mapping_section ++ [∅]
          else st.bone_mapping_section).getLast? = some last ∧
        st'.bone_mapping_section =
          (if isComplete (sectionSet s) = true then st.bone_mapping_section ++ [∅]
            else st.bone_mapping_section).dropLast ++ [last ∪ sectionSet s] ∧
        st'.bone_map_section_to_batch = st.bone_map_section_to_batch ++
          [(if isComplete (sectionSet s) = true then st.bone_mapping_section ++ [∅]
            else st.bone_mapping_section).length - 1] := by
  obtain ⟨hf, hv, _, _⟩ := sectionStep_inv st st' i s h
  refine ⟨hf, hv, ?_⟩
  obtain ⟨prim, _, _, _, _, hstep⟩ := sectionStep_eq st i s hf hv
  rw [hstep] at h
  cases hg : (if isComplete (sectionSet s) = true then st.bone_mapping_section ++ [∅]
      else st.bone_mapping_section).getLast? with
  | none =>
    rw [hg] at h
    cases h
  | some last =>
    rw [hg] at h
    simp only [Except.ok.injEq] at h
    subst h
    exact ⟨last, rfl, rfl, rfl⟩

theorem sectionStep_bad_stride (st : Pass2State α) (i : Nat) (s : SectionRec α)
    (hf : s.fvf_size ≠ 68) : sectionStep st i s = Except.error DecodeError.strideAssert := by
  unfold sectionStep
  rw [if_neg hf]

theorem pass2From_containers (secs : List (SectionRec α)) :
    ∀ (i : Nat) (st : Pass2State α), (∀ s ∈ secs, s.verts ≠ []) →
      (st.bone_mapping_section ≠ [] ∨
        ∀ s, secs.head? = some s → isComplete (sectionSet s) = true) →
      pass2From i st secs ≠ Except.error DecodeError.emptyIndexSet ∧
        pass2From i st secs ≠ Except.error DecodeError.noBatch := by
  induction secs with
  | nil =>
    intro i st _ _
    constructor <;> intro h <;> cases h
  | cons s rest ih =>
    intro i st hv hb
    by_cases hf : s.fvf_size = 68
    · obtain ⟨st1, last, hstep, _, _, hlen, _⟩ := sectionStep_ok st i s hf
        (hv s (List.mem_cons_self _ _)) (hb.imp id (fun h => h s rfl))
      have hpos : st1.bone_mapping_section ≠ [] := by
        intro h0
        rcases hb with hb | hb
        · rw [h0] at hlen
          have := List.length_pos.mpr hb
          simp at hlen
          omega
        · rw [h0, hb s rfl] at hlen
          simp at hlen
      simp only [pass2From, hstep]
      exact ih (i + 1) st1 (fun x hx => hv x (List.mem_cons_of_mem _ hx)) (Or.inl hpos)
    · simp only [pass2From, sectionStep_bad_stride st i s hf]
      constructor <;> intro h <;> cases h

theorem pass2From_append (xs ys : List (SectionRec α)) :
    ∀ (i : Nat) (st : Pass2State α), pass2From i st (xs ++ ys)
      = match pass2From i st xs with
        | Except.ok st1 => pass2From (i + xs.length) st1 ys
        | Except.error e => Except.error e := by
  induction xs with
  | nil => intro i st; simp [pass2From]
  | cons x xs ih =>
    intro i st
    simp only [List.cons_append, pass2From, List.length_cons]
    cases hstep : sectionStep st i x with
    | error e => rfl
    | ok st1 =>
      simp only
      have e := ih (i + 1) st1
      have : i + 1 + xs.length = i + (xs.length + 1) := by omega
      rw [this] at e
      exact e

omit [Ring α] in
theorem countP_take_mono (p : SectionRec α → Bool) (secs : List (SectionRec α)) (j k : Nat)
    (hjk : j ≤ k) : (secs.take j).countP p ≤ (secs.take k).countP p :=
  List.Sublist.countP_le _ (List.take_sublist_take_left secs hjk)

omit [Ring α] in
theorem countP_take_pos (p : SectionRec α → Bool) (secs : List (SectionRec α))
    (h0 : ∀ s, secs.head? = some s → p s = true) (k : Nat) (hk : k < secs.length) :
    0 < (secs.take (k + 1)).countP p := by
  cases secs with
  | nil => simp at hk
  | cons s rest =>
    have hc := h0 s rfl
    simp [List.take_succ_cons, List.countP_cons, hc]

end BookkeepingLemmas

/-- C21: for every non-empty finite set `S` of non-negative integers,
`max(S) == |S| - 1` holds if and only if `S = {0, 1, ..., max(S)}`; so the
section loop starts a new batch (the batch list grows by one) exactly when the
distinct-index set of the section covers `[0, max]` without a gap, and leaves
the number of batches unchanged otherwise. -/
theorem batch_start_iff_gap_free {α : Type} [Ring α] (S : Finset Nat) (h : S.Nonempty) :
    (S.max' h = S.card - 1 ↔ S = Finset.range (S.max' h + 1)) ∧
      (isComplete S = true ↔ S = Finset.range (S.max' h + 1)) ∧
      ∀ (st st' : Pass2State α) (i : Nat) (s : SectionRec α), sectionSet s = S →
        sectionStep st i s = Except.ok st' →
        (st'.bone_mapping_section.length = st.bone_mapping_section.length + 1
          ↔ S = Finset.range (S.max' h + 1)) ∧
        (st'.bone_mapping_section.length = st.bone_mapping_section.length
          ↔ S ≠ Finset.range (S.max' h + 1)) := by
  have hiff := max_eq_card_iff_range S h
  refine ⟨hiff, (isComplete_iff S h).trans hiff, ?_⟩
  intro st st' i s hS hstep
  obtain ⟨_, _, last, hlast, hsets, _⟩ := sectionStep_sets st st' i s hstep
  rw [hS] at hlast hsets
  have hc : isComplete S = true ↔ S = Finset.range (S.max' h + 1) :=
    (isComplete_iff S h).trans hiff
  by_cases hcomp : isComplete S = true
  · have hr := hc.mp hcomp
    rw [if_pos hcomp] at hsets
    have hl : st'.bone_mapping_section.length = st.bone_mapping_section.length + 1 := by
      rw [hsets]; simp
    constructor
    · exact ⟨fun _ => hr, fun _ => hl⟩
    · constructor
      · intro h1; omega
      · intro h1; exact absurd hr h1
  · have hr : S ≠ Finset.range (S.max' h + 1) := fun e => hcomp (hc.mpr e)
    rw [if_neg hcomp] at hsets hlast
    have hne : st.bone_mapping_section ≠ [] := by
      intro e
      rw [e] at hlast
      cases hlast
    have hl : st'.bone_mapping_section.length = st.bone_mapping_section.length := by
      rw [hsets]
      have := List.length_pos.mpr hne
      simp only [List.length_append, List.length_dropLast, List.length_singleton]
      omega
    constructor
    · constructor
      · intro h1; omega
      · intro h1; exact absurd h1 hr
    · exact ⟨fun _ => hr, fun _ => hl⟩

theorem batch_start_iff_gap_free_witness :
    ({0, 1, 2} : Finset Nat).Nonempty ∧
      (isComplete ({0, 1, 2} : Finset Nat) = true ↔
        ({0, 1, 2} : Finset Nat)
          = Finset.range (({0, 1, 2} : Finset Nat).max' ⟨0, by decide⟩ + 1)) :=
  ⟨⟨0, by decide⟩,
    (@batch_start_iff_gap_free ℤ _ ({0, 1, 2} : Finset Nat) ⟨0, by decide⟩).2.1⟩

/-! ## Properties of the remap lookups of `ReadDanceMesh` -/

section CoverLemmas

variable {α : Type}

theorem mem_sectionSet (s : SectionRec α) (x : Nat) :
    x ∈ sectionSet s ↔ ∃ r ∈ s.verts,
      r.b0 = x ∨ (x ≠ 0 ∧ (r.b1 = x ∨ r.b2 = x ∨ r.b3 = x)) := by
  unfold sectionSet
  simp only [Finset.mem_union, List.mem_toFinset, List.mem_map, List.mem_filter,
    List.mem_flatMap, List.mem_cons, List.mem_singleton, List.not_mem_nil, or_false,
    decide_eq_true_eq]
  constructor
  · rintro (⟨r, hr, e⟩ | ⟨⟨r, hr, e⟩, hx⟩)
    · exact ⟨r, hr, Or.inl e⟩
    · refine ⟨r, hr, Or.inr ⟨hx, ?_⟩⟩
      rcases e with e | e | e
      · exact Or.inl e.symm
      · exact Or.inr (Or.inl e.symm)
      · exact Or.inr (Or.inr e.symm)
  · rintro ⟨r, hr, e | ⟨hx, e⟩⟩
    · exact Or.inl ⟨r, hr, e⟩
    · refine Or.inr ⟨⟨r, hr, ?_⟩, hx⟩
      rcases e with e | e | e
      · exact Or.inl e.symm
      · exact Or.inr (Or.inl e.symm)
      · exact Or.inr (Or.inr e.symm)

theorem slot_zero_mem (s : SectionRec α) (r : VertexRec α) (hr : r ∈ s.verts) :
    r.b0 ∈ sectionSet s :=
  (mem_sectionSet s r.b0).mpr ⟨r, hr, Or.inl rfl⟩

theorem slot_mem_or_zero (s : SectionRec α) (r : VertexRec α) (hr : r ∈ s.verts) (k : Fin 4) :
    ∃ x : Nat, r.slots k = (x : Int) ∧ (x = 0 ∨ x ∈ sectionSet s) := by
  fin_cases k
  · exact ⟨r.b0, rfl, Or.inr (slot_zero_mem s r hr)⟩
  · refine ⟨r.b1, rfl, ?_⟩
    by_cases h : r.b1 = 0
    · exact Or.inl h
    · exact Or.inr ((mem_sectionSet s r.b1).mpr ⟨r, hr, Or.inr ⟨h, Or.inl rfl⟩⟩)
  · refine ⟨r.b2, rfl, ?_⟩
    by_cases h : r.b2 = 0
    · exact Or.inl h
    · exact Or.inr ((mem_sectionSet s r.b2).mpr ⟨r, hr, Or.inr ⟨h, Or.inr (Or.inl rfl)⟩⟩)
  · refine ⟨r.b3, rfl, ?_⟩
    by_cases h : r.b3 = 0
    · exact Or.inl h
    · exact Or.inr ((mem_sectionSet s r.b3).mpr ⟨r, hr, Or.inr ⟨h, Or.inr (Or.inr rfl)⟩⟩)

theorem mem_sectionSet_slot (s : SectionRec α) (x : Nat) (hx : x ∈ sectionSet s) :
    ∃ r ∈ s.verts, ∃ k : Fin 4, r.slots k = (x : Int) := by
  obtain ⟨r, hr, e | ⟨_, e | e | e⟩⟩ := (mem_sectionSet s x).mp hx
  · exact ⟨r, hr, 0, by rw [← e]; rfl⟩
  · exact ⟨r, hr, 1, by rw [← e]; rfl⟩
  · exact ⟨r, hr, 2, by rw [← e]; rfl⟩
  · exact ⟨r, hr, 3, by rw [← e]; rfl⟩

theorem batchCover_nil : BatchCover ([] : List (SectionRec α)) [] [] := by
  refine ⟨rfl, ?_, ?_⟩
  · intro i b h; simp at h
  · intro b S h; simp at h

theorem batchCover_extend (done : List (SectionRec α)) (sets pre : List (Finset Nat))
    (batch : List Nat) (U : Finset Nat) (s : SectionRec α)
    (hinv : BatchCover done sets batch)
    (hpre : ∀ b, b < pre.length → pre[b]? = sets[b]?)
    (hsl : sets.length ≤ pre.length + 1)
    (hU : ∀ x, x ∈ U ↔ x ∈ sectionSet s ∨ ∃ (i : Nat) (s' : SectionRec α),
      batch[i]? = some pre.length ∧ done[i]? = some s' ∧ x ∈ sectionSet s') :
    BatchCover (done ++ [s]) (pre ++ [U]) (batch ++ [pre.length]) := by
  obtain ⟨hlenB, hval, hcov⟩ := hinv
  have hold : ∀ (i b : Nat), batch[i]? = some b → i < batch.length := by
    intro i b h
    by_contra hge
    rw [List.getElem?_eq_none (by omega)] at h
    cases h
  have hnew : ∀ (i b : Nat), (batch ++ [pre.length])[i]? = some b →
      (i < batch.length ∧ batch[i]? = some b) ∨ (i = batch.length ∧ b = pre.length) := by
    intro i b h
    rw [List.getElem?_append] at h
    by_cases hi : i < batch.length
    · rw [if_pos hi] at h
      exact Or.inl ⟨hi, h⟩
    · rw [if_neg hi] at h
      have hi0 : i - batch.length = 0 := by
        by_contra hne
        rw [List.getElem?_eq_none (by simp; omega)] at h
        cases h
      rw [hi0] at h
      simp only [List.getElem?_cons_zero, Option.some.injEq] at h
      exact Or.inr ⟨by omega, h.symm⟩
  refine ⟨by simp [hlenB], ?_, ?_⟩
  · intro i b h
    rcases hnew i b h with ⟨_, h1⟩ | ⟨_, h1⟩
    · have := hval i b h1
      simp only [List.length_append, List.length_singleton]
      omega
    · simp only [List.length_append, List.length_singleton]
      omega
  · intro b S hS x
    rw [List.getElem?_append] at hS
    by_cases hb : b < pre.length
    · rw [if_pos hb, hpre b hb] at hS
      rw [hcov b S hS x]
      constructor
      · rintro ⟨i, s', h1, h2, h3⟩
        have hi := hold i b h1
        refine ⟨i, s', ?_, ?_, h3⟩
        · rw [List.getElem?_append_left hi]; exact h1
        · rw [List.getElem?_append_left (by omega)]; exact h2
      · rintro ⟨i, s', h1, h2, h3⟩
        rcases hnew i b h1 with ⟨hi, h1'⟩ | ⟨_, h1'⟩
        · refine ⟨i, s', h1', ?_, h3⟩
          rw [List.getElem?_append_left (by omega)] at h2
          exact h2
        · omega
    · rw [if_neg hb] at hS
      have hb0 : b = pre.length := by
        by_contra hne
        rw [List.getElem?_eq_none (by simp; omega)] at hS
        cases hS
      subst hb0
      simp only [Nat.sub_self, List.getElem?_cons_zero, Option.some.injEq] at hS
      subst hS
      rw [hU x]
      constructor
      · rintro (hx | ⟨i, s', h1, h2, h3⟩)
        · refine ⟨batch.length, s, by simp, ?_, hx⟩
          rw [hlenB]
          simp
        · have hi := hold i _ h1
          refine ⟨i, s', ?_, ?_, h3⟩
          · rw [List.getElem?_append_left hi]; exact h1
          · rw [List.getElem?_append_left (by omega)]; exact h2
      · rintro ⟨i, s', h1, h2, h3⟩
        rcases hnew i _ h1 with ⟨hi, h1'⟩ | ⟨hi, _⟩
        · right
          refine ⟨i, s', h1', ?_, h3⟩
          rw [List.getElem?_append_left (by omega)] at h2
          exact h2
        · left
          rw [hi, hlenB] at h2
          simp only [List.getElem?_concat_length, Option.some.injEq] at h2
          rw [h2]
          exact h3

end CoverLemmas

section RangeLemmas

variable {α : Type} [Ring α]

theorem sectionStep_cover (done : List (SectionRec α)) (st st' : Pass2State α) (i : Nat)
    (s : SectionRec α)
    (hinv : BatchCover done st.bone_mapping_section st.bone_map_section_to_batch)
    (h : sectionStep st i s = Except.ok st') :
    BatchCover (done ++ [s]) st'.bone_mapping_section st'.bone_map_section_to_batch := by
  obtain ⟨_, _, last, hlast, hsets, hbat⟩ := sectionStep_sets st st' i s h
  by_cases hc : isComplete (sectionSet s) = true
  · rw [if_pos hc] at hlast hsets hbat
    rw [List.getLast?_concat] at hlast
    cases hlast
    rw [List.dropLast_concat, Finset.empty_union] at hsets
    rw [List.length_append, List.length_singleton, Nat.add_sub_cancel] at hbat
    rw [hsets, hbat]
    refine batchCover_extend done _ _ _ _ s hinv (fun b _ => rfl) (by omega) ?_
    intro x
    constructor
    · intro hx; exact Or.inl hx
    · rintro (hx | ⟨j, s', h1, _, _⟩)
      · exact hx
      · have := hinv.2.1 j _ h1
        omega
  · rw [if_neg hc] at hlast hsets hbat
    have hdl := List.dropLast_append_getLast? last hlast
    have hlen : st.bone_mapping_section.length = st.bone_mapping_section.dropLast.length + 1 := by
      conv_lhs => rw [← hdl]
      simp
    have hbl : st.bone_mapping_section.length - 1 = st.bone_mapping_section.dropLast.length := by
      omega
    rw [hbl] at hbat
    rw [hsets, hbat]
    refine batchCover_extend done _ _ _ _ s hinv ?_ (by omega) ?_
    · intro b hb
      conv_rhs => rw [← hdl]
      rw [List.getElem?_append_left hb]
    · intro x
      have hl : st.bone_mapping_section[st.bone_mapping_section.dropLast.length]? = some last := by
        conv_lhs => rw [← hdl]
        simp
      rw [Finset.mem_union, hinv.2.2 _ last hl x]
      exact or_comm

theorem pass2From_cover (secs : List (SectionRec α)) :
    ∀ (i : Nat) (done : List (SectionRec α)) (st st' : Pass2State α),
      BatchCover done st.bone_mapping_section st.bone_map_section_to_batch →
      pass2From i st secs = Except.ok st' →
      BatchCover (done ++ secs) st'.bone_mapping_section st'.bone_map_section_to_batch := by
  induction secs with
  | nil =>
    intro i done st st' hinv h
    simp only [pass2From, Except.ok.injEq] at h
    subst h
    simpa using hinv
  | cons s rest ih =>
    intro i done st st' hinv h
    simp only [pass2From] at h
    cases hstep : sectionStep st i s with
    | error e =>
      rw [hstep] at h
      cases h
    | ok st1 =>
      rw [hstep] at h
      have h1 := sectionStep_cover done st st1 i s hinv hstep
      have h2 := ih (i + 1) (done ++ [s]) st1 st' h1 h
      simpa using h2

theorem pass2_cover (secs : List (SectionRec α)) (st : Pass2State α)
    (h : pass2 secs = Except.ok st) :
    BatchCover secs st.bone_mapping_section st.bone_map_section_to_batch := by
  have := pass2From_cover secs 0 [] pass2Init st batchCover_nil h
  simpa using this

theorem readTable_rows (sets : List (Finset Nat)) :
    ∀ (table : List Int) (rows : List (List Int)), readTable sets table = Except.ok rows →
      ∀ (b : Nat) (S : Finset Nat), sets[b]? = some S →
        ∃ row, rows[b]? = some row ∧ row.length = S.card := by
  induction sets with
  | nil => intro table rows _ b S hS; simp at hS
  | cons s rest ih =>
    intro table rows h b S hS
    unfold readTable at h
    by_cases hl : s.card ≤ table.length
    · rw [if_pos hl] at h
      cases hr : readTable rest (table.drop s.card) with
      | error e =>
        rw [hr] at h
        cases h
      | ok rows' =>
        rw [hr] at h
        simp only [Except.ok.injEq] at h
        subst h
        cases b with
        | zero =>
          simp only [List.getElem?_cons_zero, Option.some.injEq] at hS
          subst hS
          exact ⟨table.take s.card, List.getElem?_cons_zero, by rw [List.length_take]; omega⟩
        | succ b =>
          simp only [List.getElem?_cons_succ] at hS ⊢
          exact ih _ rows' hr b S hS
    · rw [if_neg hl] at h
      cases h

theorem remapSlot_ok_iff (row : List Int) (v : Int) (hv : 0 ≤ v) :
    (∃ y, remapSlot row v = Except.ok y) ↔ v < (row.length : Int) := by
  unfold remapSlot
  rw [readAt_of_nonneg row v hv]
  by_cases hlt : v.toNat < row.length
  · rw [List.getElem?_eq_getElem hlt]
    simp only [Except.ok.injEq, exists_eq', true_iff]
    omega
  · rw [List.getElem?_eq_none (by omega)]
    simp only [reduceCtorEq, exists_false, false_iff]
    omega

omit [Ring α] in
theorem slots_nonneg (r : VertexRec α) (k : Fin 4) : 0 ≤ r.slots k := by
  fin_cases k <;> simp [VertexRec.slots]

theorem lookups_below_iff (secs : List (SectionRec α)) (st : Pass2State α)
    (h2 : pass2 secs = Except.ok st) (b : Nat) (S : Finset Nat)
    (hS : st.bone_mapping_section[b]? = some S) :
    (∀ (i : Nat) (s : SectionRec α), st.bone_map_section_to_batch[i]? = some b →
        secs[i]? = some s → ∀ r ∈ s.verts, ∀ k : Fin 4, r.slots k < (S.card : Int))
      ↔ S = Finset.range S.card := by
  obtain ⟨_, _, hcov⟩ := pass2_cover secs st h2
  rw [← below_card_iff_range]
  constructor
  · intro hP x hx
    obtain ⟨i, s, hbi, hsi, hxs⟩ := (hcov b S hS x).mp hx
    obtain ⟨r, hr, k, e⟩ := mem_sectionSet_slot s x hxs
    have := hP i s hbi hsi r hr k
    rw [e] at this
    exact_mod_cast this
  · intro hx i s hbi hsi r hr k
    obtain ⟨x, e, hx0⟩ := slot_mem_or_zero s r hr k
    have hb0 : r.b0 ∈ S := (hcov b S hS r.b0).mpr ⟨i, s, hbi, hsi, slot_zero_mem s r hr⟩
    have hpos : 0 < S.card := Finset.card_pos.mpr ⟨_, hb0⟩
    rw [e]
    rcases hx0 with h0 | hxs
    · rw [h0]
      exact_mod_cast hpos
    · have := hx x ((hcov b S hS x).mpr ⟨i, s, hbi, hsi, hxs⟩)
      exact_mod_cast this

end RangeLemmas

theorem gapExample_pass2 :
    ∃ st, pass2 gapExample = Except.ok st ∧ st.bone_map_section_to_batch = [0, 0] ∧
      st.bone_mapping_section = [{0, 1, 2, 5}] :=
  ⟨_, rfl, rfl, by decide⟩

theorem gapExample_decode :
    readTable [{0, 1, 2, 5}] [10, 11, 12, 13] = Except.ok [[10, 11, 12, 13]] ∧
      remapSlot [10, 11, 12, 13] 5 = Except.error DecodeError.indexRead ∧
      readSections gapExample [10, 11, 12, 13] = Except.error DecodeError.indexRead :=
  ⟨rfl, rfl, rfl⟩

/-- C22: for a batch `b` of a decoded mesh whose accumulated index set is `S`,
the remap row of the batch has `|S|` entries, and every lookup `row[x]` made
in pass 3 for the vertices of the sections recorded for `b` is in range
(`x < |S|`) if and only if `S = {0, ..., |S| - 1}`; the sections with the sets
`{0,1,2}` and `{5}` share batch 0, whose row has 4 entries and is read at
index 5. -/
theorem remap_lookup_range {α : Type} [Ring α] (secs : List (SectionRec α)) (table : List Int)
    (st : Pass2State α) (rows : List (List Int)) (h2 : pass2 secs = Except.ok st)
    (ht : readTable st.bone_mapping_section table = Except.ok rows)
    (b : Nat) (S : Finset Nat) (hS : st.bone_mapping_section[b]? = some S) :
    (∃ row, rows[b]? = some row ∧ row.length = S.card ∧
      ((∀ (i : Nat) (s : SectionRec α), st.bone_map_section_to_batch[i]? = some b →
          secs[i]? = some s → ∀ r ∈ s.verts, ∀ k : Fin 4,
            ∃ y, remapSlot row (r.slots k) = Except.ok y) ↔ S = Finset.range S.card)) ∧
      ((∀ (i : Nat) (s : SectionRec α), st.bone_map_section_to_batch[i]? = some b →
          secs[i]? = some s → ∀ r ∈ s.verts, ∀ k : Fin 4, r.slots k < (S.card : Int))
        ↔ S = Finset.range S.card) ∧
      (∃ st', pass2 gapExample = Except.ok st' ∧ st'.bone_map_section_to_batch = [0, 0] ∧
        st'.bone_mapping_section = [{0, 1, 2, 5}]) ∧
      readTable [{0, 1, 2, 5}] [10, 11, 12, 13] = Except.ok [[10, 11, 12, 13]] ∧
      remapSlot [10, 11, 12, 13] 5 = Except.error DecodeError.indexRead ∧
      readSections gapExample [10, 11, 12, 13] = Except.error DecodeError.indexRead := by
  have hiff := lookups_below_iff secs st h2 b S hS
  obtain ⟨row, hrow, hrl⟩ := readTable_rows st.bone_mapping_section table rows ht b S hS
  refine ⟨⟨row, hrow, hrl, ?_⟩, hiff, gapExample_pass2, gapExample_decode⟩
  rw [← hiff]
  constructor
  · intro h i s hbi hsi r hr k
    have := (remapSlot_ok_iff row (r.slots k) (slots_nonneg r k)).mp (h i s hbi hsi r hr k)
    rw [hrl] at this
    exact this
  · intro h i s hbi hsi r hr k
    apply (remapSlot_ok_iff row (r.slots k) (slots_nonneg r k)).mpr
    rw [hrl]
    exact h i s hbi hsi r hr k

theorem remap_lookup_range_witness :
    ∃ st rows, pass2 gapExample = Except.ok st ∧
      readTable st.bone_mapping_section [10, 11, 12, 13] = Except.ok rows ∧
      st.bone_mapping_section[0]? = some {0, 1, 2, 5} ∧
      ¬ (∀ (i : Nat) (s : SectionRec ℤ), st.bone_map_section_to_batch[i]? = some 0 →
        gapExample[i]? = some s → ∀ r ∈ s.verts, ∀ k : Fin 4,
          r.slots k < ((({0, 1, 2, 5} : Finset Nat).card : Nat) : Int)) := by
  obtain ⟨st, h2, _, hs⟩ := gapExample_pass2
  have ht : readTable st.bone_mapping_section [10, 11, 12, 13]
      = Except.ok [[10, 11, 12, 13]] := by
    rw [hs]; rfl
  have hS : st.bone_mapping_section[0]? = some {0, 1, 2, 5} := by
    rw [hs]; rfl
  refine ⟨st, _, h2, ht, hS, ?_⟩
  rw [(remap_lookup_range gapExample [10, 11, 12, 13] st _ h2 ht 0 {0, 1, 2, 5} hS).2.1]
  decide

/-! ## The world matrices of `EvalDance` in closed form -/

section WorldLemmas

variable {α : Type} [Field α]

theorem basis_correction (Mi Mp : Mat4 α) (hi : Mi.det ≠ 0) (hp : Mp.det ≠ 0) :
    inverse (inverse Mp * Mi) = inverse Mi * Mp := by
  apply inverse_eq_of_mul_eq_one
  calc inverse Mp * Mi * (inverse Mi * Mp)
      = inverse Mp * (Mi * inverse Mi) * Mp := by simp only [Matrix.mul_assoc]
    _ = 1 := by rw [mul_inverse_cancel Mi hi, Matrix.mul_one, inverse_mul_cancel Mp hp]

theorem world_simplify (W Mi Mp L : Mat4 α) (hi : Mi.det ≠ 0) (hp : Mp.det ≠ 0) :
    W * (Mi * (inverse (inverse Mp * Mi) * L) * inverse Mi) = W * Mp * L * inverse Mi := by
  rw [basis_correction Mi Mp hi hp]
  calc W * (Mi * (inverse Mi * Mp * L) * inverse Mi)
      = W * ((Mi * inverse Mi) * Mp * L * inverse Mi) := by simp only [Matrix.mul_assoc]
    _ = W * Mp * L * inverse Mi := by
      rw [mul_inverse_cancel Mi hi, Matrix.one_mul]
      simp only [Matrix.mul_assoc]

theorem localMat_root (bones : Bones α) (anm : Anm α) (i : Nat) (p : Int) (Mi : Mat4 α)
    (t : Vec3 α) (q : Vec4 α) (hp : bones.parent[i]? = some p) (hm : bindMat bones i = some Mi)
    (ht : anm.verts[i]? = some t) (hq : anm.rot[i]? = some q) (hneg : p < 0) :
    localMat bones anm i = some (Mi * animMat t q * inverse Mi) := by
  unfold localMat
  rw [hm, hq, ht, hp]
  simp only [Option.bind_eq_bind, Option.some_bind]
  rw [if_neg (by omega)]
  rfl

theorem localMat_child (bones : Bones α) (anm : Anm α) (i : Nat) (p : Int) (Mi Mp : Mat4 α)
    (t : Vec3 α) (q : Vec4 α) (hp : bones.parent[i]? = some p) (hm : bindMat bones i = some Mi)
    (hmp : bindMat bones p = some Mp)
    (ht : anm.verts[i]? = some t) (hq : anm.rot[i]? = some q) (hpos : 0 ≤ p) :
    localMat bones anm i
      = some (Mi * (inverse (inverse Mp * Mi) * animMat t q) * inverse Mi) := by
  unfold localMat
  rw [hm, hq, ht, hp]
  simp only [Option.bind_eq_bind, Option.some_bind]
  rw [if_pos hpos, hmp]
  rfl

theorem boneStep_total (bones : Bones α) (anm : Anm α) (hs : SizesAgree bones anm)
    (ms : List (Mat4 α)) (hms : ms.length = bones.verts.length) (i : Nat)
    (hi : i < bones.verts.length) (p : Int) (hp : bones.parent[i]? = some p)
    (hlt : p < (bones.verts.length : Int)) :
    ∃ l ms', localMat bones anm i = some l ∧ boneStep bones anm ms i = some ms' ∧
      ms'.length = ms.length ∧ (∀ j, j ≠ i → ms'[j]? = ms[j]?) ∧
      (p < 0 → ms'[i]? = some l) ∧
      (0 ≤ p → p < (i : Int) → ∃ W, readAt ms p = some W ∧ ms'[i]? = some (W * l)) := by
  obtain ⟨l, hl⟩ := localMat_isSome bones anm hs i hi p hp (by omega)
  have hi' : i < ms.length := by omega
  unfold boneStep
  rw [hl, hp]
  simp only [Option.bind_eq_bind, Option.some_bind, writeAt, hi', if_true]
  by_cases h0 : 0 ≤ p
  · have hpn : p.toNat < (ms.set i l).length := by rw [List.length_set]; omega
    rw [if_pos h0, readAt_of_nonneg _ p h0, List.getElem?_eq_getElem hpn,
      List.getElem?_set_self hi']
    simp only [Option.some_bind, List.length_set, hi', if_true, List.set_set]
    refine ⟨l, _, rfl, rfl, by simp, ?_, fun h => absurd h0 (by omega), fun _ hpi => ?_⟩
    · intro j hj
      rw [List.getElem?_set_ne (Ne.symm hj)]
    · have hpn' : p.toNat < ms.length := by omega
      have hne : i ≠ p.toNat := by omega
      refine ⟨ms[p.toNat], ?_, ?_⟩
      · rw [readAt_of_nonneg _ p h0, List.getElem?_eq_getElem hpn']
      · rw [List.getElem?_set_self hi', List.getElem_set_ne hne]
  · rw [if_neg h0]
    refine ⟨l, _, rfl, rfl, by simp, ?_, fun _ => ?_, fun h => absurd h h0⟩
    · intro j hj
      rw [List.getElem?_set_ne (Ne.symm hj)]
    · rw [List.getElem?_set_self hi']

theorem evalBones_total_upto (dflt : Mat4 α) (bones : Bones α) (anm : Anm α)
    (hs : SizesAgree bones anm)
    (hpar : ∀ (i : Nat) (p : Int), bones.parent[i]? = some p → p < (bones.verts.length : Int))
    (k : Nat) (hk : k ≤ bones.verts.length) :
    ∃ ms, (List.range k).foldlM (boneStep bones anm)
        (List.replicate bones.verts.length dflt) = some ms ∧
      ms.length = bones.verts.length ∧
      ∀ (j : Nat) (p : Int), j < k → bones.parent[j]? = some p → p < (j : Int) →
        IsWorld bones anm ms j := by
  induction k with
  | zero => exact ⟨_, rfl, by simp, fun j _ hj => absurd hj (Nat.not_lt_zero j)⟩
  | succ k ih =>
    obtain ⟨ms, hms, hlen, hw⟩ := ih (Nat.le_of_succ_le hk)
    have hkp : k < bones.parent.length := by rw [hs.1]; omega
    obtain ⟨l, ms', hl, hstep, hlen', hother, hneg, hpos⟩ := boneStep_total bones anm hs ms hlen k
      (by omega) bones.parent[k] (List.getElem?_eq_getElem hkp)
      (hpar k _ (List.getElem?_eq_getElem hkp))
    refine ⟨ms', ?_, by rw [hlen', hlen], ?_⟩
    · rw [List.range_succ, List.foldlM_append, hms]
      simp only [Option.bind_eq_bind, Option.some_bind, List.foldlM_cons, List.foldlM_nil,
        Option.bind_some, hstep]
      rfl
    · intro j p hj hjp hpj
      rcases Nat.lt_succ_iff_lt_or_eq.mp hj with hjk | hjk
      · obtain ⟨lj, pj, h1, h2, h3, h4⟩ := hw j p hjk hjp hpj
        rw [hjp] at h2
        cases h2
        refine ⟨lj, p, h1, hjp, fun h => ?_, fun h => ?_⟩
        · rw [hother j (by omega)]; exact h3 h
        · obtain ⟨W, hW, hWl⟩ := h4 h
          refine ⟨W, ?_, ?_⟩
          · rw [readAt_of_nonneg _ p h, hother _ (by omega), ← readAt_of_nonneg _ p h]
            exact hW
          · rw [hother j (by omega)]; exact hWl
      · subst hjk
        rw [List.getElem?_eq_getElem hkp] at hjp
        cases hjp
        refine ⟨l, bones.parent[j], hl, List.getElem?_eq_getElem hkp, hneg, fun h => ?_⟩
        obtain ⟨W, hW, hWl⟩ := hpos h hpj
        refine ⟨W, ?_, hWl⟩
        rw [readAt_of_nonneg _ _ h, hother _ (by omega), ← readAt_of_nonneg _ _ h]
        exact hW

end WorldLemmas

/-- C23: for every skeleton whose parent indices are below the bone count the
bone loop produces world matrices `ms` such that a bone `i` without a parent
has `ms[i] = M_i * L_i * inverse(M_i)`, and a bone `i` with a parent `p < i`
whose bind matrices `M_i`, `M_p` are invertible has the computed matrix
`ms[p] * (M_i * (inverse(inverse(M_p) * M_i) * L_i) * inverse(M_i))`, which
equals `ms[p] * M_p * L_i * inverse(M_i)`, where
`L_i = translate(t_i) * rotate(q_i)`. -/
theorem world_matrix_closed_form {α : Type} [Field α] (dflt : Mat4 α) (bones : Bones α)
    (anm : Anm α) (hs : SizesAgree bones anm)
    (hpar : ∀ (i : Nat) (p : Int), bones.parent[i]? = some p → p < (bones.verts.length : Int)) :
    ∃ ms, evalBones dflt bones anm = some ms ∧ ms.length = bones.verts.length ∧
      ∀ (i : Nat) (p : Int) (Mi : Mat4 α) (t : Vec3 α) (q : Vec4 α),
        bones.parent[i]? = some p → bindMat bones i = some Mi →
        anm.verts[i]? = some t → anm.rot[i]? = some q →
        (p < 0 → ms[i]? = some (Mi * animMat t q * inverse Mi)) ∧
        (0 ≤ p → p < (i : Int) → ∀ Mp, bindMat bones p = some Mp →
          Mi.det ≠ 0 → Mp.det ≠ 0 →
          ∃ Wp, readAt ms p = some Wp ∧
            ms[i]? = some (Wp * (Mi * (inverse (inverse Mp * Mi) * animMat t q) * inverse Mi)) ∧
            Wp * (Mi * (inverse (inverse Mp * Mi) * animMat t q) * inverse Mi)
              = Wp * Mp * animMat t q * inverse Mi ∧
            ms[i]? = some (Wp * Mp * animMat t q * inverse Mi)) := by
  obtain ⟨ms, hms, hlen, hw⟩ :=
    evalBones_total_upto dflt bones anm hs hpar bones.verts.length (le_refl _)
  refine ⟨ms, hms, hlen, ?_⟩
  intro i p Mi t q hp hm ht hq
  have hi : i < bones.verts.length := by
    by_contra hge
    rw [List.getElem?_eq_none (by rw [hs.1]; omega)] at hp
    cases hp
  constructor
  · intro hneg
    obtain ⟨l, p', h1, h2, h3, _⟩ := hw i p hi hp (by omega)
    rw [hp] at h2
    cases h2
    rw [localMat_root bones anm i p Mi t q hp hm ht hq hneg] at h1
    cases h1
    exact h3 hneg
  · intro hpos hlt Mp hmp hdi hdp
    obtain ⟨l, p', h1, h2, _, h4⟩ := hw i p hi hp hlt
    rw [hp] at h2
    cases h2
    rw [localMat_child bones anm i p Mi Mp t q hp hm hmp ht hq hpos] at h1
    cases h1
    obtain ⟨W, hW, hWl⟩ := h4 hpos
    have hsimp := world_simplify W Mi Mp (animMat t q) hdi hdp
    exact ⟨W, hW, hWl, hsimp, by rw [hWl, hsimp]⟩

theorem childBones_sizes : SizesAgree childBones idAnm :=
  ⟨rfl, rfl, rfl, rfl, rfl, rfl, rfl⟩

theorem childBones_parent_lt (i : Nat) (p : Int) (h : childBones.parent[i]? = some p) :
    p < (childBones.verts.length : Int) := by
  match i, h with
  | 0, h =>
    have h' : some (-1 : Int) = some p := h
    cases h'
    decide
  | 1, h =>
    have h' : some (0 : Int) = some p := h
    cases h'
    decide
  | n + 2, h =>
    have h' : (none : Option Int) = some p := h
    cases h'

theorem world_matrix_closed_form_witness :
    SizesAgree childBones idAnm ∧
      (∀ (i : Nat) (p : Int), childBones.parent[i]? = some p →
        p < (childBones.verts.length : Int)) ∧
      ∃ ms Wp, evalBones 0 childBones idAnm = some ms ∧ readAt ms 0 = some Wp ∧
        ms[1]? = some (Wp * 1 * animMat ![0, 0, 0] ![0, 0, 0, 1]
          * inverse (translate ![1, 0, 0])) := by
  obtain ⟨ms, h1, _, h3⟩ :=
    world_matrix_closed_form 0 childBones idAnm childBones_sizes childBones_parent_lt
  obtain ⟨Wp, hW, _, _, hfin⟩ := (h3 1 0 (translate ![1, 0, 0]) ![0, 0, 0] ![0, 0, 0, 1] rfl
    bindMat_childBones_one rfl rfl).2 (by decide) (by decide) 1 bindMat_childBones_zero
    det_shift (by simp)
  exact ⟨childBones_sizes, childBones_parent_lt, ms, Wp, h1, hW, hfin⟩

/-! ## Properties of the bone records of `ReadDanceMesh` -/

section RecordLemmas

variable {α : Type} [LinearOrderedField α]

omit [LinearOrderedField α] in
theorem vec4f_castSucc (file : FileView α) (off : Nat) (j : Fin 3) :
    file.vec4f off j.castSucc = file.vec3f off j := by
  fin_cases j <;> rfl

theorem record_offsets (cur : Nat) (h : (16 * 1 + cur) % 2 ^ 32 + 48 < 2 ^ 32) :
    (16 * 4 + cur) % 2 ^ 32 = (16 * 1 + cur) % 2 ^ 32 + 48 := by
  have e : (2 : Nat) ^ 32 = 4294967296 := by norm_num
  rw [e] at h ⊢
  omega

omit [LinearOrderedField α] in
theorem linkParent_fields (st st' : BoneLoop α) (i : Nat) (p : Int)
    (h : linkParent st i p = some st') :
    st'.verts = st.verts ∧ st'.c1 = st.c1 ∧ st'.c2 = st.c2 ∧ st'.c3 = st.c3 ∧
      st'.c4 = st.c4 := by
  unfold linkParent at h
  by_cases hp : p ≠ -1
  · rw [if_pos hp] at h
    cases hr : readAt st.childCount p with
    | none =>
      rw [hr] at h
      cases h
    | some c =>
      rw [hr] at h
      simp only [Option.some.injEq] at h
      subst h
      exact ⟨rfl, rfl, rfl, rfl, rfl⟩
  · rw [if_neg hp] at h
    simp only [Option.some.injEq] at h
    subst h
    exact ⟨rfl, rfl, rfl, rfl, rfl⟩

theorem boneRecords_upto (file : FileView α) (bone_ptr : Nat) (init : BoneLoop α)
    (hv : init.verts = []) (h4 : init.c4 = []) (k : Nat) :
    ∀ st, (List.range k).foldlM (boneRecordStep file bone_ptr) init = some st →
      st.verts = (List.range k).map
        (fun i => file.vec3f ((16 * 4 + boneRecordPtr bone_ptr i) % 2 ^ 32)) ∧
      st.c4 = (List.range k).map
        (fun i => snapBasis (file.vec4f ((16 * 1 + boneRecordPtr bone_ptr i) % 2 ^ 32 + 48))) := by
  induction k with
  | zero =>
    intro st h
    simp only [List.range_zero, List.foldlM_nil, Option.pure_def, Option.some.injEq] at h
    subst h
    exact ⟨hv, h4⟩
  | succ k ih =>
    intro st h
    rw [List.range_succ, List.foldlM_append] at h
    cases hmid : (List.range k).foldlM (boneRecordStep file bone_ptr) init with
    | none =>
      rw [hmid] at h
      cases h
    | some mid =>
      rw [hmid] at h
      simp only [Option.bind_eq_bind, Option.some_bind, List.foldlM_cons, List.foldlM_nil,
        Option.pure_def, Option.bind_some] at h
      obtain ⟨e1, e2⟩ := ih mid hmid
      unfold boneRecordStep at h
      obtain ⟨f1, _, _, _, f5⟩ := linkParent_fields _ _ _ _ h
      simp only at f1 f5
      rw [f1, f5, e1, e2, List.range_succ, List.map_append, List.map_append]
      exact ⟨rfl, rfl⟩

end RecordLemmas

/-- C24: the bone loop (which returns for every parent array whose entries
are `-1` or in `[0, boneCount)`) stores for every bone `i` the position read
at record offset 64 unchanged, and the snapped fourth basis vector read after
`c1`, `c2`, `c3` from record offset 16 on; for a record whose basis vectors lie
below the file offset `2 ^ 32` both reads start at the same offset, so that for
`j < 3` the stored `c4[j]` is `position[j]` when `|position[j]| >= 1e-5` and
`0` otherwise. -/
theorem bind_position_shares_c4 {α : Type} [LinearOrderedField α] (file : FileView α)
    (bone_count bone_ptr : Nat) :
    ((∀ i, i < bone_count → parentAt file bone_ptr i = -1 ∨
        (0 ≤ parentAt file bone_ptr i ∧ parentAt file bone_ptr i < (bone_count : Int))) →
      ∃ st, boneLoopFrom file bone_count bone_ptr = some st) ∧
    ∀ st, boneLoopFrom file bone_count bone_ptr = some st →
      ∀ i, i < bone_count →
        ∃ pos c, st.verts[i]? = some pos ∧ st.c4[i]? = some c ∧
          pos = file.vec3f ((16 * 4 + boneRecordPtr bone_ptr i) % 2 ^ 32) ∧
          c = snapBasis (file.vec4f ((16 * 1 + boneRecordPtr bone_ptr i) % 2 ^ 32 + 48)) ∧
          ((16 * 1 + boneRecordPtr bone_ptr i) % 2 ^ 32 + 48 < 2 ^ 32 →
            (16 * 4 + boneRecordPtr bone_ptr i) % 2 ^ 32
              = (16 * 1 + boneRecordPtr bone_ptr i) % 2 ^ 32 + 48 ∧
            ∀ j : Fin 3, (0.00001 ≤ |pos j| → c j.castSucc = pos j) ∧
              (|pos j| < 0.00001 → c j.castSucc = 0)) := by
  constructor
  · intro hpar
    obtain ⟨st, hst, _⟩ := boneLoop_upto file bone_count bone_ptr hpar bone_count (le_refl _)
    exact ⟨st, hst⟩
  · intro st hst i hi
    obtain ⟨e1, e2⟩ := boneRecords_upto file bone_ptr _ rfl rfl bone_count st hst
    refine ⟨_, _, ?_, ?_, rfl, rfl, ?_⟩
    · rw [e1, List.getElem?_map, List.getElem?_range hi]
      rfl
    · rw [e2, List.getElem?_map, List.getElem?_range hi]
      rfl
    · intro hfit
      have hoff := record_offsets (boneRecordPtr bone_ptr i) hfit
      refine ⟨hoff, ?_⟩
      intro j
      rw [hoff]
      unfold snapBasis
      rw [vec4f_castSucc]
      constructor
      · intro h
        rw [if_neg (not_lt.mpr h)]
      · intro h
        rw [if_pos h]

theorem basisExample_parent (i : Nat) (_ : i < 1) :
    parentAt basisExample 0 i = -1 ∨
      (0 ≤ parentAt basisExample 0 i ∧ parentAt basisExample 0 i < ((1 : Nat) : Int)) :=
  Or.inl rfl

theorem bind_position_shares_c4_witness :
    (∀ i, i < 1 → parentAt basisExample 0 i = -1 ∨
        (0 ≤ parentAt basisExample 0 i ∧ parentAt basisExample 0 i < ((1 : Nat) : Int))) ∧
      (16 * 1 + boneRecordPtr 0 0) % 2 ^ 32 + 48 < 2 ^ 32 ∧
      ∃ st pos c, boneLoopFrom basisExample 1 0 = some st ∧
        st.verts[0]? = some pos ∧ st.c4[0]? = some c ∧
        pos 0 = 2 ∧ c 0 = 2 ∧ pos 1 = 1 / 1000000 ∧ c 1 = 0 := by
  have hfit : (16 * 1 + boneRecordPtr 0 0) % 2 ^ 32 + 48 < 2 ^ 32 := by decide
  obtain ⟨st, hst⟩ := (bind_position_shares_c4 basisExample 1 0).1 basisExample_parent
  obtain ⟨pos, c, h1, h2, h3, _, h5⟩ :=
    (bind_position_shares_c4 basisExample 1 0).2 st hst 0 (by decide)
  obtain ⟨_, hc⟩ := h5 hfit
  have p0 : pos 0 = 2 := by rw [h3]; rfl
  have p1 : pos 1 = 1 / 1000000 := by rw [h3]; rfl
  refine ⟨basisExample_parent, hfit, st, pos, c, hst, h1, h2, p0, ?_, p1, ?_⟩
  · have := (hc 0).1 (by rw [p0]; norm_num)
    rw [p0] at this
    exact this
  · exact (hc 1).2 (by rw [p1]; norm_num [abs_of_pos])

/-! ## The bookkeeping of pass 2 is well defined -/

theorem noVertexExample_pass2 :
    pass2 noVertexExample = Except.error DecodeError.emptyIndexSet := rfl

theorem noBatchExample_pass2 :
    pass2 noBatchExample = Except.error DecodeError.noBatch := rfl

/-- C25: if every section has at least one vertex and the distinct-index set
of section 0 is complete, then pass 2 never applies `max_element` to an empty
set or `back()` to an empty batch list, and (the stride assertion passing)
after each section `k` the batch list is non-empty, the batch recorded for
section `k` is below the number of batches, and no earlier section has a
larger batch; a section without vertices, and an incomplete first section,
break the bookkeeping. -/
theorem batch_bookkeeping {α : Type} [Ring α] (secs : List (SectionRec α))
    (hv : ∀ s ∈ secs, s.verts ≠ [])
    (h0 : ∀ s, secs.head? = some s → isComplete (sectionSet s) = true) :
    pass2 secs ≠ Except.error DecodeError.emptyIndexSet ∧
      pass2 secs ≠ Except.error DecodeError.noBatch ∧
      ((∀ s ∈ secs, s.fvf_size = 68) → ∀ k, k < secs.length →
        ∃ st b, pass2 (secs.take (k + 1)) = Except.ok st ∧
          pass2 secs = pass2From (k + 1) st (secs.drop (k + 1)) ∧
          st.bone_mapping_section ≠ [] ∧
          st.bone_map_section_to_batch.length = k + 1 ∧
          st.bone_map_section_to_batch[k]? = some b ∧
          b < st.bone_mapping_section.length ∧
          ∀ (j bj : Nat), j ≤ k → st.bone_map_section_to_batch[j]? = some bj → bj ≤ b) ∧
      ((∀ s ∈ secs, s.fvf_size = 68) → ∃ st, pass2 secs = Except.ok st ∧
        st.bone_map_section_to_batch.length = secs.length ∧
        (∀ (i b : Nat), st.bone_map_section_to_batch[i]? = some b →
          b < st.bone_mapping_section.length) ∧
        ∀ (i j bi bj : Nat), i ≤ j → st.bone_map_section_to_batch[i]? = some bi →
          st.bone_map_section_to_batch[j]? = some bj → bi ≤ bj) ∧
      pass2 noVertexExample = Except.error DecodeError.emptyIndexSet ∧
      pass2 noBatchExample = Except.error DecodeError.noBatch := by
  obtain ⟨hc1, hc2⟩ := pass2From_containers secs 0 pass2Init hv (Or.inr h0)
  refine ⟨hc1, hc2, ?_, ?_, noVertexExample_pass2, noBatchExample_pass2⟩
  · intro hf k hk
    have hsub : ∀ s ∈ secs.take (k + 1), s ∈ secs := fun s hs => List.mem_of_mem_take hs
    have hhead : ∀ s, (secs.take (k + 1)).head? = some s → isComplete (sectionSet s) = true := by
      intro s hs
      apply h0 s
      cases secs with
      | nil => simp at hk
      | cons x xs => simpa [List.take_succ_cons] using hs
    obtain ⟨st, hst, hb, hl, _, _⟩ := pass2From_spec (secs.take (k + 1)) 0 pass2Init
      (fun s hs => hf s (hsub s hs)) (fun s hs => hv s (hsub s hs)) (Or.inr hhead)
    have hlen : (secs.take (k + 1)).length = k + 1 := by
      rw [List.length_take]; omega
    simp only [pass2Init, List.nil_append, List.length_nil, Nat.zero_add, hlen] at hb hl
    have hpos := countP_take_pos (fun s => isComplete (sectionSet s)) secs h0 k hk
    have hget : ∀ j, j ≤ k → st.bone_map_section_to_batch[j]?
        = some ((secs.take (j + 1)).countP (fun s => isComplete (sectionSet s)) - 1) := by
      intro j hj
      rw [hb]
      simp only [List.getElem?_map, List.getElem?_range (by omega : j < k + 1), Option.map_some',
        List.take_take]
      rw [Nat.min_eq_left (by omega)]
    refine ⟨st, _, hst, ?_, ?_, ?_, hget k (le_refl k), ?_, ?_⟩
    · have happ := pass2From_append (secs.take (k + 1)) (secs.drop (k + 1)) 0 pass2Init
      rw [List.take_append_drop] at happ
      unfold pass2
      rw [happ, hst, hlen, Nat.zero_add]
    · intro e
      rw [e] at hl
      simp only [List.length_nil] at hl
      omega
    · rw [hb]; simp
    · rw [hl]; omega
    · intro j bj hj hbj
      rw [hget j hj] at hbj
      cases hbj
      have := countP_take_mono (fun s => isComplete (sectionSet s)) secs (j + 1) (k + 1) (by omega)
      omega
  · intro hf
    obtain ⟨st, hst, hb, hl, _, _⟩ := pass2From_spec secs 0 pass2Init hf hv (Or.inr h0)
    simp only [pass2Init, List.nil_append, List.length_nil, Nat.zero_add] at hb hl
    have hget : ∀ i b, st.bone_map_section_to_batch[i]? = some b → i < secs.length ∧
        b = (secs.take (i + 1)).countP (fun s => isComplete (sectionSet s)) - 1 := by
      intro i b hi
      rw [hb] at hi
      have hlt : i < secs.length := by
        by_contra hge
        rw [List.getElem?_eq_none (by simp; omega)] at hi
        cases hi
      simp only [List.getElem?_map, List.getElem?_range hlt, Option.map_some',
        Option.some.injEq] at hi
      exact ⟨hlt, hi.symm⟩
    refine ⟨st, hst, by rw [hb]; simp, ?_, ?_⟩
    · intro i b hi
      obtain ⟨hlt, e⟩ := hget i b hi
      have hpos := countP_take_pos (fun s => isComplete (sectionSet s)) secs h0 i hlt
      have hle := countP_take_mono (fun s => isComplete (sectionSet s)) secs (i + 1) secs.length
        (by omega)
      rw [List.take_length] at hle
      rw [hl]
      omega
    · intro i j bi bj hij hi hj
      obtain ⟨_, e1⟩ := hget i bi hi
      obtain ⟨_, e2⟩ := hget j bj hj
      have := countP_take_mono (fun s => isComplete (sectionSet s)) secs (i + 1) (j + 1) (by omega)
      omega

theorem batch_bookkeeping_witness :
    (∀ s ∈ batchExample, s.verts ≠ []) ∧
      (∀ s, batchExample.head? = some s → isComplete (sectionSet s) = true) ∧
      pass2 batchExample ≠ Except.error DecodeError.emptyIndexSet ∧
      pass2 batchExample ≠ Except.error DecodeError.noBatch :=
  have hv : ∀ s ∈ batchExample, s.verts ≠ [] := by
    intro s hs
    simp only [batchExample, List.mem_cons, List.mem_singleton, List.not_mem_nil, or_false] at hs
    rcases hs with h | h | h <;> subst h <;> simp
  have h0 : ∀ s, batchExample.head? = some s → isComplete (sectionSet s) = true := by
    intro s hs
    simp only [batchExample, List.head?_cons, Option.some.injEq] at hs
    subst hs
    decide
  ⟨hv, h0, (batch_bookkeeping batchExample hv h0).1, (batch_bookkeeping batchExample hv h0).2.1⟩

end Dance
